import Mathlib

/-!
SmartMap: a shallow embedding of the heterogeneous keyed object store.

The C++ class `SmartMap` (include/SmartMap.hpp, include/SmartMap.inl,
src/SmartMap.cpp) keeps all of its data in static variable templates that are
keyed by the address of the container.  The embedding makes that global state
explicit (`SmartMap.State`) and turns every member function into a function on
states.

Conventions of the embedding

* A C++ type (used as value type `T` or as key type `K`) is a `TypeTag`.
* Values and keys are natural numbers; a default-initialised value is `0`.
* `std::unordered_map` is an association list (`Assoc`); it is never iterated
  by the program, so the order of the entries is not observable.
* `std::vector` of an `ObjectPool` is a list together with the identity `buf`
  of its heap buffer and its capacity `cap`; a reallocation takes a fresh
  buffer identity (`emplace_back` reallocates when the vector is full and
  doubles the capacity).  The address of slot `i` is the pair `⟨buf, i⟩`.
* A function pointer stored in a `TypeHelper` is represented by the template
  arguments of the function it designates (`none` is `nullptr`).
* `Pointer<T>` objects live in `State.ptrs`, keyed by their type and address.
  A `Pointer` is constructed in the storage at the address `State.nextPtr`.
  The statements of a client program (`Op`) construct every `Pointer` in
  storage that no earlier `Pointer` occupied; the construction of a `Pointer`
  in the storage of a destroyed one, which C++ allows, is `reuseStorage`.
* Undefined behaviour of the C++ program (indexing a vector out of bounds,
  writing through a pointer to a destroyed `Pointer`, `key()` of an empty node
  handle, a member call on a destroyed container, dereferencing a null or
  dangling object pointer) is the result `none`.
-/

/-! ## Primitive types -/

/-- A C++ type used as a template argument (value type or key type). -/
abbrev TypeTag := Nat
/-- Address of a `SmartMap` object; `Option MapPtr` is a nullable `SmartMap*`. -/
abbrev MapPtr := Nat
/-- Address of a `Pointer<T>` object. -/
abbrev PtrAddr := Nat
/-- A key value of some key type. -/
abbrev Key := Nat
/-- A stored value of some value type. -/
abbrev Val := Nat
/-- Index into the vector of an object pool (`Id<T>`). -/
abbrev SmartMap.Id := Nat
/-- The `unsigned` type id (`SmartMap::TypeId`). -/
abbrev TypeId := Nat

/-! ## Association lists (std::unordered_map) -/

/-- Association list standing for a `std::unordered_map`. -/
abbrev Assoc (κ ν : Type) := List (κ × ν)

namespace Assoc

variable {κ ν : Type} [DecidableEq κ]

/-- Lookup of a key (`find`). -/
def find : Assoc κ ν → κ → Option ν
  | [], _ => none
  | (k', v) :: r, k => if k' = k then some v else find r k

/-- Insert or overwrite the entry of a key. -/
def set : Assoc κ ν → κ → ν → Assoc κ ν
  | [], k, v => [(k, v)]
  | (k', v') :: r, k, v => if k' = k then (k, v) :: r else (k', v') :: set r k v

/-- Remove the entry of a key (`erase`). -/
def erase : Assoc κ ν → κ → Assoc κ ν
  | [], _ => []
  | (k', v') :: r, k => if k' = k then erase r k else (k', v') :: erase r k

/-- The map after `operator[]`: a missing key gets a default-constructed value. -/
def ensure (m : Assoc κ ν) (k : κ) (d : ν) : Assoc κ ν :=
  match find m k with
  | some _ => m
  | none => set m k d

/-- The value `operator[]` refers to. -/
def getD (m : Assoc κ ν) (k : κ) (d : ν) : ν :=
  (find m k).getD d

end Assoc

/-! ## ObjectPool -/

/-- Address of an object inside the buffer of a pool vector. -/
structure ObjAddr where
  buf : Nat
  idx : Nat
deriving DecidableEq, Repr

/-- The struct `ObjectPool<T>::Wrapper`. -/
structure SmartMap.Wrapper (α : Type) where
  o : α
  active : Bool
deriving DecidableEq, Repr

/-- The struct `ObjectPool<T>`; `buf` and `cap` are the buffer identity and the
capacity of the vector `data`. -/
structure SmartMap.ObjectPool (α : Type) where
  data : List (SmartMap.Wrapper α) := []
  invalidated : Bool := false
  buf : Nat := 0
  cap : Nat := 0
deriving DecidableEq, Repr

/-- The class template `SmartMap::Pointer<T>`. -/
structure SmartMap.Pointer where
  _map : Option MapPtr
  _objectId : SmartMap.Id
  _objectPtr : Option ObjAddr
  _pointerId : SmartMap.Id
deriving DecidableEq, Repr

/-- The struct `SmartMap::TypeHelper`.  `some T` stands for the address of the
instantiation for `T` of the function named in the comment of the field. -/
structure SmartMap.TypeHelper where
  pointerMapDataUpdater : Option TypeTag := none
  poolMover : Option TypeTag := none
  pointerPoolMover : Option TypeTag := none
  idMapMovers : List (Option (TypeTag × TypeTag)) := []
  poolCopier : Option TypeTag := none
  pointerPoolCopier : Option TypeTag := none
  idMapCopiers : List (Option (TypeTag × TypeTag)) := []
deriving DecidableEq, Repr

/-- The non-static data of a `SmartMap` object. -/
structure SmartMap where
  _typeHelpers : List SmartMap.TypeHelper := []
deriving DecidableEq, Repr

namespace SmartMap

/-- The static data of the program together with the live objects. -/
structure State where
  /-- the function-local static `typeIdCounter` of `getTypeId<T>` -/
  typeIdCounter : Assoc TypeTag TypeId := []
  /-- the function-local static `typeId` of `getPointer<T, K>` (absent: not yet initialised) -/
  getPointerTypeId : Assoc (TypeTag × TypeTag) TypeId := []
  /-- the function-local static `typeId` of `TypeHelper::addIdMapFunctions<T, K>` -/
  addIdMapTypeId : Assoc (TypeTag × TypeTag) TypeId := []
  /-- the variable template `poolMap<T>` -/
  poolMap : Assoc (TypeTag × MapPtr) (ObjectPool Val) := []
  /-- the variable template `pointerPoolMap<T>` -/
  pointerPoolMap : Assoc (TypeTag × MapPtr) (ObjectPool PtrAddr) := []
  /-- the variable template `idMapMap<T, K>` -/
  idMapMap : Assoc (TypeTag × TypeTag × MapPtr) (Assoc Key Id) := []
  /-- the live `SmartMap` objects -/
  maps : Assoc MapPtr SmartMap := []
  /-- the live `Pointer<T>` objects -/
  ptrs : Assoc (TypeTag × PtrAddr) Pointer := []
  /-- next unused buffer identity of the allocator -/
  nextBuf : Nat := 1
  /-- address of the storage in which the next `Pointer` object is constructed -/
  nextPtr : PtrAddr := 1
deriving DecidableEq, Repr

/-- The state at program start. -/
def State.init : State := {}

/-! ## ObjectPool member functions -/

/-- The loop of `firstInactiveId`: the index of the first inactive wrapper and
the vector with that wrapper activated. -/
def scanInactive {α : Type} : List (Wrapper α) → Option (Id × List (Wrapper α))
  | [] => none
  | w :: ws =>
    if w.active then (scanInactive ws).map (fun r => (r.1 + 1, w :: r.2))
    else some (0, { w with active := true } :: ws)

/-- Capacity of a vector after a reallocating `emplace_back` (doubling). -/
def vecGrowth (cap : Nat) : Nat := if cap = 0 then 1 else 2 * cap

/-- The function `ObjectPool<T>::firstInactiveId`; `heap` is the next unused
buffer identity, the third component the one after the call. -/
def ObjectPool.firstInactiveId {α : Type} [Inhabited α] (p : ObjectPool α) (heap : Nat) :
    Id × ObjectPool α × Nat :=
  match scanInactive p.data with
  | some (i, d) => (i, { p with data := d }, heap)
  | none =>
    if p.data.length < p.cap then
      (p.data.length,
        { p with data := p.data ++ [⟨default, true⟩], invalidated := true }, heap)
    else
      (p.data.length,
        { data := p.data ++ [⟨default, true⟩], invalidated := true, buf := heap,
          cap := vecGrowth p.cap }, heap + 1)

/-- The address `&pool[id]` (`ObjectPool<T>::operator[]`), undefined out of bounds. -/
def ObjectPool.addr {α : Type} (p : ObjectPool α) (id : Id) : Option ObjAddr :=
  if id < p.data.length then some ⟨p.buf, id⟩ else none

/-- Copy assignment of an `ObjectPool` (vector copy assignment keeps the buffer
of the target when its capacity suffices). -/
def ObjectPool.assign {α : Type} (dst src : ObjectPool α) (heap : Nat) : ObjectPool α × Nat :=
  if dst.cap < src.data.length then
    ({ data := src.data, invalidated := src.invalidated, buf := heap,
       cap := src.data.length }, heap + 1)
  else
    ({ dst with data := src.data, invalidated := src.invalidated }, heap)

/-- Overwrite the field `o` of the wrapper at an index. -/
def setO {α : Type} : List (Wrapper α) → Id → α → List (Wrapper α)
  | [], _, _ => []
  | w :: ws, 0, v => { w with o := v } :: ws
  | w :: ws, i + 1, v => w :: setO ws i v

/-- Overwrite the field `active` of the wrapper at an index. -/
def setActive {α : Type} : List (Wrapper α) → Id → Bool → List (Wrapper α)
  | [], _, _ => []
  | w :: ws, 0, b => { w with active := b } :: ws
  | w :: ws, i + 1, b => w :: setActive ws i b

/-! ## Type ids -/

/-- The function template `getTypeId<T>`: its function-local static counter is
returned and then incremented (`unsigned` arithmetic). -/
def getTypeId (T : TypeTag) (s : State) : TypeId × State :=
  let n := s.typeIdCounter.getD T 0
  (n, { s with typeIdCounter := s.typeIdCounter.set T ((n + 1) % 2 ^ 32) })

/-- The declaration `static const auto typeId = getTypeId<T>();` of
`getPointer<T, K>`: initialised when control first passes through it. -/
def getPointerStatic (T K : TypeTag) (s : State) : TypeId × State :=
  match s.getPointerTypeId.find (T, K) with
  | some t => (t, s)
  | none =>
    let r := getTypeId T s
    (r.1, { r.2 with getPointerTypeId := r.2.getPointerTypeId.set (T, K) r.1 })

/-- The declaration `static const auto typeId = getTypeId<K>();` of
`TypeHelper::addIdMapFunctions<T, K>`. -/
def addIdMapStatic (T K : TypeTag) (s : State) : TypeId × State :=
  match s.addIdMapTypeId.find (T, K) with
  | some t => (t, s)
  | none =>
    let r := getTypeId K s
    (r.1, { r.2 with addIdMapTypeId := r.2.addIdMapTypeId.set (T, K) r.1 })

/-! ## TypeHelper -/

/-- The call `v.resize(n, d)` of a vector that is shorter than `n`. -/
def resize {α : Type} (v : List α) (n : Nat) (d : α) : List α :=
  v ++ List.replicate (n - v.length) d

/-- The function template `TypeHelper::init<T>`. -/
def TypeHelper.init (h : TypeHelper) (T : TypeTag) : TypeHelper :=
  { h with pointerMapDataUpdater := some T, poolMover := some T, pointerPoolMover := some T,
           poolCopier := some T, pointerPoolCopier := some T }

/-- The steps "resize if necessary, fill the entry if it is null" that
`addIdMapFunctions` applies to `idMapMovers` and to `idMapCopiers`. -/
def installIdMapFn (v : List (Option (TypeTag × TypeTag))) (typeId : TypeId)
    (f : TypeTag × TypeTag) : List (Option (TypeTag × TypeTag)) :=
  let v1 := if v.length ≤ typeId then resize v (typeId + 1) none else v
  if v1.get? typeId = some none then v1.set typeId (some f) else v1

/-- The function template `TypeHelper::addIdMapFunctions<T, K>`, after its
static `typeId` has been read. -/
def TypeHelper.addIdMapFunctions (h : TypeHelper) (typeId : TypeId) (T K : TypeTag) :
    TypeHelper :=
  { h with idMapMovers := installIdMapFn h.idMapMovers typeId (T, K),
           idMapCopiers := installIdMapFn h.idMapCopiers typeId (T, K) }

/-- Lines 155-164 of `getPointer<T, K>`: make room in `_typeHelpers`, initialise
the helper at `typeId` if it is uninitialised, add the id map functions. -/
def installTypeHelper (this : MapPtr) (typeId : TypeId) (T K : TypeTag) (s : State) :
    Option State := do
  let m ← s.maps.find this
  let hs := if m._typeHelpers.length ≤ typeId then resize m._typeHelpers (typeId + 1) {}
            else m._typeHelpers
  let h ← hs.get? typeId
  let h1 := if h.pointerMapDataUpdater = none then h.init T else h
  let r := addIdMapStatic T K s
  let h2 := h1.addIdMapFunctions r.1 T K
  some { r.2 with maps := r.2.maps.set this { _typeHelpers := hs.set typeId h2 } }

/-! ## Registration of Pointer objects -/

/-- The member function template `registerPointer<T>`, called on the container `this`
with the address `p` of a `Pointer<T>`. -/
def registerPointer (T : TypeTag) (this : MapPtr) (p : PtrAddr) (s : State) :
    Option (Id × State) := do
  let _ ← s.maps.find this
  let pointerPool := s.pointerPoolMap.getD (T, this) {}
  let r := pointerPool.firstInactiveId s.nextBuf
  some (r.1, { s with
    pointerPoolMap := s.pointerPoolMap.set (T, this) { r.2.1 with data := setO r.2.1.data r.1 p },
    nextBuf := r.2.2 })

/-- The member function template `unregisterPointer<T>`. -/
def unregisterPointer (T : TypeTag) (this : MapPtr) (pId : Id) (s : State) : Option State := do
  let _ ← s.maps.find this
  let pointerPool := s.pointerPoolMap.getD (T, this) {}
  if pId < pointerPool.data.length then
    some { s with pointerPoolMap :=
      s.pointerPoolMap.set (T, this) { pointerPool with data := setActive pointerPool.data pId false } }
  else none

/-- The loop of `updatePointerObjectData<T>` over the wrappers of the pointer pool. -/
def updateObjectPtrs (T : TypeTag) (pool : ObjectPool Val) :
    List (Wrapper PtrAddr) → Assoc (TypeTag × PtrAddr) Pointer →
    Option (Assoc (TypeTag × PtrAddr) Pointer)
  | [], ptrs => some ptrs
  | p :: ps, ptrs =>
    if p.active then
      match ptrs.find (T, p.o) with
      | none => none
      | some h =>
        match pool.addr h._objectId with
        | none => none
        | some a => updateObjectPtrs T pool ps (ptrs.set (T, p.o) { h with _objectPtr := some a })
    else updateObjectPtrs T pool ps ptrs

/-- The member function template `updatePointerObjectData<T>`. -/
def updatePointerObjectData (T : TypeTag) (this : MapPtr) (s : State) : Option State := do
  let pool := s.poolMap.getD (T, this) {}
  let pointerPool := s.pointerPoolMap.getD (T, this) {}
  let ptrs ← updateObjectPtrs T pool pointerPool.data s.ptrs
  some { s with
    poolMap := s.poolMap.set (T, this) { pool with invalidated := false },
    pointerPoolMap := s.pointerPoolMap.ensure (T, this) {},
    ptrs := ptrs }

/-- The loop of `updatePointerMapData<T>` over the wrappers of the pointer pool. -/
def updateMapPtrs (T : TypeTag) (newMap : Option MapPtr) :
    List (Wrapper PtrAddr) → Assoc (TypeTag × PtrAddr) Pointer →
    Option (Assoc (TypeTag × PtrAddr) Pointer)
  | [], ptrs => some ptrs
  | p :: ps, ptrs =>
    if p.active then
      match ptrs.find (T, p.o) with
      | none => none
      | some h => updateMapPtrs T newMap ps (ptrs.set (T, p.o) { h with _map := newMap })
    else updateMapPtrs T newMap ps ptrs

/-- The static member function template `updatePointerMapData<T>`. -/
def updatePointerMapData (T : TypeTag) (oldMap : MapPtr) (newMap : Option MapPtr) (s : State) :
    Option State := do
  let pointerPool := s.pointerPoolMap.getD (T, oldMap) {}
  let ptrs ← updateMapPtrs T newMap pointerPool.data s.ptrs
  some { s with pointerPoolMap := s.pointerPoolMap.ensure (T, oldMap) {}, ptrs := ptrs }

/-! ## Pointer: construction by the container -/

/-- The private constructor `Pointer(SmartMap* m, Id<T> objectId, T* objectPtr)`;
the new object gets the address `s.nextPtr`, which is returned. -/
def Pointer.construct (T : TypeTag) (m : MapPtr) (objectId : Id) (objectPtr : ObjAddr)
    (s : State) : Option (PtrAddr × State) := do
  let this := s.nextPtr
  let r ← registerPointer T m this s
  some (this, { r.2 with
    ptrs := r.2.ptrs.set (T, this)
      { _map := some m, _objectId := objectId, _objectPtr := some objectPtr, _pointerId := r.1 },
    nextPtr := this + 1 })

/-! ## getPointer -/

/-- The call `pool.firstInactiveId()` on `poolMap<T>[this]`. -/
def poolFirstInactiveId (T : TypeTag) (this : MapPtr) (s : State) : Id × State :=
  let r := (s.poolMap.getD (T, this) {}).firstInactiveId s.nextBuf
  (r.1, { s with poolMap := s.poolMap.set (T, this) r.2.1, nextBuf := r.2.2 })

/-- The statement `if (pool.invalidated) updatePointerObjectData<T>();`. -/
def resyncIfInvalidated (T : TypeTag) (this : MapPtr) (s : State) : Option State :=
  if (s.poolMap.getD (T, this) {}).invalidated then updatePointerObjectData T this s
  else some s

/-- The statement `idMap[key] = newId;` on `idMapMap<T, K>[this]`. -/
def assignId (this : MapPtr) (T K : TypeTag) (key : Key) (newId : Id) (s : State) : State :=
  { s with idMapMap :=
      s.idMapMap.set (T, K, this) ((s.idMapMap.getD (T, K, this) []).set key newId) }

/-- The branch of `getPointer<T, K>` for a key that is not in the id map. -/
def getPointerNew (this : MapPtr) (typeId : TypeId) (T K : TypeTag) (key : Key) (s : State) :
    Option (PtrAddr × State) := do
  let s1 ← installTypeHelper this typeId T K s
  let r := poolFirstInactiveId T this s1
  let s2 ← resyncIfInvalidated T this r.2
  let s3 := assignId this T K key r.1 s2
  let a ← (s3.poolMap.getD (T, this) {}).addr r.1
  Pointer.construct T this r.1 a s3

/-- The two accesses `idMapMap<T, K>[this]` and `poolMap<T>[this]` at the start
of `getPointer<T, K>`, which create missing entries. -/
def accessMaps (this : MapPtr) (T K : TypeTag) (s : State) : State :=
  { s with idMapMap := s.idMapMap.ensure (T, K, this) [],
           poolMap := s.poolMap.ensure (T, this) {} }

/-- The member function template `getPointer<T, K>(const K& key)` called on the
container at address `this`; returns the address of the returned `Pointer<T>`. -/
def getPointer (this : MapPtr) (T K : TypeTag) (key : Key) (s : State) :
    Option (PtrAddr × State) := do
  let _ ← s.maps.find this
  let r := getPointerStatic T K s
  let typeId := r.1
  let s1 := accessMaps this T K r.2
  match (s1.idMapMap.getD (T, K, this) []).find key with
  | none => getPointerNew this typeId T K key s1
  | some id =>
    let a ← (s1.poolMap.getD (T, this) {}).addr id
    Pointer.construct T this id a s1

/-! ## Movers and copiers of the static maps -/

/-- The steps `extract(oldMap)`, `node.key() = newMap`, `insert(std::move(node))`
on an unordered map.  `key()` of the empty node handle of a missing key is
undefined; inserting a node whose key is present leaves the map unchanged and
destroys the node. -/
def moveNode {κ ν : Type} [DecidableEq κ] (m : Assoc κ ν) (oldKey newKey : κ) :
    Option (Assoc κ ν) :=
  match m.find oldKey with
  | none => none
  | some v =>
    match (m.erase oldKey).find newKey with
    | some _ => some (m.erase oldKey)
    | none => some ((m.erase oldKey).set newKey v)

/-- The static member function template `movePool<T>`. -/
def movePool (T : TypeTag) (oldMap : MapPtr) (newMap : Option MapPtr) (s : State) :
    Option State :=
  match newMap with
  | none => some { s with poolMap := s.poolMap.erase (T, oldMap) }
  | some n => (moveNode s.poolMap (T, oldMap) (T, n)).map (fun m => { s with poolMap := m })

/-- The static member function template `movePointerPool<T>`. -/
def movePointerPool (T : TypeTag) (oldMap : MapPtr) (newMap : Option MapPtr) (s : State) :
    Option State :=
  match newMap with
  | none => some { s with pointerPoolMap := s.pointerPoolMap.erase (T, oldMap) }
  | some n =>
    (moveNode s.pointerPoolMap (T, oldMap) (T, n)).map (fun m => { s with pointerPoolMap := m })

/-- The static member function template `moveIdMap<T, K>`. -/
def moveIdMap (T K : TypeTag) (oldMap : MapPtr) (newMap : Option MapPtr) (s : State) :
    Option State :=
  match newMap with
  | none => some { s with idMapMap := s.idMapMap.erase (T, K, oldMap) }
  | some n =>
    (moveNode s.idMapMap (T, K, oldMap) (T, K, n)).map (fun m => { s with idMapMap := m })

/-- The static member function template `copyPool<T>`:
`poolMap<T>[newMap] = poolMap<T>[oldMap]`. -/
def copyPool (T : TypeTag) (oldMap newMap : MapPtr) (s : State) : State :=
  let m := (s.poolMap.ensure (T, oldMap) {}).ensure (T, newMap) {}
  if oldMap = newMap then { s with poolMap := m }
  else
    let r := (m.getD (T, newMap) {}).assign (m.getD (T, oldMap) {}) s.nextBuf
    { s with poolMap := m.set (T, newMap) r.1, nextBuf := r.2 }

/-- The static member function template `copyPointerPool<T>`:
`pointerPoolMap<T>[newMap] = pointerPoolMap<T>[oldMap]`. -/
def copyPointerPool (T : TypeTag) (oldMap newMap : MapPtr) (s : State) : State :=
  let m := (s.pointerPoolMap.ensure (T, oldMap) {}).ensure (T, newMap) {}
  if oldMap = newMap then { s with pointerPoolMap := m }
  else
    let r := (m.getD (T, newMap) {}).assign (m.getD (T, oldMap) {}) s.nextBuf
    { s with pointerPoolMap := m.set (T, newMap) r.1, nextBuf := r.2 }

/-- The static member function template `copyIdMap<T, K>`:
`idMapMap<T,K>[newMap] = idMapMap<T,K>[oldMap]`. -/
def copyIdMap (T K : TypeTag) (oldMap newMap : MapPtr) (s : State) : State :=
  let m := (s.idMapMap.ensure (T, K, oldMap) []).ensure (T, K, newMap) []
  { s with idMapMap := m.set (T, K, newMap) (m.getD (T, K, oldMap) []) }

/-! ## moveData and copyData -/

/-- The inner loop of `moveData` over `m.idMapMovers`. -/
def runIdMapMovers (oldMap : MapPtr) (newMap : Option MapPtr) :
    List (Option (TypeTag × TypeTag)) → State → Option State
  | [], s => some s
  | none :: r, s => runIdMapMovers oldMap newMap r s
  | some f :: r, s =>
    match moveIdMap f.1 f.2 oldMap newMap s with
    | none => none
    | some s1 => runIdMapMovers oldMap newMap r s1

/-- The body of the loop of `moveData` for one `TypeHelper`. -/
def moveHelper (m : TypeHelper) (oldMap : MapPtr) (newMap : Option MapPtr) (s : State) :
    Option State :=
  match m.pointerMapDataUpdater with
  | none => some s
  | some tu => do
    let s1 ← updatePointerMapData tu oldMap newMap s
    let tp ← m.poolMover
    let s2 ← movePool tp oldMap newMap s1
    let tq ← m.pointerPoolMover
    let s3 ← movePointerPool tq oldMap newMap s2
    runIdMapMovers oldMap newMap m.idMapMovers s3

/-- The outer loop of `moveData` over `_typeHelpers`. -/
def moveDataLoop (oldMap : MapPtr) (newMap : Option MapPtr) :
    List TypeHelper → State → Option State
  | [], s => some s
  | m :: r, s =>
    match moveHelper m oldMap newMap s with
    | none => none
    | some s1 => moveDataLoop oldMap newMap r s1

/-- The member function `moveData(oldMap, newMap)` called on the container `this`. -/
def moveData (this : MapPtr) (oldMap : MapPtr) (newMap : Option MapPtr) (s : State) :
    Option State := do
  let m ← s.maps.find this
  moveDataLoop oldMap newMap m._typeHelpers s

/-- The inner loop of `copyData` over `m.idMapCopiers`. -/
def runIdMapCopiers (oldMap newMap : MapPtr) :
    List (Option (TypeTag × TypeTag)) → State → State
  | [], s => s
  | none :: r, s => runIdMapCopiers oldMap newMap r s
  | some f :: r, s => runIdMapCopiers oldMap newMap r (copyIdMap f.1 f.2 oldMap newMap s)

/-- The body of the loop of `copyData` for one `TypeHelper`. -/
def copyHelper (m : TypeHelper) (oldMap newMap : MapPtr) (s : State) : Option State :=
  match m.pointerMapDataUpdater with
  | none => some s
  | some _ => do
    let tp ← m.poolCopier
    let s1 := copyPool tp oldMap newMap s
    let tq ← m.pointerPoolCopier
    let s2 := copyPointerPool tq oldMap newMap s1
    some (runIdMapCopiers oldMap newMap m.idMapCopiers s2)

/-- The loop of `copyData` over `_typeHelpers`. -/
def copyDataLoop (oldMap newMap : MapPtr) : List TypeHelper → State → Option State
  | [], s => some s
  | m :: r, s =>
    match copyHelper m oldMap newMap s with
    | none => none
    | some s1 => copyDataLoop oldMap newMap r s1

/-- The member function `copyData(oldMap, newMap)` called on the container `this`. -/
def copyData (this : MapPtr) (oldMap : MapPtr) (newMap : Option MapPtr) (s : State) :
    Option State :=
  match newMap with
  | none => some s
  | some n => do
    let m ← s.maps.find this
    copyDataLoop oldMap n m._typeHelpers s

/-! ## Special member functions of SmartMap -/

/-- The defaulted constructor `SmartMap()` of an object at address `this`. -/
def defaultConstruct (this : MapPtr) (s : State) : Option State :=
  match s.maps.find this with
  | some _ => none
  | none => some { s with maps := s.maps.set this {} }

/-- The copy constructor `SmartMap(const SmartMap& other)`. -/
def copyConstruct (this other : MapPtr) (s : State) : Option State :=
  match s.maps.find this with
  | some _ => none
  | none => do
    let o ← s.maps.find other
    copyData this other (some this) { s with maps := s.maps.set this { _typeHelpers := o._typeHelpers } }

/-- The move constructor `SmartMap(SmartMap&& other)`; the moved-from vector
`other._typeHelpers` is empty. -/
def moveConstruct (this other : MapPtr) (s : State) : Option State :=
  match s.maps.find this with
  | some _ => none
  | none => do
    let o ← s.maps.find other
    let m1 := s.maps.set this { _typeHelpers := o._typeHelpers }
    moveData this other (some this) { s with maps := m1.set other { _typeHelpers := [] } }

/-- The copy assignment `operator=(const SmartMap& other)`. -/
def copyAssign (this other : MapPtr) (s : State) : Option State := do
  let s1 ← moveData this this none s
  let o ← s1.maps.find other
  let s2 := { s1 with maps := s1.maps.set this { _typeHelpers := o._typeHelpers } }
  copyData this other (some this) s2

/-- The move assignment `operator=(SmartMap&& other)`; moving a vector into
itself is left undefined. -/
def moveAssign (this other : MapPtr) (s : State) : Option State := do
  let s1 ← moveData this this none s
  let o ← s1.maps.find other
  if this = other then none
  else
    let m1 := s1.maps.set this { _typeHelpers := o._typeHelpers }
    moveData this other (some this) { s1 with maps := m1.set other { _typeHelpers := [] } }

/-- The destructor of `SmartMap`. -/
def destroy (this : MapPtr) (s : State) : Option State := do
  let s1 ← moveData this this none s
  some { s1 with maps := s1.maps.erase this }

/-! ## Special member functions of Pointer -/

/-- The default constructor `Pointer()`. -/
def Pointer.defaultConstruct (T : TypeTag) (s : State) : PtrAddr × State :=
  (s.nextPtr, { s with
    ptrs := s.ptrs.set (T, s.nextPtr)
      { _map := none, _objectId := 0, _objectPtr := none, _pointerId := 0 },
    nextPtr := s.nextPtr + 1 })

/-- The copy constructor `Pointer(const Pointer<T>& other)`. -/
def Pointer.copyConstruct (T : TypeTag) (other : PtrAddr) (s : State) :
    Option (PtrAddr × State) := do
  let o ← s.ptrs.find (T, other)
  let this := s.nextPtr
  let r ← match o._map with
    | some m => registerPointer T m this s
    | none => some (0, s)
  some (this, { r.2 with
    ptrs := r.2.ptrs.set (T, this) { o with _pointerId := r.1 },
    nextPtr := this + 1 })

/-- The statements that put `other` into the moved-from state:
unregister it if it is attached, then null `_map` and `_objectPtr`. -/
def Pointer.release (T : TypeTag) (other : PtrAddr) (s : State) : Option State := do
  let o ← s.ptrs.find (T, other)
  let s1 ← match o._map with
    | some m => unregisterPointer T m o._pointerId s
    | none => some s
  some { s1 with ptrs := s1.ptrs.set (T, other) { o with _map := none, _objectPtr := none } }

/-- The move constructor `Pointer(Pointer<T>&& other)`. -/
def Pointer.moveConstruct (T : TypeTag) (other : PtrAddr) (s : State) :
    Option (PtrAddr × State) := do
  let r ← Pointer.copyConstruct T other s
  let s1 ← Pointer.release T other r.2
  some (r.1, s1)

/-- The statements shared by both assignment operators: re-register `this`
when it is attached to another container than `other`, then copy the object
id and the object pointer. -/
def Pointer.assignFields (T : TypeTag) (this other : PtrAddr) (s : State) : Option State := do
  let t ← s.ptrs.find (T, this)
  let o ← s.ptrs.find (T, other)
  let s1 ← match t._map with
    | none => some s
    | some m =>
      if t._map ≠ o._map then do
        let s2 ← unregisterPointer T m t._pointerId s
        let m1 ← o._map
        let r ← registerPointer T m1 this s2
        some { r.2 with ptrs := r.2.ptrs.set (T, this) { t with _map := some m1, _pointerId := r.1 } }
      else some s
  let t1 ← s1.ptrs.find (T, this)
  let o1 ← s1.ptrs.find (T, other)
  let t2 : Pointer := { t1 with _objectId := o1._objectId, _objectPtr := o1._objectPtr }
  some { s1 with ptrs := s1.ptrs.set (T, this) t2 }

/-- The copy assignment `operator=(const Pointer<T>& other)`. -/
def Pointer.copyAssign (T : TypeTag) (this other : PtrAddr) (s : State) : Option State :=
  Pointer.assignFields T this other s

/-- The move assignment `operator=(Pointer<T>&& other)`. -/
def Pointer.moveAssign (T : TypeTag) (this other : PtrAddr) (s : State) : Option State := do
  let s1 ← Pointer.assignFields T this other s
  Pointer.release T other s1

/-- The destructor of `Pointer<T>`. -/
def Pointer.destroy (T : TypeTag) (this : PtrAddr) (s : State) : Option State := do
  let t ← s.ptrs.find (T, this)
  let s1 ← match t._map with
    | some m => unregisterPointer T m t._pointerId s
    | none => some s
  some { s1 with ptrs := s1.ptrs.erase (T, this) }

/-! ## Dereferencing -/

/-- The pool of value type `T` whose vector owns the buffer `b`. -/
def findBuf (T : TypeTag) (b : Nat) :
    Assoc (TypeTag × MapPtr) (ObjectPool Val) → Option ((TypeTag × MapPtr) × ObjectPool Val)
  | [] => none
  | (k, p) :: r => if k.1 = T ∧ p.buf = b then some (k, p) else findBuf T b r

/-- Read the `T` object at an address. -/
def load (T : TypeTag) (a : ObjAddr) (s : State) : Option Val := do
  let e ← findBuf T a.buf s.poolMap
  let w ← e.2.data.get? a.idx
  some w.o

/-- Write the `T` object at an address. -/
def store (T : TypeTag) (a : ObjAddr) (v : Val) (s : State) : Option State := do
  let e ← findBuf T a.buf s.poolMap
  if a.idx < e.2.data.length then
    some { s with poolMap := s.poolMap.set e.1 { e.2 with data := setO e.2.data a.idx v } }
  else none

/-- Reading through `operator*`: the value of `*p`. -/
def Pointer.read (T : TypeTag) (this : PtrAddr) (s : State) : Option Val := do
  let h ← s.ptrs.find (T, this)
  let a ← h._objectPtr
  load T a s

/-- Writing through `operator*`: the assignment `*p = v`. -/
def Pointer.write (T : TypeTag) (this : PtrAddr) (v : Val) (s : State) : Option State := do
  let h ← s.ptrs.find (T, this)
  let a ← h._objectPtr
  store T a v s

/-! ## Client programs -/

/-- One statement of a client program of the class. -/
inductive Op where
  /-- the definition `SmartMap c;` -/
  | newMap (c : MapPtr)
  /-- the definition `SmartMap c = other;` -/
  | copyMap (c other : MapPtr)
  /-- the definition `SmartMap c = std::move(other);` -/
  | moveMap (c other : MapPtr)
  /-- the statement `c = other;` -/
  | assignMap (c other : MapPtr)
  /-- the statement `c = std::move(other);` -/
  | moveAssignMap (c other : MapPtr)
  /-- the end of the lifetime of the container `c` -/
  | deleteMap (c : MapPtr)
  /-- the definition `auto p = c.getPointer<T, K>(key);` -/
  | get (c : MapPtr) (T K : TypeTag) (key : Key)
  /-- the definition `SmartMap::Pointer<T> p;` -/
  | newPtr (T : TypeTag)
  /-- the definition `auto p = other;` -/
  | copyPtr (T : TypeTag) (other : PtrAddr)
  /-- the definition `auto p = std::move(other);` -/
  | movePtr (T : TypeTag) (other : PtrAddr)
  /-- the statement `p = other;` -/
  | assignPtr (T : TypeTag) (p other : PtrAddr)
  /-- the statement `p = std::move(other);` -/
  | moveAssignPtr (T : TypeTag) (p other : PtrAddr)
  /-- the end of the lifetime of the pointer `p` -/
  | deletePtr (T : TypeTag) (p : PtrAddr)
  /-- the statement `*p = v;` -/
  | write (T : TypeTag) (p : PtrAddr) (v : Val)
deriving DecidableEq, Repr

/-- Effect of one statement on the state. -/
def step (s : State) : Op → Option State
  | .newMap c => defaultConstruct c s
  | .copyMap c other => copyConstruct c other s
  | .moveMap c other => moveConstruct c other s
  | .assignMap c other => copyAssign c other s
  | .moveAssignMap c other => moveAssign c other s
  | .deleteMap c => destroy c s
  | .get c T K key => (getPointer c T K key s).map Prod.snd
  | .newPtr T => some (Pointer.defaultConstruct T s).2
  | .copyPtr T other => (Pointer.copyConstruct T other s).map Prod.snd
  | .movePtr T other => (Pointer.moveConstruct T other s).map Prod.snd
  | .assignPtr T p other => Pointer.copyAssign T p other s
  | .moveAssignPtr T p other => Pointer.moveAssign T p other s
  | .deletePtr T p => Pointer.destroy T p s
  | .write T p v => Pointer.write T p v s

/-- Effect of a sequence of statements. -/
def run : List Op → State → Option State
  | [], s => some s
  | op :: ops, s =>
    match step s op with
    | none => none
    | some s1 => run ops s1

/-- A sequence of calls `c.getPointer<T, K>(key)` on one container, each given
by its `(T, K, key)`; the returned pointers stay alive. -/
def lookups (c : MapPtr) : List (TypeTag × TypeTag × Key) → State → Option State
  | [], s => some s
  | q :: qs, s =>
    match getPointer c q.1 q.2.1 q.2.2 s with
    | none => none
    | some r => lookups c qs r.2

/-! ## Predicates on states -/

/-- The value stored in slot `id` of `poolMap<T>[c]`. -/
def slotValue (s : State) (c : MapPtr) (T : TypeTag) (id : Id) : Option Val :=
  (s.poolMap.getD (T, c) {}).data[id]?.map (fun w => w.o)

/-- The slot id that `idMapMap<T, K>[c]` gives to a key. -/
def keyIndex (s : State) (c : MapPtr) (T K : TypeTag) (k : Key) : Option Id :=
  (s.idMapMap.getD (T, K, c) []).find k

/-- The live `Pointer<T>` at address `a` is attached to the container `c`, has
object id `id`, which is inside `poolMap<T>[c]`, and the wrapper with its
pointer id in `pointerPoolMap<T>[c]` is active and holds its address. -/
def Registered (s : State) (c : MapPtr) (T : TypeTag) (a : PtrAddr) (id : Id) : Prop :=
  a < s.nextPtr ∧ ∃ h, s.ptrs.find (T, a) = some h ∧ h._objectId = id ∧ h._map = some c ∧
    (s.pointerPoolMap.getD (T, c) {}).data[h._pointerId]? = some ⟨a, true⟩ ∧
    id < (s.poolMap.getD (T, c) {}).data.length

/-- The object pointer cached in the `Pointer<T>` at address `a` is the address
of slot `id` of `poolMap<T>[c]`. -/
def Synced (s : State) (c : MapPtr) (T : TypeTag) (a : PtrAddr) (id : Id) : Prop :=
  ∃ h, s.ptrs.find (T, a) = some h ∧
    h._objectPtr = some ⟨(s.poolMap.getD (T, c) {}).buf, id⟩

/-- The two states have the same pools, id maps, pointers and allocator state
(they may differ in the type id statics and in the `_typeHelpers`). -/
def SameData (s s' : State) : Prop :=
  s'.ptrs = s.ptrs ∧ s'.nextPtr = s.nextPtr ∧ s'.poolMap = s.poolMap ∧
  s'.pointerPoolMap = s.pointerPoolMap ∧ s'.idMapMap = s.idMapMap ∧ s'.nextBuf = s.nextBuf

/-- The facts about a pointer that do not depend on its cached object pointer:
it is registered with `c`, slot `id` holds `v`, and the key `k` has slot `id`. -/
def TrackedW (s : State) (c : MapPtr) (T K : TypeTag) (k : Key) (a : PtrAddr) (id : Id)
    (v : Val) : Prop :=
  Registered s c T a id ∧ slotValue s c T id = some v ∧ keyIndex s c T K k = some id

/-- The pointer at `a` came from `c.getPointer<T, K>(k)`: it is registered with
`c`, its cached object pointer is the address of the slot of `k`, which holds `v`. -/
def Tracked (s : State) (c : MapPtr) (T K : TypeTag) (k : Key) (a : PtrAddr) (id : Id)
    (v : Val) : Prop :=
  TrackedW s c T K k a id v ∧ Synced s c T a id

/-- Well-formedness of the buffers of a map of pools with respect to the next
unused buffer identity `n`: the keys are distinct, every buffer identity is
below `n`, a vector is not longer than its capacity, a vector without a buffer
has capacity zero, and two pools do not share a buffer. -/
def PoolsWF (m : Assoc (TypeTag × MapPtr) (ObjectPool Val)) (n : Nat) : Prop :=
  0 < n ∧ (m.map Prod.fst).Nodup ∧
  (∀ k P, m.find k = some P → P.buf < n ∧ P.data.length ≤ P.cap ∧ (P.buf = 0 → P.cap = 0)) ∧
  (∀ k1 k2 P1 P2, m.find k1 = some P1 → m.find k2 = some P2 → P1.buf = P2.buf →
    P1.buf ≠ 0 → k1 = k2)

/-- Well-formedness of the buffers of `poolMap` in a state. -/
def BufWF (s : State) : Prop := PoolsWF s.poolMap s.nextBuf

/-- The state in which slot `id` of `poolMap<T>[c]` holds the value `v`. -/
def writeSlot (c : MapPtr) (T : TypeTag) (id : Id) (v : Val) (s : State) : State :=
  { s with poolMap := Assoc.set s.poolMap (T, c) { s.poolMap.getD (T, c) {} with
      data := setO (s.poolMap.getD (T, c) {}).data id v } }

/-! ## Concrete programs

Type tags: `0` is `std::string`, `1` is `int`.  Containers and pointers are
named by their addresses; the n-th constructed `Pointer` has address `n`. -/

/-- The state after `SmartMap c1;` at program start. -/
def oneMap : State := { State.init with maps := [(1, {})] }

/-- The state after `auto p1 = c1.getPointer<std::string, std::string>(k1);`. -/
def identityS1 : State := ((getPointer 1 0 0 1 oneMap).map Prod.snd).getD oneMap

/-- The state after two more lookups on `c1`: a new `std::string` key, which
makes the pool grow, and an `int` key. -/
def identityS2 : State := (lookups 1 [(0, 0, 2), (1, 0, 1)] identityS1).getD oneMap

/-- The member `_map` of the live `Pointer<T>` at address `a`. -/
def mapOf (s : State) (T : TypeTag) (a : PtrAddr) : Option (Option MapPtr) :=
  (s.ptrs.find (T, a)).map (fun h => h._map)

/-- The member `_objectId` of the live `Pointer<T>` at address `a`. -/
def objectIdOf (s : State) (T : TypeTag) (a : PtrAddr) : Option Id :=
  (s.ptrs.find (T, a)).map (fun h => h._objectId)

/-- The member `_objectPtr` of the live `Pointer<T>` at address `a`. -/
def objectPtrOf (s : State) (T : TypeTag) (a : PtrAddr) : Option (Option ObjAddr) :=
  (s.ptrs.find (T, a)).map (fun h => h._objectPtr)

/-- The state a program ends in (the start state if it does not end). -/
def finalState (prog : List Op) : State := (run prog State.init).getD State.init

/-- A container `c1` used with two value types and the same key type:
`p1 = c1.getPointer<std::string>(k1)`, `p2 = c1.getPointer<int>(k1)`, `*p2 = 10`. -/
def twoTypes : List Op := [.newMap 1, .get 1 0 0 1, .get 1 1 0 1, .write 1 2 10]

/-- After `twoTypes`: `SmartMap c5 = std::move(c1)`, then
`p3 = c5.getPointer<int>(k2)` and `p4 = c5.getPointer<int>(k1)`. -/
def sharedSlotProg : List Op := twoTypes ++ [.moveMap 5 1, .get 5 1 0 2, .get 5 1 0 1]

/-- A container `c1` with one key whose value is 7 is copied to `c2`; then
`p2 = c2.getPointer<std::string>(k2)` (a new key) and
`p3 = c2.getPointer<std::string>(k1)`. -/
def copyThenGrow : List Op :=
  [.newMap 1, .get 1 0 0 1, .write 0 1 7, .copyMap 2 1, .get 2 0 0 2, .get 2 0 0 1]

/-- After `twoTypes`: `SmartMap c5 = std::move(c1)`. -/
def moveTwoTypes : List Op := twoTypes ++ [.moveMap 5 1]

/-- After `twoTypes`: `SmartMap c3 = c1`. -/
def copyTwoTypes : List Op := twoTypes ++ [.copyMap 3 1]

/-- After `twoTypes`: the container `c1` is destroyed. -/
def destroyTwoTypes : List Op := twoTypes ++ [.deleteMap 1]

/-- After `destroyTwoTypes`: a new container is created at the address of the
destroyed one, and `p3 = c.getPointer<int>(k1)`. -/
def reuseAddress : List Op := destroyTwoTypes ++ [.newMap 1, .get 1 1 0 1]

/-- After `moveTwoTypes`: `p3 = c1.getPointer<int>(k1)` on the moved-from container. -/
def reuseMovedFrom : List Op := moveTwoTypes ++ [.get 1 1 0 1]

/-- The step from `s` to `s'` leaves `poolMap` as it is and takes buffer
identities only from the allocator. -/
def PoolsKept (s s' : State) : Prop := s'.poolMap = s.poolMap ∧ s.nextBuf ≤ s'.nextBuf

/-- The states that client programs reach from the state at program start. -/
def Reachable (s : State) : Prop := ∃ prog, run prog State.init = some s

/-- The container `c` is consistent: it is live; every slot of its pools is
active; every slot id of its id maps is inside the pool of the value type and
belongs to one key of one key type only; every active wrapper of its pointer
pools names a live pointer whose object id is inside the pool. -/
structure Clean (s : State) (c : MapPtr) : Prop where
  live : s.maps.find c ≠ none
  active : ∀ (T : TypeTag) (w : Wrapper Val), w ∈ (s.poolMap.getD (T, c) {}).data → w.active = true
  inBounds : ∀ (T K : TypeTag) (k : Key) (id : Id), keyIndex s c T K k = some id →
    id < (s.poolMap.getD (T, c) {}).data.length
  inj : ∀ (T K1 K2 : TypeTag) (k1 k2 : Key) (id : Id), keyIndex s c T K1 k1 = some id →
    keyIndex s c T K2 k2 = some id → K1 = K2 ∧ k1 = k2
  registry : ∀ (T : TypeTag) (w : Wrapper PtrAddr),
    w ∈ (s.pointerPoolMap.getD (T, c) {}).data → w.active = true →
    ∃ h, s.ptrs.find (T, w.o) = some h ∧ h._objectId < (s.poolMap.getD (T, c) {}).data.length

/-- No pool, pointer pool or id map is keyed by the address `c`. -/
def Unused (s : State) (c : MapPtr) : Prop :=
  ∀ T, s.poolMap.find (T, c) = none ∧ s.pointerPoolMap.find (T, c) = none ∧
    ∀ K, s.idMapMap.find (T, K, c) = none

/-- The values read through a list of `Pointer<T>` objects. -/
def readAll (T : TypeTag) (ps : List PtrAddr) (s : State) : List (Option Val) :=
  ps.map (fun p => Pointer.read T p s)

/-- Lines 19-53 of `test` in main.cpp.  Keys: 1 "paavo", 2 "mikko", 3 "liisa";
values: 1 "koira", 2 "kissa", 3 "kala", 4 "pupu", 5 "possu", 6 "vuohi".
Pointers: 1 `ptr_1_1`, 2 `ptr_1_2`, 3 `ptr_1_3`, 4 `ptr_1_4`, 5 `ptr_2_1`. -/
def mainPart1 : List Op :=
  [.newMap 1, .get 1 0 0 1, .write 0 1 1, .get 1 0 0 1, .write 0 2 2, .get 1 0 0 2,
   .write 0 3 1, .get 1 1 0 1, .write 1 4 10, .newMap 2, .get 2 0 0 1, .write 0 5 1]

/-- Lines 55-80 of `test`.  Pointers: 6 `ptr_1_5`, 7 `ptr_1_6`, 8 `ptr_1_7`, 9 `ptr_1_8`. -/
def mainPart2 : List Op :=
  mainPart1 ++ [.copyPtr 0 1, .write 0 6 3, .newPtr 0, .assignPtr 0 7 1, .write 0 7 4,
    .assignPtr 0 7 3, .movePtr 0 6, .newPtr 0, .moveAssignPtr 0 9 7]

/-- Lines 82-93 of `test`: the end of the block, `ptr_1_5` (pointer 10) for
"liisa", the copy `c3` of `c1`, `ptr_3_1` (pointer 11), `*ptr_3_1 = "koira"`. -/
def mainPart3 : List Op :=
  mainPart2 ++ [.deletePtr 0 9, .deletePtr 0 8, .deletePtr 0 7, .deletePtr 0 6,
    .get 1 0 0 3, .write 0 10 2, .copyMap 3 1, .get 3 0 0 1, .write 0 11 1]

/-- Lines 97-105 of `test`: `c4 = c2`, `ptr_4_1` (pointer 12) from `c3`, `*ptr_4_1 = "possu"`. -/
def mainPart4 : List Op :=
  mainPart3 ++ [.newMap 4, .assignMap 4 2, .get 3 0 0 1, .write 0 12 5]

/-- Lines 107-120 of `test`: `c5 = std::move(c1)`, `ptr_5_1` (pointer 13),
`c6 = std::move(c2)`, `ptr_6_1` (pointer 14). -/
def mainPart5 : List Op :=
  mainPart4 ++ [.moveMap 5 1, .get 5 0 0 1, .write 0 13 2, .newMap 6, .moveAssignMap 6 2,
    .get 6 0 0 1, .write 0 14 6]

/-- The end of `test`: the destructors in reverse order of construction. -/
def mainPart6 : List Op :=
  mainPart5 ++ [.deletePtr 0 14, .deleteMap 6, .deletePtr 0 13, .deleteMap 5, .deletePtr 0 12,
    .deleteMap 4, .deletePtr 0 11, .deleteMap 3, .deletePtr 0 10, .deletePtr 0 5, .deleteMap 2,
    .deletePtr 1 4, .deletePtr 0 3, .deletePtr 0 2, .deletePtr 0 1, .deleteMap 1]

end SmartMap

namespace SmartMap

/-- A container `c1` used with one value type and two key types:
`c1.getPointer<std::string, std::string>(k1)`, then
`c1.getPointer<std::string, K2>(k1)` with a key type `K2` of tag 2. -/
def twoKeyTypes : List Op := [.newMap 1, .get 1 0 0 1, .get 1 0 2 1]

/-- After `twoKeyTypes`: `SmartMap c5 = std::move(c1)`. -/
def moveTwoKeyTypes : List Op := twoKeyTypes ++ [.moveMap 5 1]

/-- A pointer `p1 = c1.getPointer<std::string>(k1)` with `*p1 = 7`, a default
constructed pointer `p2`, and the copy assignment `p2 = p1`. -/
def assignToDetached : List Op :=
  [.newMap 1, .get 1 0 0 1, .write 0 1 7, .newPtr 0, .assignPtr 0 2 1]

/-- After `assignToDetached`: the lookup `c1.getPointer<std::string>(k2)` of a
new key, which makes the pool of `c1` grow. -/
def assignThenGrow : List Op := assignToDetached ++ [.get 1 0 0 2]

/-- A pointer `p1 = c1.getPointer<std::string>(k1)` with `*p1 = 7`, a default
constructed pointer `p2`, and the move assignment `p2 = std::move(p1)`. -/
def moveAssignToDetached : List Op :=
  [.newMap 1, .get 1 0 0 1, .write 0 1 7, .newPtr 0, .moveAssignPtr 0 2 1]

/-- A container `c1` with a pointer `p1 = c1.getPointer<std::string>(k1)` and
`*p1 = 7`, and the copy `SmartMap c2 = c1`. -/
def copyOnce : List Op := [.newMap 1, .get 1 0 0 1, .write 0 1 7, .copyMap 2 1]

/-- After `copyOnce`: the copy assignment `c2 = c1`. -/
def copyThenAssign : List Op := copyOnce ++ [.assignMap 2 1]

end SmartMap

namespace SmartMap

/-! ## The overload of `getPointer` for string literals -/

/-- A C string: the `char` values that a `const char*` argument points to. -/
abbrev CStr := List (Fin 256)

/-- The type tag of `std::string`. -/
def stdStringTag : TypeTag := 0

/-- The key value that stands for the `std::string` with the given characters
(an injective numbering of the character sequences). -/
def stringKey : List (Fin 256) → Key
  | [] => 0
  | ch :: chs => (ch.val + 1) + 257 * stringKey chs

/-- The conversion `std::string(const char*)`: the characters before the
first NUL. -/
def stdStringOf (key : CStr) : Key := stringKey (key.takeWhile (fun ch => ch ≠ 0))

/-- The overload `getPointer<T>(const char* key)`, which returns
`getPointer<T, std::string>(key)`; the argument is converted to `std::string`. -/
def getPointerCStr (this : MapPtr) (T : TypeTag) (key : CStr) (s : State) :
    Option (PtrAddr × State) :=
  getPointer this T stdStringTag (stdStringOf key) s

/-- The characters of the literal `"paavo"`. -/
def paavo : CStr := [112, 97, 97, 118, 111]

/-- The state after `auto p1 = c1.getPointer<std::string>("paavo");`. -/
def literalS1 : State := ((getPointerCStr 1 0 paavo oneMap).map Prod.snd).getD oneMap

/-- The state after the further call
`auto p2 = c1.getPointer<std::string, std::string>(std::string("paavo"));`. -/
def literalS2 : State :=
  ((getPointer 1 0 stdStringTag (stdStringOf paavo) literalS1).map Prod.snd).getD oneMap

end SmartMap

namespace SmartMap

/-- No pool of the state has the flag `invalidated` set. -/
def Flushed (s : State) : Prop := ∀ key, (s.poolMap.getD key {}).invalidated = false

/-- The state inside a lookup of a new key on the container of `identityS1`,
after `pool.firstInactiveId()`: the vector of the pool has grown into a new
buffer and the flag `invalidated` is set. -/
def resyncS0 : State := (poolFirstInactiveId 0 1 identityS1).2

/-- The state after `updatePointerObjectData<std::string>()` in `resyncS0`. -/
def resyncS1 : State := (updatePointerObjectData 0 1 resyncS0).getD resyncS0

/-- The state after the lookup `c1.getPointer<std::string, std::string>(k2)`
of a new key in `identityS1`. -/
def resyncS2 : State := ((getPointer 1 0 0 2 identityS1).map Prod.snd).getD oneMap

end SmartMap

namespace SmartMap

/-- A sequence of calls `c.getPointer<T, K>(key)` on any containers, each
given by its `(c, T, K, key)`; the returned pointers stay alive. -/
def lookupsOn : List (MapPtr × TypeTag × TypeTag × Key) → State → Option State
  | [], s => some s
  | q :: qs, s =>
    match getPointer q.1 q.2.1 q.2.2.1 q.2.2.2 s with
    | none => none
    | some r => lookupsOn qs r.2

/-- No storage of a `Pointer` has been reused so far: the address held by any
wrapper of a pointer pool and the address of any live pointer is below
`nextPtr`, the address at which the next pointer is constructed. -/
def PtrWF (s : State) : Prop :=
  (∀ key, ∀ w ∈ (s.pointerPoolMap.getD key {}).data, w.o < s.nextPtr) ∧
  (∀ (T : TypeTag) (a : PtrAddr), s.ptrs.find (T, a) ≠ none → a < s.nextPtr)

/-- No pointer pool of a container other than `c` holds the address `a` of a
`Pointer<T>`. -/
def Exclusive (s : State) (c : MapPtr) (T : TypeTag) (a : PtrAddr) : Prop :=
  ∀ c', c' ≠ c → ∀ w ∈ (s.pointerPoolMap.getD (T, c') {}).data, w.o ≠ a

/-- What a call `c.getPointer<T, K>(k)` that returns the pointer at `a` and
takes the state `s` to `s'` leaves unchanged: the returned pointer is new; the
pointer pools, pools and id maps of other containers or types are unchanged;
the pointer pool of `c` for `T` gets no wrapper but that of `a`; a pointer
that is not named by an active wrapper of that pointer pool is unchanged; no
other pointer is created or destroyed. -/
def LookupFrame (s s' : State) (c : MapPtr) (T K : TypeTag) (a : PtrAddr) : Prop :=
  a = s.nextPtr ∧ s'.nextPtr = s.nextPtr + 1 ∧
  (∀ key, key ≠ (T, c) → s'.pointerPoolMap.getD key {} = s.pointerPoolMap.getD key {}) ∧
  (∀ w ∈ (s'.pointerPoolMap.getD (T, c) {}).data,
    w = ⟨a, true⟩ ∨ w ∈ (s.pointerPoolMap.getD (T, c) {}).data) ∧
  (∀ key, key ≠ (T, c) → s'.poolMap.getD key {} = s.poolMap.getD key {}) ∧
  (∀ key, key ≠ (T, K, c) → s'.idMapMap.getD key [] = s.idMapMap.getD key []) ∧
  (∀ (T2 : TypeTag) (x : PtrAddr), (T2, x) ≠ (T, a) →
    ¬ (T2 = T ∧ (⟨x, true⟩ : Wrapper PtrAddr) ∈ (s.pointerPoolMap.getD (T, c) {}).data) →
    s'.ptrs.find (T2, x) = s.ptrs.find (T2, x)) ∧
  (∀ (T2 : TypeTag) (x : PtrAddr), (T2, x) ≠ (T, a) →
    (s'.ptrs.find (T2, x) = none ↔ s.ptrs.find (T2, x) = none)) ∧
  s'.ptrs.find (T, a) ≠ none

/-- The part of a state that the steps of `getPointer` before the construction
of the returned pointer leave unchanged, for the lookup `c.getPointer<T, K>`. -/
def StepFrame (s s' : State) (c : MapPtr) (T K : TypeTag) : Prop :=
  s'.nextPtr = s.nextPtr ∧
  (∀ key, s'.pointerPoolMap.getD key {} = s.pointerPoolMap.getD key {}) ∧
  (∀ key, key ≠ (T, c) → s'.poolMap.getD key {} = s.poolMap.getD key {}) ∧
  (∀ key, key ≠ (T, K, c) → s'.idMapMap.getD key [] = s.idMapMap.getD key []) ∧
  (∀ (T2 : TypeTag) (x : PtrAddr),
    ¬ (T2 = T ∧ (⟨x, true⟩ : Wrapper PtrAddr) ∈ (s.pointerPoolMap.getD (T, c) {}).data) →
    s'.ptrs.find (T2, x) = s.ptrs.find (T2, x)) ∧
  (∀ (T2 : TypeTag) (x : PtrAddr),
    (s'.ptrs.find (T2, x) = none ↔ s.ptrs.find (T2, x) = none))

/-- The two states have the same pointer pools, pointers and next pointer
address. -/
def PtrsKept (s s' : State) : Prop :=
  s'.pointerPoolMap = s.pointerPoolMap ∧ s'.ptrs = s.ptrs ∧ s'.nextPtr = s.nextPtr

/-- The state after `SmartMap c1; SmartMap c2;` at program start. -/
def twoMaps : State := { State.init with maps := [(1, {}), (2, {})] }

/-- The state after `auto p1 = c1.getPointer<std::string>(k1);` in `twoMaps`. -/
def partS1 : State := ((getPointer 1 0 0 1 twoMaps).map Prod.snd).getD twoMaps

/-- The state after the further lookups `c1.getPointer<int>(k1)` and
`c2.getPointer<int>(k1)`. -/
def partS2 : State := (lookupsOn [(1, 1, 0, 1), (2, 1, 0, 1)] partS1).getD twoMaps

/-- The state after the further call `auto p4 = c2.getPointer<std::string>(k1);`. -/
def partS3 : State := ((getPointer 2 0 0 1 partS2).map Prod.snd).getD twoMaps

end SmartMap

namespace SmartMap

/-- The state keyed by the container `c` is the same in the two states: its
pools, pointer pools and id maps, and all pointers. -/
def SourceKept (s s' : State) (c : MapPtr) : Prop :=
  s'.ptrs = s.ptrs ∧ s'.nextPtr = s.nextPtr ∧ s'.maps = s.maps ∧
  (∀ T, s'.poolMap.getD (T, c) {} = s.poolMap.getD (T, c) {}) ∧
  (∀ T, s'.pointerPoolMap.getD (T, c) {} = s.pointerPoolMap.getD (T, c) {}) ∧
  (∀ T K, s'.idMapMap.getD (T, K, c) [] = s.idMapMap.getD (T, K, c) [])

/-- Copies and moves of pointers: `p1` and `p2` from `c1`, `p3` from `c2`;
`auto p4 = p1` (copy construction), `p2 = p1` (copy assignment, same
container), `p3 = p1` (copy assignment, other container). -/
def copyPointers : List Op :=
  [.newMap 1, .newMap 2, .get 1 0 0 1, .get 1 0 0 2, .get 2 0 0 1, .copyPtr 0 1,
    .assignPtr 0 2 1, .assignPtr 0 3 1]

/-- Moves of pointers: `p1`, `p2` and `p3` from `c1`, `p4` from `c2`;
`auto p5 = std::move(p1)` (move construction), `p3 = std::move(p2)` (move
assignment, same container), `p4 = std::move(p3)` (move assignment, other
container). -/
def movePointers : List Op :=
  [.newMap 1, .newMap 2, .get 1 0 0 1, .get 1 0 0 2, .get 1 0 0 3, .get 2 0 0 1, .movePtr 0 1,
    .moveAssignPtr 0 3 2, .moveAssignPtr 0 4 3]

end SmartMap

namespace SmartMap

/-- After `copyOnce`: the lookup `c2.getPointer<std::string>(k2)` of a new key
on the copy, which makes the pool of `c2` grow. -/
def copyThenGrowCopy : List Op := copyOnce ++ [.get 2 0 0 2]

/-- After `copyOnce`: the end of the lifetime of the pointer `p1`. -/
def copyThenDelete : List Op := copyOnce ++ [.deletePtr 0 1]

/-- A container `c1` with a pointer `p1 = c1.getPointer<std::string>(k1)` and
`*p1 = 7`. -/
def oneValue : List Op := [.newMap 1, .get 1 0 0 1, .write 0 1 7]

/-- After `oneValue`: the self assignment `c1 = c1`. -/
def selfAssign : List Op := oneValue ++ [.assignMap 1 1]

/-- After `selfAssign`: the lookup `auto p2 = c1.getPointer<std::string>(k1)`. -/
def selfAssignLookup : List Op := selfAssign ++ [.get 1 0 0 1]

end SmartMap

namespace SmartMap

/-! ## Reuse of the storage of a destroyed Pointer -/

/-- The next `Pointer` object is constructed in the storage at the address
`a`, which a destroyed `Pointer` occupied before (placement `new` into the
same buffer, or a local variable in the stack slot of a variable of an earlier
scope or loop iteration).  The pointers after it are constructed at the
following addresses, so no live pointer may be at `a` or above. -/
def reuseStorage (a : PtrAddr) (s : State) : Option State :=
  if s.ptrs.all (fun e => decide (e.1.2 < a)) then some { s with nextPtr := a } else none

/-- After `copyThenDelete` (the pointer `p1` of `c1` is destroyed and the copy
`c2` of `c1` is alive): `SmartMap c3;`. -/
def reusePrefix : List Op := copyThenDelete ++ [.newMap 3]

/-- The state after `reusePrefix` in which the next pointer is constructed in
the storage of the destroyed `p1` (address 1). -/
def reuseS0 : State := ((run reusePrefix State.init).bind (reuseStorage 1)).getD State.init

/-- The state after `auto h1 = c3.getPointer<std::string>(k1);` in `reuseS0`;
`h1` is constructed at address 1. -/
def reuseS1 : State := ((getPointer 3 0 0 1 reuseS0).map Prod.snd).getD State.init

/-- The state after the further lookup `c2.getPointer<std::string>(k2)` of a
new key, which makes the pool of `c2` grow. -/
def reuseS2 : State := (lookupsOn [(2, 0, 0, 2)] reuseS1).getD State.init

/-- The state after the further call `auto h3 = c2.getPointer<std::string>(k1);`. -/
def reuseS3 : State := ((getPointer 2 0 0 1 reuseS2).map Prod.snd).getD State.init

end SmartMap

/-! ## Lemmas on association lists -/

namespace Assoc

variable {κ ν : Type} [DecidableEq κ]

theorem find_set (m : Assoc κ ν) (k k' : κ) (v : ν) :
    (set m k v).find k' = if k = k' then some v else m.find k' := by
  induction m with
  | nil => simp [set, find]
  | cons e r ih =>
    obtain ⟨k0, v0⟩ := e
    by_cases h0 : k0 = k
    · subst h0
      by_cases h1 : k0 = k' <;> simp [set, find, h1]
    · by_cases h1 : k0 = k'
      · subst h1
        have : ¬ k = k0 := fun h => h0 h.symm
        simp [set, find, h0, this]
      · simp [set, find, h0, h1, ih]

theorem find_erase (m : Assoc κ ν) (k k' : κ) :
    (erase m k).find k' = if k = k' then none else m.find k' := by
  induction m with
  | nil => simp [erase, find]
  | cons e r ih =>
    obtain ⟨k0, v0⟩ := e
    by_cases h0 : k0 = k
    · subst h0
      by_cases h1 : k0 = k'
      · subst h1; simpa [erase, find] using ih
      · simpa [erase, find, h1] using ih
    · by_cases h1 : k0 = k'
      · subst h1
        have : ¬ k = k0 := fun h => h0 h.symm
        simp [erase, find, h0, this]
      · simp [erase, find, h0, h1, ih]

theorem find_ensure (m : Assoc κ ν) (k k' : κ) (d : ν) :
    (ensure m k d).find k' = if k = k' then some (m.getD k d) else m.find k' := by
  unfold ensure getD
  cases h : find m k with
  | none => simp [find_set]
  | some v =>
    by_cases hk : k = k'
    · subst hk; simp [h]
    · simp [hk]

theorem getD_set (m : Assoc κ ν) (k k' : κ) (v d : ν) :
    (set m k v).getD k' d = if k = k' then v else m.getD k' d := by
  unfold getD; rw [find_set]; split <;> rfl

theorem getD_erase (m : Assoc κ ν) (k k' : κ) (d : ν) :
    (erase m k).getD k' d = if k = k' then d else m.getD k' d := by
  unfold getD; rw [find_erase]; split <;> rfl

theorem getD_ensure (m : Assoc κ ν) (k k' : κ) (d : ν) :
    (ensure m k d).getD k' d = m.getD k' d := by
  unfold getD; rw [find_ensure]
  by_cases hk : k = k'
  · subst hk; simp [getD]
  · simp [hk]

theorem getD_of_find {m : Assoc κ ν} {k : κ} {v : ν} (h : m.find k = some v) (d : ν) :
    m.getD k d = v := by
  simp [getD, h]

end Assoc

namespace SmartMap

/-! ## Lemmas on object pools -/

theorem get?_setO {α : Type} (ws : List (Wrapper α)) (i j : Nat) (v : α) :
    (setO ws i v)[j]? =
      if j = i then ws[i]?.map (fun w => { w with o := v }) else ws[j]? := by
  induction ws generalizing i j with
  | nil => simp [setO]
  | cons w ws ih =>
    cases i with
    | zero => cases j <;> simp [setO]
    | succ i => cases j <;> simp [setO, ih]

theorem length_setO {α : Type} (ws : List (Wrapper α)) (i : Nat) (v : α) :
    (setO ws i v).length = ws.length := by
  induction ws generalizing i with
  | nil => simp [setO]
  | cons w ws ih => cases i <;> simp [setO, ih]

theorem get?_setActive {α : Type} (ws : List (Wrapper α)) (i j : Nat) (b : Bool) :
    (setActive ws i b)[j]? =
      if j = i then ws[i]?.map (fun w => { w with active := b }) else ws[j]? := by
  induction ws generalizing i j with
  | nil => simp [setActive]
  | cons w ws ih =>
    cases i with
    | zero => cases j <;> simp [setActive]
    | succ i => cases j <;> simp [setActive, ih]

theorem length_setActive {α : Type} (ws : List (Wrapper α)) (i : Nat) (b : Bool) :
    (setActive ws i b).length = ws.length := by
  induction ws generalizing i with
  | nil => simp [setActive]
  | cons w ws ih => cases i <;> simp [setActive, ih]

/-- The scan returns an index inside the vector, keeps the length, changes no
stored object and leaves every active wrapper as it is. -/
theorem scanInactive_spec {α : Type} (ws : List (Wrapper α)) (i : Nat) (ws' : List (Wrapper α))
    (h : scanInactive ws = some (i, ws')) :
    i < ws.length ∧ ws'.length = ws.length ∧
    (∀ j : Nat, ws'[j]?.map (fun w => w.o) = ws[j]?.map (fun w => w.o)) ∧
    (∀ j x, ws[j]? = some ⟨x, true⟩ → ws'[j]? = some ⟨x, true⟩ ∧ j ≠ i) ∧
    ws'[i]?.map (fun w => w.active) = some true := by
  induction ws generalizing i ws' with
  | nil => simp [scanInactive] at h
  | cons w ws ih =>
    unfold scanInactive at h
    by_cases hw : w.active = true
    · simp only [hw, if_true, Option.map_eq_some'] at h
      obtain ⟨⟨i0, ws0⟩, h0, h1⟩ := h
      simp only [Prod.mk.injEq] at h1
      obtain ⟨rfl, rfl⟩ := h1
      obtain ⟨a1, a2, a3, a4, a5⟩ := ih i0 ws0 h0
      refine ⟨by simp; omega, by simp [a2], ?_, ?_, by simpa using a5⟩
      · intro j; cases j with
        | zero => simp
        | succ j => simpa using a3 j
      · intro j x hj; cases j with
        | zero => simpa using hj
        | succ j =>
          have := a4 j x (by simpa using hj)
          simpa using this
    · simp only [hw, if_false, Option.some.injEq, Prod.mk.injEq] at h
      obtain ⟨rfl, rfl⟩ := h
      refine ⟨by simp, by simp, ?_, ?_, by simp⟩
      · intro j; cases j <;> simp
      · intro j x hj; cases j with
        | zero =>
          simp only [List.getElem?_cons_zero, Option.some.injEq] at hj
          rw [hj] at hw; simp at hw
        | succ j => simpa using hj

/-- When the scan fails, every wrapper is active. -/
theorem scanInactive_none {α : Type} (ws : List (Wrapper α)) (h : scanInactive ws = none) :
    ∀ w ∈ ws, w.active = true := by
  induction ws with
  | nil => simp
  | cons w ws ih =>
    unfold scanInactive at h
    by_cases hw : w.active = true
    · simp only [hw, if_true, Option.map_eq_none'] at h
      intro w' hw'
      rcases List.mem_cons.mp hw' with rfl | h2
      · exact hw
      · exact ih h w' h2
    · simp [hw] at h

end SmartMap

namespace SmartMap

/-- The two ways `firstInactiveId` can go: reuse of an inactive slot, or an
appended slot (with or without a reallocation of the vector). -/
theorem firstInactiveId_cases {α : Type} [Inhabited α] (P : ObjectPool α) (heap : Nat) :
    (∃ d, scanInactive P.data = some ((P.firstInactiveId heap).1, d) ∧
        (P.firstInactiveId heap).2.1 = { P with data := d } ∧
        (P.firstInactiveId heap).2.2 = heap) ∨
    (scanInactive P.data = none ∧ (P.firstInactiveId heap).1 = P.data.length ∧
        (P.firstInactiveId heap).2.1.data = P.data ++ [⟨default, true⟩] ∧
        (P.firstInactiveId heap).2.1.invalidated = true ∧
        ((P.data.length < P.cap ∧ (P.firstInactiveId heap).2.1.buf = P.buf ∧
            (P.firstInactiveId heap).2.1.cap = P.cap ∧ (P.firstInactiveId heap).2.2 = heap) ∨
         (¬ P.data.length < P.cap ∧ (P.firstInactiveId heap).2.1.buf = heap ∧
            (P.firstInactiveId heap).2.1.cap = vecGrowth P.cap ∧
            (P.firstInactiveId heap).2.2 = heap + 1))) := by
  unfold ObjectPool.firstInactiveId
  cases hs : scanInactive P.data with
  | some r =>
    obtain ⟨i, d⟩ := r
    left; exact ⟨d, by simp⟩
  | none =>
    right
    by_cases hc : P.data.length < P.cap
    · simp [hc]
    · simp [hc]

/-- Postcondition of `firstInactiveId` used by the callers. -/
theorem firstInactiveId_spec {α : Type} [Inhabited α] (P : ObjectPool α) (heap : Nat) :
    (P.firstInactiveId heap).1 < (P.firstInactiveId heap).2.1.data.length ∧
    P.data.length ≤ (P.firstInactiveId heap).2.1.data.length ∧
    (∀ j : Nat, j < P.data.length →
      (P.firstInactiveId heap).2.1.data[j]?.map (fun w => w.o) = P.data[j]?.map (fun w => w.o)) ∧
    (∀ (j : Nat) (x : α), P.data[j]? = some ⟨x, true⟩ →
      (P.firstInactiveId heap).2.1.data[j]? = some ⟨x, true⟩ ∧ j ≠ (P.firstInactiveId heap).1) ∧
    (P.firstInactiveId heap).2.1.data[(P.firstInactiveId heap).1]?.map (fun w => w.active)
      = some true ∧
    ((P.firstInactiveId heap).2.1.buf = P.buf ∨ (P.firstInactiveId heap).2.1.invalidated = true) ∧
    heap ≤ (P.firstInactiveId heap).2.2 := by
  rcases firstInactiveId_cases P heap with ⟨d, hs, hp, hh⟩ | ⟨hs, hi, hd, hinv, hb⟩
  · obtain ⟨a1, a2, a3, a4, a5⟩ := scanInactive_spec _ _ _ hs
    rw [hp, hh]
    refine ⟨by simpa [a2] using a1, by simp [a2], fun j _ => ?_, fun j x hj => ?_, ?_, ?_, le_refl _⟩
    · simpa using a3 j
    · simpa using a4 j x hj
    · simpa using a5
    · left; rfl
  · rw [hi, hd]
    refine ⟨by simp, by simp, fun j hj => ?_, fun j x hj => ?_, by simp, Or.inr hinv, ?_⟩
    · rw [List.getElem?_append_left hj]
    · have hlt : j < P.data.length := by
        by_contra hge
        rw [List.getElem?_eq_none (by omega)] at hj
        simp at hj
      rw [List.getElem?_append_left hlt]
      exact ⟨hj, by omega⟩
    · rcases hb with ⟨_, _, _, h⟩ | ⟨_, _, _, h⟩ <;> omega

end SmartMap

namespace SmartMap

/-! ## The resynchronisation loop -/

/-- Exact effect of the loop of `updatePointerObjectData<T>`: the pointers of
type `T` named by an active wrapper get the address of the slot of their
object id, nothing else changes. -/
theorem updateObjectPtrs_find (T : TypeTag) (P : ObjectPool Val) (ws : List (Wrapper PtrAddr))
    (ptrs ptrs' : Assoc (TypeTag × PtrAddr) Pointer)
    (h : updateObjectPtrs T P ws ptrs = some ptrs') (T2 : TypeTag) (x : PtrAddr) :
    ptrs'.find (T2, x) = (ptrs.find (T2, x)).map (fun p =>
      if T2 = T ∧ (⟨x, true⟩ : Wrapper PtrAddr) ∈ ws
      then { p with _objectPtr := some ⟨P.buf, p._objectId⟩ } else p) := by
  induction ws generalizing ptrs with
  | nil =>
    simp only [updateObjectPtrs, Option.some.injEq] at h
    subst h
    cases ptrs.find (T2, x) <;> simp
  | cons w ws ih =>
    unfold updateObjectPtrs at h
    by_cases hw : w.active = true
    · simp only [hw, if_true] at h
      cases hf : ptrs.find (T, w.o) with
      | none => simp [hf] at h
      | some p0 =>
        simp only [hf] at h
        cases ha : P.addr p0._objectId with
        | none => simp [ha] at h
        | some a =>
          simp only [ha] at h
          have hav : a = ⟨P.buf, p0._objectId⟩ := by
            unfold ObjectPool.addr at ha
            split at ha
            · exact (Option.some.inj ha).symm
            · exact absurd ha (by simp)
          subst hav
          rw [ih _ h, Assoc.find_set]
          have hwe : w = ⟨w.o, true⟩ := by cases w; simp_all
          by_cases hk : (T, w.o) = (T2, x)
          · obtain ⟨rfl, rfl⟩ := Prod.mk.inj hk
            have hmem : (⟨w.o, true⟩ : Wrapper PtrAddr) ∈ w :: ws := by
              rw [← hwe]; exact List.mem_cons_self _ _
            simp only [if_true, hf, Option.map_some', true_and, hmem]
            split <;> rfl
          · simp only [hk, if_false]
            have hne : ¬ (T2 = T ∧ (⟨x, true⟩ : Wrapper PtrAddr) = w) := by
              rintro ⟨rfl, he⟩
              apply hk; rw [← he]
            cases ptrs.find (T2, x) with
            | none => simp
            | some p =>
              simp only [Option.map_some', List.mem_cons]
              by_cases h1 : T2 = T ∧ (⟨x, true⟩ : Wrapper PtrAddr) ∈ ws
              · have h2 : T2 = T ∧ ((⟨x, true⟩ : Wrapper PtrAddr) = w ∨ (⟨x, true⟩ : Wrapper PtrAddr) ∈ ws) :=
                  ⟨h1.1, Or.inr h1.2⟩
                rw [if_pos h1, if_pos h2]
              · have h2 : ¬ (T2 = T ∧ ((⟨x, true⟩ : Wrapper PtrAddr) = w ∨ (⟨x, true⟩ : Wrapper PtrAddr) ∈ ws)) := by
                  rintro ⟨e1, e2 | e2⟩
                  · exact hne ⟨e1, e2⟩
                  · exact h1 ⟨e1, e2⟩
                rw [if_neg h1, if_neg h2]
    · simp only [hw, if_false] at h
      rw [ih _ h]
      have hne : (⟨x, true⟩ : Wrapper PtrAddr) ≠ w := by
        intro he; apply hw; rw [← he]
      cases ptrs.find (T2, x) with
      | none => simp
      | some p =>
        simp only [Option.map_some', List.mem_cons, hne, false_or]

end SmartMap

namespace SmartMap

/-! ## Effect of the steps of getPointer -/

/-- Effect of `registerPointer`: the wrapper with the returned id is active and
holds the registered address, active wrappers are kept, nothing else changes. -/
theorem registerPointer_effect (T : TypeTag) (m : MapPtr) (p : PtrAddr) (s s' : State) (pid : Id)
    (h : registerPointer T m p s = some (pid, s')) :
    s.maps.find m ≠ none ∧ s'.ptrs = s.ptrs ∧ s'.nextPtr = s.nextPtr ∧ s'.poolMap = s.poolMap ∧
    s'.idMapMap = s.idMapMap ∧ s'.maps = s.maps ∧ s.nextBuf ≤ s'.nextBuf ∧
    (∀ key, key ≠ (T, m) → s'.pointerPoolMap.getD key {} = s.pointerPoolMap.getD key {}) ∧
    (∀ (j : Nat) (x : PtrAddr), (s.pointerPoolMap.getD (T, m) {}).data[j]? = some ⟨x, true⟩ →
      (s'.pointerPoolMap.getD (T, m) {}).data[j]? = some ⟨x, true⟩) ∧
    (s'.pointerPoolMap.getD (T, m) {}).data[pid]? = some ⟨p, true⟩ := by
  unfold registerPointer at h
  cases hm : s.maps.find m with
  | none => simp [hm] at h
  | some obj =>
    simp only [hm, Option.bind_eq_bind, Option.some_bind, Option.some.injEq, Prod.mk.injEq] at h
    obtain ⟨rfl, rfl⟩ := h
    obtain ⟨b1, _, _, b4, b5, _, b7⟩ :=
      firstInactiveId_spec (s.pointerPoolMap.getD (T, m) {}) s.nextBuf
    refine ⟨by simp, rfl, rfl, rfl, rfl, rfl, b7, ?_, ?_, ?_⟩
    · intro key hk
      have : ¬ (T, m) = key := fun e => hk e.symm
      simp [Assoc.getD_set, this]
    · intro j x hj
      obtain ⟨c1, c2⟩ := b4 j x hj
      simp only [Assoc.getD_set, if_true, get?_setO, c2, if_false]
      exact c1
    · simp only [Assoc.getD_set, if_true, get?_setO]
      cases hg : ((s.pointerPoolMap.getD (T, m) {}).firstInactiveId s.nextBuf).2.1.data[((s.pointerPoolMap.getD (T, m) {}).firstInactiveId s.nextBuf).1]? with
      | none =>
        rw [List.getElem?_eq_none_iff] at hg
        exact absurd (Nat.lt_of_lt_of_le b1 hg) (Nat.lt_irrefl _)
      | some w =>
        rw [hg] at b5
        simp only [Option.map_some', Option.some.injEq] at b5
        simp [b5]

/-- Effect of the private constructor of `Pointer`. -/
theorem construct_effect (T : TypeTag) (m : MapPtr) (id : Id) (addr : ObjAddr) (s s' : State)
    (a : PtrAddr) (h : Pointer.construct T m id addr s = some (a, s')) :
    a = s.nextPtr ∧ s'.nextPtr = s.nextPtr + 1 ∧ s'.poolMap = s.poolMap ∧
    s'.idMapMap = s.idMapMap ∧ s'.maps = s.maps ∧ s.nextBuf ≤ s'.nextBuf ∧
    (∀ key, key ≠ (T, m) → s'.pointerPoolMap.getD key {} = s.pointerPoolMap.getD key {}) ∧
    (∀ (j : Nat) (x : PtrAddr), (s.pointerPoolMap.getD (T, m) {}).data[j]? = some ⟨x, true⟩ →
      (s'.pointerPoolMap.getD (T, m) {}).data[j]? = some ⟨x, true⟩) ∧
    ∃ pid, (s'.pointerPoolMap.getD (T, m) {}).data[pid]? = some ⟨a, true⟩ ∧
      ∀ key, s'.ptrs.find key =
        if (T, a) = key then
          some { _map := some m, _objectId := id, _objectPtr := some addr, _pointerId := pid }
        else s.ptrs.find key := by
  unfold Pointer.construct at h
  cases hr : registerPointer T m s.nextPtr s with
  | none => simp [hr] at h
  | some r =>
    obtain ⟨pid, s1⟩ := r
    simp only [hr, Option.bind_eq_bind, Option.some_bind, Option.some.injEq, Prod.mk.injEq] at h
    obtain ⟨rfl, rfl⟩ := h
    obtain ⟨_, e1, e2, e3, e4, e5, e6, e7, e8, e9⟩ := registerPointer_effect _ _ _ _ _ _ hr
    refine ⟨rfl, by simp [e2], e3, e4, e5, e6, e7, e8, pid, e9, ?_⟩
    intro key
    simp [Assoc.find_set, e1]

end SmartMap

namespace SmartMap

theorem getTypeId_sameData (T : TypeTag) (s : State) :
    SameData s (getTypeId T s).2 ∧ (getTypeId T s).2.maps = s.maps := by
  simp [getTypeId, SameData]

theorem getPointerStatic_sameData (T K : TypeTag) (s : State) :
    SameData s (getPointerStatic T K s).2 ∧ (getPointerStatic T K s).2.maps = s.maps := by
  unfold getPointerStatic
  cases s.getPointerTypeId.find (T, K) <;> simp [getTypeId, SameData]

theorem addIdMapStatic_sameData (T K : TypeTag) (s : State) :
    SameData s (addIdMapStatic T K s).2 ∧ (addIdMapStatic T K s).2.maps = s.maps := by
  unfold addIdMapStatic
  cases s.addIdMapTypeId.find (T, K) <;> simp [getTypeId, SameData]

theorem installTypeHelper_sameData (this : MapPtr) (typeId : TypeId) (T K : TypeTag)
    (s s' : State) (h : installTypeHelper this typeId T K s = some s') :
    SameData s s' ∧ ∀ c, s.maps.find c ≠ none → s'.maps.find c ≠ none := by
  unfold installTypeHelper at h
  simp only [Option.bind_eq_bind, Option.bind_eq_some] at h
  obtain ⟨m, hm, hlp, hh, h⟩ := h
  simp only [Option.some.injEq] at h
  subst h
  obtain ⟨⟨e1, e2, e3, e4, e5, e6⟩, e7⟩ := addIdMapStatic_sameData T K s
  refine ⟨⟨e1, e2, e3, e4, e5, e6⟩, ?_⟩
  intro c hc
  simp only [Assoc.find_set, e7]
  split
  · simp
  · exact hc

theorem accessMaps_effect (this : MapPtr) (T K : TypeTag) (s : State) :
    (accessMaps this T K s).ptrs = s.ptrs ∧ (accessMaps this T K s).nextPtr = s.nextPtr ∧
    (accessMaps this T K s).pointerPoolMap = s.pointerPoolMap ∧
    (accessMaps this T K s).nextBuf = s.nextBuf ∧ (accessMaps this T K s).maps = s.maps ∧
    (∀ key, (accessMaps this T K s).poolMap.getD key {} = s.poolMap.getD key {}) ∧
    (∀ key, (accessMaps this T K s).idMapMap.getD key [] = s.idMapMap.getD key []) := by
  refine ⟨rfl, rfl, rfl, rfl, rfl, ?_, ?_⟩
  · intro key; simp [accessMaps, Assoc.getD_ensure]
  · intro key; simp [accessMaps, Assoc.getD_ensure]

/-- Effect of `updatePointerObjectData<T>`. -/
theorem updatePointerObjectData_effect (T : TypeTag) (this : MapPtr) (s s' : State)
    (h : updatePointerObjectData T this s = some s') :
    s'.nextPtr = s.nextPtr ∧ s'.nextBuf = s.nextBuf ∧ s'.idMapMap = s.idMapMap ∧
    s'.maps = s.maps ∧
    s'.poolMap = s.poolMap.set (T, this) { s.poolMap.getD (T, this) {} with invalidated := false } ∧
    (∀ key, s'.pointerPoolMap.getD key {} = s.pointerPoolMap.getD key {}) ∧
    (∀ (T2 : TypeTag) (x : PtrAddr), s'.ptrs.find (T2, x) = (s.ptrs.find (T2, x)).map (fun p =>
      if T2 = T ∧ (⟨x, true⟩ : Wrapper PtrAddr) ∈ (s.pointerPoolMap.getD (T, this) {}).data
      then { p with _objectPtr := some ⟨(s.poolMap.getD (T, this) {}).buf, p._objectId⟩ }
      else p)) := by
  unfold updatePointerObjectData at h
  simp only [Option.bind_eq_bind, Option.bind_eq_some, Option.some.injEq] at h
  obtain ⟨ptrs, hp, rfl⟩ := h
  refine ⟨rfl, rfl, rfl, rfl, rfl, ?_, ?_⟩
  · intro key; simp [Assoc.getD_ensure]
  · intro T2 x
    exact updateObjectPtrs_find T _ _ _ _ hp T2 x

end SmartMap

namespace SmartMap

/-! ## Preservation of a tracked pointer by the steps of getPointer -/

theorem TrackedW.frameW {s s' : State} {c : MapPtr} {T K : TypeTag} {k : Key} {a : PtrAddr}
    {id : Id} {v : Val} (ht : TrackedW s c T K k a id v)
    (hn : s.nextPtr ≤ s'.nextPtr) (hp : s'.ptrs.find (T, a) = s.ptrs.find (T, a))
    (hr : s'.pointerPoolMap.getD (T, c) {} = s.pointerPoolMap.getD (T, c) {})
    (hq : s'.poolMap.getD (T, c) {} = s.poolMap.getD (T, c) {})
    (hi : s'.idMapMap.getD (T, K, c) [] = s.idMapMap.getD (T, K, c) []) :
    TrackedW s' c T K k a id v := by
  obtain ⟨⟨h1, p, h2, h3, h4, h5, h6⟩, hv, hk⟩ := ht
  refine ⟨⟨Nat.lt_of_lt_of_le h1 hn, p, by rw [hp]; exact h2, h3, h4, by rw [hr]; exact h5,
    by rw [hq]; exact h6⟩, ?_, ?_⟩
  · unfold slotValue; rw [hq]; exact hv
  · unfold keyIndex; rw [hi]; exact hk

theorem Synced.frameS {s s' : State} {c : MapPtr} {T : TypeTag} {a : PtrAddr} {id : Id}
    (ht : Synced s c T a id) (hp : s'.ptrs.find (T, a) = s.ptrs.find (T, a))
    (hq : s'.poolMap.getD (T, c) {} = s.poolMap.getD (T, c) {}) :
    Synced s' c T a id := by
  obtain ⟨p, h1, h2⟩ := ht
  exact ⟨p, by rw [hp]; exact h1, by rw [hq]; exact h2⟩

theorem Tracked.frameT {s s' : State} {c : MapPtr} {T K : TypeTag} {k : Key} {a : PtrAddr}
    {id : Id} {v : Val} (ht : Tracked s c T K k a id v)
    (hn : s.nextPtr ≤ s'.nextPtr) (hp : s'.ptrs.find (T, a) = s.ptrs.find (T, a))
    (hr : s'.pointerPoolMap.getD (T, c) {} = s.pointerPoolMap.getD (T, c) {})
    (hq : s'.poolMap.getD (T, c) {} = s.poolMap.getD (T, c) {})
    (hi : s'.idMapMap.getD (T, K, c) [] = s.idMapMap.getD (T, K, c) []) :
    Tracked s' c T K k a id v :=
  ⟨ht.1.frameW hn hp hr hq hi, ht.2.frameS hp hq⟩

theorem Tracked.sameDataT {s s' : State} {c : MapPtr} {T K : TypeTag} {k : Key} {a : PtrAddr}
    {id : Id} {v : Val} (ht : Tracked s c T K k a id v) (h : SameData s s') :
    Tracked s' c T K k a id v := by
  obtain ⟨e1, e2, e3, e4, e5, _⟩ := h
  exact ht.frameT (Nat.le_of_eq e2.symm) (by rw [e1]) (by rw [e4]) (by rw [e3]) (by rw [e5])

/-- A tracked pointer stays tracked when another pointer is constructed for the
same container. -/
theorem Tracked.constructT {s s' : State} {c : MapPtr} {T K : TypeTag} {k : Key} {a : PtrAddr}
    {id : Id} {v : Val} (ht : Tracked s c T K k a id v) {T' : TypeTag} {id' : Id}
    {addr : ObjAddr} {a' : PtrAddr} (h : Pointer.construct T' c id' addr s = some (a', s')) :
    Tracked s' c T K k a id v ∧ a ≠ a' := by
  obtain ⟨e1, e2, e3, e4, _, _, e7, e8, pid, _, e10⟩ := construct_effect _ _ _ _ _ _ _ h
  have hlt : a < s.nextPtr := ht.1.1.1
  have hne : a ≠ a' := by rw [e1]; exact Nat.ne_of_lt hlt
  have hp : s'.ptrs.find (T, a) = s.ptrs.find (T, a) := by
    rw [e10]
    have : ¬ (T', a') = (T, a) := by
      intro e; exact hne (Prod.mk.inj e).2.symm
    simp [this]
  refine ⟨⟨?_, ht.2.frameS hp (by rw [e3])⟩, hne⟩
  obtain ⟨⟨h1, p, h2, h3, h4, h5, h6⟩, hv, hk⟩ := ht.1
  refine ⟨⟨by rw [e2]; exact Nat.lt_succ_of_lt h1, p, by rw [hp]; exact h2, h3, h4, ?_,
    by rw [e3]; exact h6⟩, ?_, ?_⟩
  · by_cases hT : T' = T
    · subst hT; exact e8 _ _ h5
    · rw [e7 (T, c) (by intro e; exact hT (Prod.mk.inj e).1.symm)]; exact h5
  · unfold slotValue; rw [e3]; exact hv
  · unfold keyIndex; rw [e4]; exact hk

/-- The pointer that the private constructor builds for slot `id` of the pool
of `c` is registered and synchronised. -/
theorem construct_tracked {s s' : State} {c : MapPtr} {T : TypeTag} {id : Id}
    {addr : ObjAddr} {a : PtrAddr}
    (ha : (s.poolMap.getD (T, c) {}).addr id = some addr)
    (h : Pointer.construct T c id addr s = some (a, s')) :
    a = s.nextPtr ∧ Registered s' c T a id ∧ Synced s' c T a id := by
  obtain ⟨e1, e2, e3, _, _, _, _, _, pid, e9, e10⟩ := construct_effect _ _ _ _ _ _ _ h
  unfold ObjectPool.addr at ha
  split at ha
  · rename_i hlt
    simp only [Option.some.injEq] at ha
    subst ha
    have hf := e10 (T, a)
    simp only [if_true] at hf
    exact ⟨e1, ⟨by rw [e2, e1]; exact Nat.lt_succ_self _, _, hf, rfl, rfl, e9, by rw [e3]; exact hlt⟩,
      _, hf, by rw [e3]⟩
  · exact absurd ha (by simp)

end SmartMap

namespace SmartMap

/-- Effect of the call `pool.firstInactiveId()` on `poolMap<T>[this]`. -/
theorem poolFirstInactiveId_effect (T : TypeTag) (this : MapPtr) (s : State) :
    (poolFirstInactiveId T this s).2.ptrs = s.ptrs ∧
    (poolFirstInactiveId T this s).2.nextPtr = s.nextPtr ∧
    (poolFirstInactiveId T this s).2.pointerPoolMap = s.pointerPoolMap ∧
    (poolFirstInactiveId T this s).2.idMapMap = s.idMapMap ∧
    (poolFirstInactiveId T this s).2.maps = s.maps ∧
    (∀ key, key ≠ (T, this) →
      (poolFirstInactiveId T this s).2.poolMap.getD key {} = s.poolMap.getD key {}) ∧
    (poolFirstInactiveId T this s).2.poolMap.getD (T, this) {} =
      ((s.poolMap.getD (T, this) {}).firstInactiveId s.nextBuf).2.1 ∧
    (poolFirstInactiveId T this s).1 =
      ((s.poolMap.getD (T, this) {}).firstInactiveId s.nextBuf).1 := by
  refine ⟨rfl, rfl, rfl, rfl, rfl, ?_, ?_, rfl⟩
  · intro key hk
    have : ¬ (T, this) = key := fun e => hk e.symm
    simp [poolFirstInactiveId, Assoc.getD_set, this]
  · simp [poolFirstInactiveId, Assoc.getD_set]

theorem TrackedW.allocW {s : State} {c : MapPtr} {T K : TypeTag} {k : Key} {a : PtrAddr}
    {id : Id} {v : Val} (ht : TrackedW s c T K k a id v) (T' : TypeTag) :
    TrackedW (poolFirstInactiveId T' c s).2 c T K k a id v := by
  obtain ⟨e1, e2, e3, e4, _, e6, e7, _⟩ := poolFirstInactiveId_effect T' c s
  by_cases hT : T' = T
  · subst hT
    obtain ⟨_, b2, b3, _⟩ := firstInactiveId_spec (s.poolMap.getD (T', c) {}) s.nextBuf
    obtain ⟨⟨h1, p, h2, h3, h4, h5, h6⟩, hv, hk⟩ := ht
    refine ⟨⟨by rw [e2]; exact h1, p, by rw [e1]; exact h2, h3, h4, by rw [e3]; exact h5, ?_⟩,
      ?_, ?_⟩
    · rw [e7]; exact Nat.lt_of_lt_of_le h6 b2
    · unfold slotValue; rw [e7, b3 id h6]; exact hv
    · unfold keyIndex; rw [e4]; exact hk
  · have hq := e6 (T, c) (by intro e; exact hT (Prod.mk.inj e).1.symm)
    exact ht.frameW (Nat.le_of_eq e2.symm) (by rw [e1]) (by rw [e3]) hq (by rw [e4])

theorem Synced.allocS {s : State} {c : MapPtr} {T : TypeTag} {a : PtrAddr} {id : Id}
    (ht : Synced s c T a id) (T' : TypeTag) :
    Synced (poolFirstInactiveId T' c s).2 c T a id ∨
    (T' = T ∧ ((poolFirstInactiveId T' c s).2.poolMap.getD (T', c) {}).invalidated = true) := by
  obtain ⟨e1, _, _, _, _, e6, e7, _⟩ := poolFirstInactiveId_effect T' c s
  by_cases hT : T' = T
  · subst hT
    obtain ⟨_, _, _, _, _, b6, _⟩ := firstInactiveId_spec (s.poolMap.getD (T', c) {}) s.nextBuf
    rcases b6 with hb | hi
    · left
      obtain ⟨p, h1, h2⟩ := ht
      exact ⟨p, by rw [e1]; exact h1, by rw [e7, hb]; exact h2⟩
    · right; exact ⟨rfl, by rw [e7]; exact hi⟩
  · left
    exact ht.frameS (by rw [e1]) (e6 (T, c) (by intro e; exact hT (Prod.mk.inj e).1.symm))

/-- The pool of `(T, c)` after `updatePointerObjectData<T2>` on `c`: only the
flag `invalidated` can have changed. -/
theorem updatePointerObjectData_pool (T2 : TypeTag) (this : MapPtr) (s s' : State)
    (h : updatePointerObjectData T2 this s = some s') (T : TypeTag) (c : MapPtr) :
    (s'.poolMap.getD (T, c) {}).data = (s.poolMap.getD (T, c) {}).data ∧
    (s'.poolMap.getD (T, c) {}).buf = (s.poolMap.getD (T, c) {}).buf ∧
    (s'.poolMap.getD (T, c) {}).cap = (s.poolMap.getD (T, c) {}).cap := by
  obtain ⟨_, _, _, _, e5, _, _⟩ := updatePointerObjectData_effect _ _ _ _ h
  rw [e5, Assoc.getD_set]
  by_cases hk : (T2, this) = (T, c)
  · rw [if_pos hk, hk]; exact ⟨rfl, rfl, rfl⟩
  · rw [if_neg hk]; exact ⟨rfl, rfl, rfl⟩

theorem TrackedW.resyncW {s s' : State} {c : MapPtr} {T K : TypeTag} {k : Key} {a : PtrAddr}
    {id : Id} {v : Val} (ht : TrackedW s c T K k a id v) {T' : TypeTag} {c' : MapPtr}
    (h : updatePointerObjectData T' c' s = some s') :
    TrackedW s' c T K k a id v := by
  obtain ⟨e1, _, e3, _, _, e6, e7⟩ := updatePointerObjectData_effect _ _ _ _ h
  obtain ⟨q1, _, _⟩ := updatePointerObjectData_pool _ _ _ _ h T c
  obtain ⟨⟨h1, p, h2, h3, h4, h5, h6⟩, hv, hk⟩ := ht
  refine ⟨⟨by rw [e1]; exact h1, _, by rw [e7, h2]; rfl, ?_, ?_, ?_, by rw [q1]; exact h6⟩,
    ?_, ?_⟩
  · split <;> exact h3
  · split <;> exact h4
  · rw [e6]
    split <;> exact h5
  · unfold slotValue; rw [q1]; exact hv
  · unfold keyIndex; rw [e3]; exact hk

/-- The resynchronisation of `(T, c)` makes the cached object pointer of every
pointer registered with `c` right. -/
theorem TrackedW.resync_synced {s s' : State} {c : MapPtr} {T K : TypeTag} {k : Key}
    {a : PtrAddr} {id : Id} {v : Val} (ht : TrackedW s c T K k a id v)
    (h : updatePointerObjectData T c s = some s') :
    Synced s' c T a id := by
  obtain ⟨_, _, _, _, _, _, e7⟩ := updatePointerObjectData_effect _ _ _ _ h
  obtain ⟨_, q2, _⟩ := updatePointerObjectData_pool _ _ _ _ h T c
  obtain ⟨⟨h1, p, h2, h3, h4, h5, h6⟩, hv, hk⟩ := ht
  have hmem : (⟨a, true⟩ : Wrapper PtrAddr) ∈ (s.pointerPoolMap.getD (T, c) {}).data :=
    List.getElem?_mem h5
  refine ⟨_, by rw [e7, h2]; rfl, ?_⟩
  dsimp only
  rw [if_pos ⟨rfl, hmem⟩, q2, h3]

theorem Synced.resyncS {s s' : State} {c : MapPtr} {T : TypeTag} {a : PtrAddr} {id : Id}
    (ht : Synced s c T a id) (hid : ∀ p, s.ptrs.find (T, a) = some p → p._objectId = id)
    {T' : TypeTag} (h : updatePointerObjectData T' c s = some s') :
    Synced s' c T a id := by
  obtain ⟨_, _, _, _, _, _, e7⟩ := updatePointerObjectData_effect _ _ _ _ h
  obtain ⟨_, q2, _⟩ := updatePointerObjectData_pool _ _ _ _ h T c
  obtain ⟨p, h1, h2⟩ := ht
  refine ⟨_, by rw [e7, h1]; rfl, ?_⟩
  dsimp only
  split
  · rename_i hc
    rw [q2, hid p h1, hc.1]
  · rw [q2]; exact h2

end SmartMap

namespace SmartMap

theorem getPointerNew_unfold {c : MapPtr} {tid : TypeId} {T K : TypeTag} {k : Key}
    {s s' : State} {a : PtrAddr} (h : getPointerNew c tid T K k s = some (a, s')) :
    ∃ s1 s2 addr, installTypeHelper c tid T K s = some s1 ∧
      resyncIfInvalidated T c (poolFirstInactiveId T c s1).2 = some s2 ∧
      ((assignId c T K k (poolFirstInactiveId T c s1).1 s2).poolMap.getD (T, c) {}).addr
        (poolFirstInactiveId T c s1).1 = some addr ∧
      Pointer.construct T c (poolFirstInactiveId T c s1).1 addr
        (assignId c T K k (poolFirstInactiveId T c s1).1 s2) = some (a, s') := by
  unfold getPointerNew at h
  simp only [Option.bind_eq_bind, Option.bind_eq_some] at h
  obtain ⟨s1, h1, s2, h2, addr, h3, h4⟩ := h
  exact ⟨s1, s2, addr, h1, h2, h3, h4⟩

theorem getPointer_unfold {c : MapPtr} {T K : TypeTag} {k : Key} {s s' : State} {a : PtrAddr}
    (h : getPointer c T K k s = some (a, s')) :
    s.maps.find c ≠ none ∧
    ((keyIndex (accessMaps c T K (getPointerStatic T K s).2) c T K k = none ∧
        getPointerNew c (getPointerStatic T K s).1 T K k
          (accessMaps c T K (getPointerStatic T K s).2) = some (a, s')) ∨
     (∃ id addr, keyIndex (accessMaps c T K (getPointerStatic T K s).2) c T K k = some id ∧
        ((accessMaps c T K (getPointerStatic T K s).2).poolMap.getD (T, c) {}).addr id
          = some addr ∧
        Pointer.construct T c id addr (accessMaps c T K (getPointerStatic T K s).2)
          = some (a, s'))) := by
  unfold getPointer at h
  cases hm : s.maps.find c with
  | none => simp [hm] at h
  | some obj =>
    simp only [hm, Option.bind_eq_bind, Option.some_bind] at h
    refine ⟨by simp, ?_⟩
    unfold keyIndex
    cases hk : ((accessMaps c T K (getPointerStatic T K s).2).idMapMap.getD (T, K, c) []).find k with
    | none =>
      left
      simp only [hk] at h
      exact ⟨rfl, h⟩
    | some id =>
      right
      simp only [hk, Option.bind_eq_some] at h
      obtain ⟨addr, h1, h2⟩ := h
      exact ⟨id, addr, rfl, h1, h2⟩

theorem Tracked.accessMapsT {s : State} {c : MapPtr} {T K : TypeTag} {k : Key} {a : PtrAddr}
    {id : Id} {v : Val} (ht : Tracked s c T K k a id v) (c' : MapPtr) (T' K' : TypeTag) :
    Tracked (accessMaps c' T' K' (getPointerStatic T' K' s).2) c T K k a id v := by
  obtain ⟨e1, e2, e3, _, _, e6, e7⟩ := accessMaps_effect c' T' K' (getPointerStatic T' K' s).2
  have hs := ht.sameDataT (getPointerStatic_sameData T' K' s).1
  exact hs.frameT (Nat.le_of_eq e2.symm) (by rw [e1]) (by rw [e3]) (e6 _) (e7 _)

theorem resyncIfInvalidated_cases {T : TypeTag} {c : MapPtr} {s s' : State}
    (h : resyncIfInvalidated T c s = some s') :
    ((s.poolMap.getD (T, c) {}).invalidated = true ∧ updatePointerObjectData T c s = some s') ∨
    ((s.poolMap.getD (T, c) {}).invalidated = false ∧ s' = s) := by
  unfold resyncIfInvalidated at h
  by_cases hi : (s.poolMap.getD (T, c) {}).invalidated = true
  · left; rw [if_pos hi] at h; exact ⟨hi, h⟩
  · right; rw [if_neg hi] at h
    exact ⟨by simpa using hi, (Option.some.inj h).symm⟩

theorem assignId_effect (c : MapPtr) (T K : TypeTag) (k : Key) (newId : Id) (s : State) :
    (assignId c T K k newId s).ptrs = s.ptrs ∧ (assignId c T K k newId s).nextPtr = s.nextPtr ∧
    (assignId c T K k newId s).poolMap = s.poolMap ∧
    (assignId c T K k newId s).pointerPoolMap = s.pointerPoolMap ∧
    (assignId c T K k newId s).nextBuf = s.nextBuf ∧ (assignId c T K k newId s).maps = s.maps ∧
    (∀ T2 K2 c2 k2, keyIndex (assignId c T K k newId s) c2 T2 K2 k2 =
      if (T, K, c) = (T2, K2, c2) ∧ k = k2 then some newId else keyIndex s c2 T2 K2 k2) := by
  refine ⟨rfl, rfl, rfl, rfl, rfl, rfl, ?_⟩
  intro T2 K2 c2 k2
  unfold keyIndex assignId
  simp only [Assoc.getD_set]
  by_cases hk : (T, K, c) = (T2, K2, c2)
  · simp only [hk, if_true, true_and, Assoc.find_set]
  · simp only [hk, if_false, false_and]

end SmartMap

namespace SmartMap

theorem Tracked.frameKey {s s' : State} {c : MapPtr} {T K : TypeTag} {k : Key} {a : PtrAddr}
    {id : Id} {v : Val} (ht : Tracked s c T K k a id v)
    (hn : s.nextPtr ≤ s'.nextPtr) (hp : s'.ptrs.find (T, a) = s.ptrs.find (T, a))
    (hr : s'.pointerPoolMap.getD (T, c) {} = s.pointerPoolMap.getD (T, c) {})
    (hq : s'.poolMap.getD (T, c) {} = s.poolMap.getD (T, c) {})
    (hi : keyIndex s' c T K k = keyIndex s c T K k) :
    Tracked s' c T K k a id v := by
  obtain ⟨⟨⟨h1, p, h2, h3, h4, h5, h6⟩, hv, hk⟩, hy⟩ := ht
  refine ⟨⟨⟨Nat.lt_of_lt_of_le h1 hn, p, by rw [hp]; exact h2, h3, h4, by rw [hr]; exact h5,
    by rw [hq]; exact h6⟩, ?_, by rw [hi]; exact hk⟩, hy.frameS hp hq⟩
  unfold slotValue; rw [hq]; exact hv

/-- A pointer obtained from `c.getPointer<T, K>(k)` keeps its registration, its
slot, a right cached object pointer and its value over the insertion of a new
key into any id map of `c`. -/
theorem Tracked.getPointerNewT {s s' : State} {c : MapPtr} {T K : TypeTag} {k : Key}
    {a : PtrAddr} {id : Id} {v : Val} (ht : Tracked s c T K k a id v)
    {tid : TypeId} {T' K' : TypeTag} {k' : Key} {a' : PtrAddr}
    (hnew : keyIndex s c T' K' k' = none)
    (h : getPointerNew c tid T' K' k' s = some (a', s')) :
    Tracked s' c T K k a id v ∧ a ≠ a' := by
  obtain ⟨s1, s2, addr, hi, hr, _, hc⟩ := getPointerNew_unfold h
  have t1 : Tracked s1 c T K k a id v := ht.sameDataT (installTypeHelper_sameData _ _ _ _ _ _ hi).1
  have w2 := t1.1.allocW T'
  have y2 := t1.2.allocS T'
  have hid : ∀ p, (poolFirstInactiveId T' c s1).2.ptrs.find (T, a) = some p → p._objectId = id := by
    intro p hp
    obtain ⟨_, q, hq, hq2, _⟩ := w2.1
    rw [hp] at hq
    rw [Option.some.inj hq]; exact hq2
  have t2 : Tracked s2 c T K k a id v := by
    rcases resyncIfInvalidated_cases hr with ⟨_, hu⟩ | ⟨hinv, rfl⟩
    · refine ⟨w2.resyncW hu, ?_⟩
      rcases y2 with y | ⟨rfl, _⟩
      · exact y.resyncS hid hu
      · exact w2.resync_synced hu
    · refine ⟨w2, ?_⟩
      rcases y2 with y | ⟨_, hinv'⟩
      · exact y
      · rw [hinv] at hinv'; exact absurd hinv' (by simp)
  obtain ⟨e1, e2, e3, e4, _, _, e7⟩ :=
    assignId_effect c T' K' k' (poolFirstInactiveId T' c s1).1 s2
  have t3 : Tracked (assignId c T' K' k' (poolFirstInactiveId T' c s1).1 s2) c T K k a id v := by
    refine t2.frameKey (Nat.le_of_eq e2.symm) (by rw [e1]) (by rw [e4]) (by rw [e3]) ?_
    rw [e7]
    have hne : ¬ ((T', K', c) = (T, K, c) ∧ k' = k) := by
      rintro ⟨e, rfl⟩
      obtain ⟨rfl, e'⟩ := Prod.mk.inj e
      obtain ⟨rfl, _⟩ := Prod.mk.inj e'
      have := ht.1.2.2
      rw [hnew] at this
      exact absurd this (by simp)
    rw [if_neg hne]
  exact t3.constructT hc

/-- Every call of `getPointer` on `c` keeps a pointer obtained earlier from
`c.getPointer<T, K>(k)` registered, attached to the same slot, with a right
cached object pointer and the same value. -/
theorem Tracked.getPointerT {s s' : State} {c : MapPtr} {T K : TypeTag} {k : Key}
    {a : PtrAddr} {id : Id} {v : Val} (ht : Tracked s c T K k a id v)
    {T' K' : TypeTag} {k' : Key} {a' : PtrAddr}
    (h : getPointer c T' K' k' s = some (a', s')) :
    Tracked s' c T K k a id v ∧ a ≠ a' := by
  obtain ⟨_, hcase⟩ := getPointer_unfold h
  have h0 := ht.accessMapsT c T' K'
  rcases hcase with ⟨hnone, hnew⟩ | ⟨id', addr, _, _, hc⟩
  · exact h0.getPointerNewT hnone hnew
  · exact h0.constructT hc

theorem Tracked.lookupsT {c : MapPtr} {T K : TypeTag} {k : Key} {a : PtrAddr} {id : Id} {v : Val}
    (ops : List (TypeTag × TypeTag × Key)) {s s' : State} (ht : Tracked s c T K k a id v)
    (h : lookups c ops s = some s') :
    Tracked s' c T K k a id v := by
  induction ops generalizing s with
  | nil =>
    simp only [SmartMap.lookups, Option.some.injEq] at h
    rw [← h]; exact ht
  | cons q qs ih =>
    unfold SmartMap.lookups at h
    cases hg : SmartMap.getPointer c q.1 q.2.1 q.2.2 s with
    | none => simp [hg] at h
    | some r =>
      simp only [hg] at h
      obtain ⟨a', s1⟩ := r
      exact ih (ht.getPointerT hg).1 h

end SmartMap

namespace SmartMap

theorem slotValue_isSome {s : State} {c : MapPtr} {T : TypeTag} {id : Id}
    (h : id < (s.poolMap.getD (T, c) {}).data.length) :
    ∃ v, slotValue s c T id = some v := by
  unfold slotValue
  rw [List.getElem?_eq_getElem h]
  exact ⟨_, rfl⟩

theorem Registered.lt_length {s : State} {c : MapPtr} {T : TypeTag} {a : PtrAddr} {id : Id}
    (h : Registered s c T a id) : id < (s.poolMap.getD (T, c) {}).data.length := by
  obtain ⟨_, _, _, _, _, _, h6⟩ := h
  exact h6

theorem resyncIfInvalidated_nextPtr {T : TypeTag} {c : MapPtr} {s s' : State}
    (h : resyncIfInvalidated T c s = some s') :
    s'.nextPtr = s.nextPtr ∧ s'.idMapMap = s.idMapMap := by
  rcases resyncIfInvalidated_cases h with ⟨_, hu⟩ | ⟨_, rfl⟩
  · obtain ⟨e1, _, e3, _⟩ := updatePointerObjectData_effect _ _ _ _ hu
    exact ⟨e1, e3⟩
  · exact ⟨rfl, rfl⟩

/-- The pointer returned by the branch of `getPointer` for a new key. -/
theorem getPointerNew_tracked {c : MapPtr} {tid : TypeId} {T K : TypeTag} {k : Key}
    {s s' : State} {a : PtrAddr} (h : getPointerNew c tid T K k s = some (a, s')) :
    a = s.nextPtr ∧ ∃ id v, Tracked s' c T K k a id v := by
  obtain ⟨s1, s2, addr, hi, hr, ha, hc⟩ := getPointerNew_unfold h
  obtain ⟨_, n1, _⟩ := (installTypeHelper_sameData _ _ _ _ _ _ hi).1
  obtain ⟨_, n2, _⟩ := poolFirstInactiveId_effect T c s1
  obtain ⟨n3, _⟩ := resyncIfInvalidated_nextPtr hr
  obtain ⟨_, n4, _, _, _, _, e7⟩ := assignId_effect c T K k (poolFirstInactiveId T c s1).1 s2
  obtain ⟨c1, c2, c3⟩ := construct_tracked ha hc
  obtain ⟨_, _, _, c4, _⟩ := construct_effect _ _ _ _ _ _ _ hc
  refine ⟨by rw [c1, n4, n3, n2, n1], (poolFirstInactiveId T c s1).1, ?_⟩
  obtain ⟨v, hv⟩ := slotValue_isSome c2.lt_length
  refine ⟨v, ⟨c2, hv, ?_⟩, c3⟩
  have := e7 T K c k
  rw [if_pos ⟨rfl, rfl⟩] at this
  unfold keyIndex at this ⊢
  rw [c4]; exact this

/-- The pointer returned by `c.getPointer<T, K>(k)` is registered with `c`, its
object id is the slot that the id map gives to `k`, and its cached object
pointer is the address of that slot. -/
theorem getPointer_tracked {c : MapPtr} {T K : TypeTag} {k : Key} {s s' : State} {a : PtrAddr}
    (h : getPointer c T K k s = some (a, s')) :
    a = s.nextPtr ∧ ∃ id v, Tracked s' c T K k a id v := by
  obtain ⟨_, hcase⟩ := getPointer_unfold h
  obtain ⟨_, m1, _⟩ := accessMaps_effect c T K (getPointerStatic T K s).2
  obtain ⟨_, m2, _⟩ := (getPointerStatic_sameData T K s).1
  rcases hcase with ⟨_, hnew⟩ | ⟨id, addr, hk, ha, hc⟩
  · obtain ⟨e, r⟩ := getPointerNew_tracked hnew
    exact ⟨by rw [e, m1, m2], r⟩
  · obtain ⟨c1, c2, c3⟩ := construct_tracked ha hc
    obtain ⟨_, _, _, c4, _⟩ := construct_effect _ _ _ _ _ _ _ hc
    refine ⟨by rw [c1, m1, m2], id, ?_⟩
    obtain ⟨v, hv⟩ := slotValue_isSome c2.lt_length
    refine ⟨v, ⟨c2, hv, ?_⟩, c3⟩
    unfold keyIndex at hk ⊢
    rw [c4]; exact hk

end SmartMap

namespace Assoc

variable {κ ν : Type} [DecidableEq κ]

theorem mem_of_find {m : Assoc κ ν} {k : κ} {v : ν} (h : m.find k = some v) : (k, v) ∈ m := by
  induction m with
  | nil => simp [find] at h
  | cons e r ih =>
    obtain ⟨k0, v0⟩ := e
    unfold find at h
    by_cases h0 : k0 = k
    · rw [if_pos h0] at h
      rw [h0, Option.some.inj h]; exact List.mem_cons_self _ _
    · rw [if_neg h0] at h
      exact List.mem_cons_of_mem _ (ih h)

theorem find_of_mem {m : Assoc κ ν} (hn : (m.map Prod.fst).Nodup) {k : κ} {v : ν}
    (h : (k, v) ∈ m) : m.find k = some v := by
  induction m with
  | nil => simp at h
  | cons e r ih =>
    obtain ⟨k0, v0⟩ := e
    simp only [List.map_cons, List.nodup_cons, List.mem_map, not_exists, not_and] at hn
    unfold find
    rcases List.mem_cons.mp h with he | hr
    · obtain ⟨rfl, rfl⟩ := Prod.mk.inj he
      simp
    · have : ¬ k0 = k := by
        intro e; exact hn.1 (k, v) hr e.symm
      rw [if_neg this]
      exact ih hn.2 hr

theorem keys_set_subset (m : Assoc κ ν) (k : κ) (v : ν) (x : κ)
    (h : x ∈ (set m k v).map Prod.fst) : x = k ∨ x ∈ m.map Prod.fst := by
  induction m with
  | nil => simp [set] at h; exact Or.inl h
  | cons e r ih =>
    obtain ⟨k0, v0⟩ := e
    unfold set at h
    by_cases h0 : k0 = k
    · rw [if_pos h0] at h
      simp only [List.map_cons, List.mem_cons] at h ⊢
      rcases h with h | h
      · exact Or.inl h
      · exact Or.inr (Or.inr h)
    · rw [if_neg h0] at h
      simp only [List.map_cons, List.mem_cons] at h ⊢
      rcases h with h | h
      · exact Or.inr (Or.inl h)
      · rcases ih h with h | h
        · exact Or.inl h
        · exact Or.inr (Or.inr h)

theorem nodup_set {m : Assoc κ ν} (hn : (m.map Prod.fst).Nodup) (k : κ) (v : ν) :
    ((set m k v).map Prod.fst).Nodup := by
  induction m with
  | nil => simp [set]
  | cons e r ih =>
    obtain ⟨k0, v0⟩ := e
    simp only [List.map_cons, List.nodup_cons] at hn
    unfold set
    by_cases h0 : k0 = k
    · rw [if_pos h0]
      simp only [List.map_cons, List.nodup_cons]
      rw [← h0]; exact hn
    · rw [if_neg h0]
      simp only [List.map_cons, List.nodup_cons]
      refine ⟨?_, ih hn.2⟩
      intro hx
      rcases keys_set_subset r k v k0 hx with h | h
      · exact h0 h
      · exact hn.1 h

theorem keys_erase_subset (m : Assoc κ ν) (k : κ) (x : κ)
    (h : x ∈ (erase m k).map Prod.fst) : x ∈ m.map Prod.fst := by
  induction m with
  | nil => simp [erase] at h
  | cons e r ih =>
    obtain ⟨k0, v0⟩ := e
    unfold erase at h
    by_cases h0 : k0 = k
    · rw [if_pos h0] at h
      exact List.mem_cons_of_mem _ (ih h)
    · rw [if_neg h0] at h
      simp only [List.map_cons, List.mem_cons] at h ⊢
      rcases h with h | h
      · exact Or.inl h
      · exact Or.inr (ih h)

theorem nodup_erase {m : Assoc κ ν} (hn : (m.map Prod.fst).Nodup) (k : κ) :
    ((erase m k).map Prod.fst).Nodup := by
  induction m with
  | nil => simp [erase]
  | cons e r ih =>
    obtain ⟨k0, v0⟩ := e
    simp only [List.map_cons, List.nodup_cons] at hn
    unfold erase
    by_cases h0 : k0 = k
    · rw [if_pos h0]; exact ih hn.2
    · rw [if_neg h0]
      simp only [List.map_cons, List.nodup_cons]
      exact ⟨fun hx => hn.1 (keys_erase_subset r k k0 hx), ih hn.2⟩

theorem nodup_ensure {m : Assoc κ ν} (hn : (m.map Prod.fst).Nodup) (k : κ) (d : ν) :
    ((ensure m k d).map Prod.fst).Nodup := by
  unfold ensure
  cases find m k with
  | none => exact nodup_set hn k d
  | some v => exact hn

end Assoc

namespace SmartMap

/-! ## Buffers and dereferencing -/

theorem PoolsWF.mono {m : Assoc (TypeTag × MapPtr) (ObjectPool Val)} {n n' : Nat}
    (h : PoolsWF m n) (hn : n ≤ n') : PoolsWF m n' := by
  obtain ⟨h1, h2, h3, h4⟩ := h
  refine ⟨Nat.lt_of_lt_of_le h1 hn, h2, ?_, h4⟩
  intro k P hk
  obtain ⟨a, b, c⟩ := h3 k P hk
  exact ⟨Nat.lt_of_lt_of_le a hn, b, c⟩

theorem PoolsWF.getD_le {m : Assoc (TypeTag × MapPtr) (ObjectPool Val)} {n : Nat}
    (h : PoolsWF m n) (key : TypeTag × MapPtr) :
    (m.getD key {}).data.length ≤ (m.getD key {}).cap := by
  unfold Assoc.getD
  cases hf : m.find key with
  | none => simp
  | some P => exact (h.2.2.1 key P hf).2.1

theorem PoolsWF.set {m : Assoc (TypeTag × MapPtr) (ObjectPool Val)} {n : Nat}
    (h : PoolsWF m n) (key : TypeTag × MapPtr) (P' : ObjectPool Val)
    (hb : P'.buf < n) (hl : P'.data.length ≤ P'.cap) (hz : P'.buf = 0 → P'.cap = 0)
    (hu : ∀ k P, k ≠ key → m.find k = some P → P.buf = P'.buf → P'.buf = 0) :
    PoolsWF (m.set key P') n := by
  obtain ⟨h1, h2, h3, h4⟩ := h
  refine ⟨h1, Assoc.nodup_set h2 key P', ?_, ?_⟩
  · intro k P hk
    rw [Assoc.find_set] at hk
    by_cases e : key = k
    · rw [if_pos e] at hk
      rw [← Option.some.inj hk]; exact ⟨hb, hl, hz⟩
    · rw [if_neg e] at hk; exact h3 k P hk
  · intro k1 k2 P1 P2 hk1 hk2 hbuf hne
    rw [Assoc.find_set] at hk1 hk2
    by_cases e1 : key = k1
    · by_cases e2 : key = k2
      · rw [← e1, ← e2]
      · rw [if_pos e1] at hk1
        rw [if_neg e2] at hk2
        have hp : P1 = P' := (Option.some.inj hk1).symm
        subst hp
        exact absurd (hu k2 P2 (fun e => e2 e.symm) hk2 hbuf.symm) hne
    · rw [if_neg e1] at hk1
      by_cases e2 : key = k2
      · rw [if_pos e2] at hk2
        have hp : P2 = P' := (Option.some.inj hk2).symm
        subst hp
        have := hu k1 P1 (fun e => e1 e.symm) hk1 hbuf
        rw [← hbuf] at this
        exact absurd this hne
      · rw [if_neg e2] at hk2
        exact h4 k1 k2 P1 P2 hk1 hk2 hbuf hne

/-- Replacing a pool by one that keeps its buffer. -/
theorem PoolsWF.set_same {m : Assoc (TypeTag × MapPtr) (ObjectPool Val)} {n : Nat}
    (h : PoolsWF m n) (key : TypeTag × MapPtr) (P' : ObjectPool Val)
    (hb : P'.buf = (m.getD key {}).buf) (hc : P'.cap = (m.getD key {}).cap)
    (hl : P'.data.length ≤ P'.cap) :
    PoolsWF (m.set key P') n := by
  have h' := h
  obtain ⟨h1, h2, h3, h4⟩ := h
  cases hf : m.find key with
  | none =>
    have hb0 : P'.buf = 0 := by rw [hb]; simp [Assoc.getD, hf]
    have hc0 : P'.cap = 0 := by rw [hc]; simp [Assoc.getD, hf]
    exact h'.set key P' (by rw [hb0]; exact h1) hl (fun _ => hc0) (fun _ _ _ _ _ => hb0)
  | some P0 =>
    have hb0 : P'.buf = P0.buf := by rw [hb]; simp [Assoc.getD, hf]
    have hc0 : P'.cap = P0.cap := by rw [hc]; simp [Assoc.getD, hf]
    obtain ⟨a, _, c⟩ := h3 key P0 hf
    refine h'.set key P' (by rw [hb0]; exact a) hl (by rw [hb0, hc0]; exact c) ?_
    intro k P hk hfk hbuf
    by_contra hne
    apply hk
    exact h4 k key P P0 hfk hf (by rw [hbuf, hb0]) (by rw [hbuf]; exact hne)

/-- Replacing a pool by one whose buffer is the next unused one. -/
theorem PoolsWF.set_fresh {m : Assoc (TypeTag × MapPtr) (ObjectPool Val)} {n : Nat}
    (h : PoolsWF m n) (key : TypeTag × MapPtr) (P' : ObjectPool Val)
    (hb : P'.buf = n) (hl : P'.data.length ≤ P'.cap) :
    PoolsWF (m.set key P') (n + 1) := by
  have h' := h.mono (Nat.le_succ n)
  obtain ⟨h1, h2, h3, h4⟩ := h
  refine h'.set key P' (by rw [hb]; exact Nat.lt_succ_self n) hl ?_ ?_
  · intro e; rw [hb] at e; rw [e] at h1; exact absurd h1 (Nat.lt_irrefl 0)
  · intro k P _ hfk hbuf
    have := (h3 k P hfk).1
    rw [hbuf, hb] at this
    exact absurd this (Nat.lt_irrefl n)

theorem PoolsWF.ensure {m : Assoc (TypeTag × MapPtr) (ObjectPool Val)} {n : Nat}
    (h : PoolsWF m n) (key : TypeTag × MapPtr) :
    PoolsWF (m.ensure key {}) n := by
  unfold Assoc.ensure
  cases hf : m.find key with
  | some P => exact h
  | none =>
    exact h.set_same key {} (by simp [Assoc.getD, hf]) (by simp [Assoc.getD, hf]) (by simp)

theorem findBuf_mem {T : TypeTag} {b : Nat} {m : Assoc (TypeTag × MapPtr) (ObjectPool Val)}
    {e : (TypeTag × MapPtr) × ObjectPool Val} (h : findBuf T b m = some e) :
    e ∈ m ∧ e.1.1 = T ∧ e.2.buf = b := by
  induction m with
  | nil => simp [findBuf] at h
  | cons x r ih =>
    obtain ⟨k, p⟩ := x
    unfold findBuf at h
    by_cases hc : k.1 = T ∧ p.buf = b
    · rw [if_pos hc] at h
      rw [← Option.some.inj h]
      exact ⟨List.mem_cons_self _ _, hc.1, hc.2⟩
    · rw [if_neg hc] at h
      obtain ⟨a1, a2, a3⟩ := ih h
      exact ⟨List.mem_cons_of_mem _ a1, a2, a3⟩

theorem findBuf_exists {T : TypeTag} {b : Nat} {m : Assoc (TypeTag × MapPtr) (ObjectPool Val)}
    {e : (TypeTag × MapPtr) × ObjectPool Val} (h : e ∈ m) (h1 : e.1.1 = T) (h2 : e.2.buf = b) :
    ∃ e', findBuf T b m = some e' := by
  induction m with
  | nil => simp at h
  | cons x r ih =>
    obtain ⟨k, p⟩ := x
    unfold findBuf
    by_cases hc : k.1 = T ∧ p.buf = b
    · rw [if_pos hc]; exact ⟨_, rfl⟩
    · rw [if_neg hc]
      rcases List.mem_cons.mp h with he | hr
      · rw [he] at h1 h2; exact absurd ⟨h1, h2⟩ hc
      · exact ih hr

/-- In a well-formed map of pools the buffer of a non-empty pool is found as
the buffer of that pool. -/
theorem PoolsWF.findBuf {m : Assoc (TypeTag × MapPtr) (ObjectPool Val)} {n : Nat}
    (h : PoolsWF m n) {T : TypeTag} {c : MapPtr} {P : ObjectPool Val}
    (hf : m.find (T, c) = some P) (hne : 0 < P.data.length) :
    SmartMap.findBuf T P.buf m = some ((T, c), P) := by
  obtain ⟨h1, h2, h3, h4⟩ := h
  obtain ⟨_, b, z⟩ := h3 _ _ hf
  have hb : P.buf ≠ 0 := by
    intro e; have := z e; rw [this] at b; exact absurd (Nat.lt_of_lt_of_le hne b) (Nat.lt_irrefl 0)
  obtain ⟨e', he'⟩ := findBuf_exists (Assoc.mem_of_find hf) rfl rfl
  obtain ⟨m1, m2, m3⟩ := findBuf_mem he'
  obtain ⟨k', P'⟩ := e'
  have hf' : m.find k' = some P' := Assoc.find_of_mem h2 m1
  have hk : k' = (T, c) := h4 k' (T, c) P' P hf' hf m3 (by rw [m3]; exact hb)
  subst hk
  rw [hf] at hf'
  rw [he', Option.some.inj hf']

theorem find_of_lt_length {s : State} {T : TypeTag} {c : MapPtr} {id : Id}
    (h : id < (s.poolMap.getD (T, c) {}).data.length) :
    s.poolMap.find (T, c) = some (s.poolMap.getD (T, c) {}) := by
  unfold Assoc.getD at h ⊢
  cases hf : s.poolMap.find (T, c) with
  | none => rw [hf] at h; simp at h
  | some P => rfl

/-- Reading the address of a slot of the pool of `(T, c)` gives the value of
that slot. -/
theorem load_slot {s : State} (hw : BufWF s) {T : TypeTag} {c : MapPtr} {id : Id}
    (h : id < (s.poolMap.getD (T, c) {}).data.length) :
    load T ⟨(s.poolMap.getD (T, c) {}).buf, id⟩ s = slotValue s c T id := by
  have hf := find_of_lt_length h
  have hb := PoolsWF.findBuf hw hf (Nat.lt_of_le_of_lt (Nat.zero_le _) h)
  unfold load slotValue
  simp only [hb, Option.bind_eq_bind, Option.some_bind, List.get?_eq_getElem?]
  cases (s.poolMap.getD (T, c) {}).data[id]? <;> rfl

/-- Writing the address of a slot of the pool of `(T, c)` overwrites the value
of that slot. -/
theorem store_slot {s : State} (hw : BufWF s) {T : TypeTag} {c : MapPtr} {id : Id} (v : Val)
    (h : id < (s.poolMap.getD (T, c) {}).data.length) :
    store T ⟨(s.poolMap.getD (T, c) {}).buf, id⟩ v s = some (writeSlot c T id v s) := by
  have hf := find_of_lt_length h
  have hb := PoolsWF.findBuf hw hf (Nat.lt_of_le_of_lt (Nat.zero_le _) h)
  unfold store writeSlot
  simp only [hb, Option.bind_eq_bind, Option.some_bind, if_pos h]

theorem writeSlot_pool (c : MapPtr) (T : TypeTag) (id : Id) (v : Val) (s : State) :
    (writeSlot c T id v s).poolMap.getD (T, c) {} =
      { s.poolMap.getD (T, c) {} with data := setO (s.poolMap.getD (T, c) {}).data id v } := by
  unfold writeSlot
  dsimp only
  rw [Assoc.getD_set, if_pos rfl]

theorem BufWF.writeSlotB {s : State} (hw : BufWF s) (c : MapPtr) (T : TypeTag) (id : Id)
    (v : Val) : BufWF (writeSlot c T id v s) := by
  unfold BufWF SmartMap.writeSlot
  exact PoolsWF.set_same hw _ _ rfl rfl
    (by dsimp only; rw [length_setO]; exact PoolsWF.getD_le hw (T, c))

theorem slotValue_writeSlot {s : State} {c : MapPtr} {T : TypeTag} {id : Id}
    (h : id < (s.poolMap.getD (T, c) {}).data.length) (v : Val) :
    slotValue (writeSlot c T id v s) c T id = some v := by
  unfold slotValue
  rw [writeSlot_pool]
  dsimp only
  rw [get?_setO, if_pos rfl, List.getElem?_eq_getElem h]
  rfl

end SmartMap

namespace SmartMap

theorem BufWF.sameDataB {s s' : State} (h : BufWF s) (hs : SameData s s') : BufWF s' := by
  obtain ⟨_, _, e3, _, _, e6⟩ := hs
  unfold BufWF; rw [e3, e6]; exact h

theorem BufWF.allocB {s : State} (h : BufWF s) (T : TypeTag) (c : MapPtr) :
    BufWF (poolFirstInactiveId T c s).2 := by
  have hle := PoolsWF.getD_le h (T, c)
  unfold BufWF poolFirstInactiveId
  dsimp only
  rcases firstInactiveId_cases (s.poolMap.getD (T, c) {}) s.nextBuf with
    ⟨d, hs, hp, hh⟩ | ⟨_, _, hd, _, ⟨hlt, hb, hc, hh⟩ | ⟨hlt, hb, hc, hh⟩⟩
  · rw [hh, hp]
    obtain ⟨_, a2, _⟩ := scanInactive_spec _ _ _ hs
    exact h.set_same _ _ rfl rfl (by dsimp only; rw [a2]; exact hle)
  · rw [hh]
    refine h.set_same _ _ hb hc ?_
    rw [hd, hc, List.length_append]; exact hlt
  · rw [hh]
    refine h.set_fresh _ _ hb ?_
    rw [hd, hc, List.length_append]
    have : (s.poolMap.getD (T, c) {}).data.length = (s.poolMap.getD (T, c) {}).cap :=
      Nat.le_antisymm hle (Nat.le_of_not_lt hlt)
    rw [this]
    unfold vecGrowth
    split
    · rename_i h0; rw [h0]; exact Nat.le_refl _
    · simp only [List.length_singleton]; omega

theorem BufWF.resyncB {s s' : State} (h : BufWF s) {T : TypeTag} {c : MapPtr}
    (hu : updatePointerObjectData T c s = some s') : BufWF s' := by
  obtain ⟨_, e2, _, _, e5, _⟩ := updatePointerObjectData_effect _ _ _ _ hu
  unfold BufWF; rw [e5, e2]
  exact h.set_same _ _ rfl rfl (PoolsWF.getD_le h (T, c))

theorem BufWF.constructB {s s' : State} (h : BufWF s) {T : TypeTag} {c : MapPtr} {id : Id}
    {addr : ObjAddr} {a : PtrAddr} (hc : Pointer.construct T c id addr s = some (a, s')) :
    BufWF s' := by
  obtain ⟨_, _, e3, _, _, e6, _⟩ := construct_effect _ _ _ _ _ _ _ hc
  unfold BufWF; rw [e3]
  exact PoolsWF.mono h e6

theorem BufWF.accessMapsB {s : State} (h : BufWF s) (c : MapPtr) (T K : TypeTag) :
    BufWF (accessMaps c T K s) := by
  unfold BufWF SmartMap.accessMaps
  exact PoolsWF.ensure h (T, c)

/-- The call `getPointer` keeps the buffers of the pools well-formed. -/
theorem BufWF.getPointerB {s s' : State} (h : BufWF s) {c : MapPtr} {T K : TypeTag} {k : Key}
    {a : PtrAddr} (hg : getPointer c T K k s = some (a, s')) : BufWF s' := by
  obtain ⟨_, hcase⟩ := getPointer_unfold hg
  have h0 : BufWF (SmartMap.accessMaps c T K (getPointerStatic T K s).2) :=
    (h.sameDataB (getPointerStatic_sameData T K s).1).accessMapsB c T K
  rcases hcase with ⟨_, hnew⟩ | ⟨id, addr, _, _, hc⟩
  · obtain ⟨s1, s2, addr, hi, hr, _, hc⟩ := getPointerNew_unfold hnew
    have h1 : BufWF s1 := h0.sameDataB (installTypeHelper_sameData _ _ _ _ _ _ hi).1
    have h2 := h1.allocB T c
    have h3 : BufWF s2 := by
      rcases resyncIfInvalidated_cases hr with ⟨_, hu⟩ | ⟨_, rfl⟩
      · exact h2.resyncB hu
      · exact h2
    have h4 : BufWF (assignId c T K k (poolFirstInactiveId T c s1).1 s2) := h3
    exact h4.constructB hc
  · exact h0.constructB hc

theorem BufWF.lookupsB {c : MapPtr} (ops : List (TypeTag × TypeTag × Key)) {s s' : State}
    (h : BufWF s) (hl : lookups c ops s = some s') : BufWF s' := by
  induction ops generalizing s with
  | nil =>
    simp only [SmartMap.lookups, Option.some.injEq] at hl
    rw [← hl]; exact h
  | cons q qs ih =>
    unfold SmartMap.lookups at hl
    cases hg : SmartMap.getPointer c q.1 q.2.1 q.2.2 s with
    | none => simp [hg] at hl
    | some r =>
      simp only [hg] at hl
      exact ih (h.getPointerB hg) hl

end SmartMap

namespace SmartMap

/-- Reading through a pointer whose cached object pointer is the address of a
slot of the pool of `(T, c)` gives the value of that slot. -/
theorem read_slot {s : State} (hw : BufWF s) {T : TypeTag} {c : MapPtr} {id : Id}
    (hlt : id < (s.poolMap.getD (T, c) {}).data.length) {a : PtrAddr} {p : Pointer}
    (hp : s.ptrs.find (T, a) = some p)
    (hptr : p._objectPtr = some ⟨(s.poolMap.getD (T, c) {}).buf, id⟩) :
    Pointer.read T a s = slotValue s c T id := by
  unfold Pointer.read
  simp only [hp, hptr, Option.bind_eq_bind, Option.some_bind]
  exact load_slot hw hlt

/-- Writing through a pointer whose cached object pointer is the address of a
slot of the pool of `(T, c)` overwrites that slot. -/
theorem write_slot {s : State} (hw : BufWF s) {T : TypeTag} {c : MapPtr} {id : Id}
    (hlt : id < (s.poolMap.getD (T, c) {}).data.length) {a : PtrAddr} {p : Pointer}
    (hp : s.ptrs.find (T, a) = some p)
    (hptr : p._objectPtr = some ⟨(s.poolMap.getD (T, c) {}).buf, id⟩) (v : Val) :
    Pointer.write T a v s = some (writeSlot c T id v s) := by
  unfold Pointer.write
  simp only [hp, hptr, Option.bind_eq_bind, Option.some_bind]
  exact store_slot hw v hlt

end SmartMap

namespace SmartMap

theorem bufWF_oneMap : BufWF oneMap := by
  refine ⟨by decide, by simp [oneMap, State.init], ?_, ?_⟩
  · intro k P h; simp [oneMap, State.init, Assoc.find] at h
  · intro k1 k2 P1 P2 h; simp [oneMap, State.init, Assoc.find] at h

/-! ## C1: identity -/

end SmartMap

namespace SmartMap

/-! ## C3: growth stability -/

/-- C3 (growth stability).  After any further sequence of lookups on `c`
(each new key of which allocates a slot of the pool and may move its storage),
a pointer returned by `c.getPointer<T, K>(k)` is still live and attached to
`c`, has the same object id, caches the address of the slot with that id in
the current pool of `c` for `T`, and dereferences to the same value as before. -/
theorem getPointer_growth_stable (s s1 s2 : State) (c : MapPtr) (T K : TypeTag) (k : Key)
    (a : PtrAddr) (ops : List (TypeTag × TypeTag × Key)) (hw : BufWF s)
    (h1 : getPointer c T K k s = some (a, s1)) (hm : lookups c ops s1 = some s2) :
    ∃ p1 p2 v,
      s1.ptrs.find (T, a) = some p1 ∧ s2.ptrs.find (T, a) = some p2 ∧
      p2._map = some c ∧ p2._objectId = p1._objectId ∧
      p2._objectPtr = (s2.poolMap.getD (T, c) {}).addr p2._objectId ∧
      p2._objectPtr = some ⟨(s2.poolMap.getD (T, c) {}).buf, p2._objectId⟩ ∧
      p2._objectId < (s2.poolMap.getD (T, c) {}).data.length ∧
      Pointer.read T a s1 = some v ∧ Pointer.read T a s2 = some v := by
  obtain ⟨_, id, v, t1⟩ := getPointer_tracked h1
  have t2 := t1.lookupsT ops hm
  have hw1 : BufWF s1 := hw.getPointerB h1
  have hw2 : BufWF s2 := hw1.lookupsB ops hm
  obtain ⟨⟨⟨_, p1, f1, g1, _, _, l1⟩, hv1, _⟩, q1, f1', y1⟩ := t1
  obtain ⟨⟨⟨_, p2, f2, g2, m2, _, l2⟩, hv2, _⟩, q2, f2', y2⟩ := t2
  rw [f1] at f1'
  rw [f2] at f2'
  have e1 : q1 = p1 := (Option.some.inj f1').symm
  have e2 : q2 = p2 := (Option.some.inj f2').symm
  subst e1
  subst e2
  refine ⟨q1, q2, v, f1, f2, m2, by rw [g1, g2], ?_, by rw [g2]; exact y2, by rw [g2]; exact l2,
    ?_, ?_⟩
  · rw [g2, y2]; unfold ObjectPool.addr; rw [if_pos l2]
  · rw [read_slot hw1 l1 f1 y1]; exact hv1
  · rw [read_slot hw2 l2 f2 y2]; exact hv2

/-- Witness of C3: the pool of the container grows from one slot to two, which
moves its storage to a new buffer. -/
theorem getPointer_growth_stable_witness :
    BufWF oneMap ∧ getPointer 1 0 0 1 oneMap = some (1, identityS1) ∧
    lookups 1 [(0, 0, 2), (1, 0, 1)] identityS1 = some identityS2 ∧
    (identityS1.poolMap.getD (0, 1) {}).buf ≠ (identityS2.poolMap.getD (0, 1) {}).buf ∧
    ∃ p1 p2 v,
      identityS1.ptrs.find (0, 1) = some p1 ∧ identityS2.ptrs.find (0, 1) = some p2 ∧
      p2._map = some 1 ∧ p2._objectId = p1._objectId ∧
      p2._objectPtr = (identityS2.poolMap.getD (0, 1) {}).addr p2._objectId ∧
      p2._objectPtr = some ⟨(identityS2.poolMap.getD (0, 1) {}).buf, p2._objectId⟩ ∧
      p2._objectId < (identityS2.poolMap.getD (0, 1) {}).data.length ∧
      Pointer.read 0 1 identityS1 = some v ∧ Pointer.read 0 1 identityS2 = some v :=
  ⟨bufWF_oneMap, by rfl, by rfl, by decide,
    getPointer_growth_stable oneMap identityS1 identityS2 1 0 0 1 1
      [(0, 0, 2), (1, 0, 1)] bufWF_oneMap (by rfl) (by rfl)⟩

end SmartMap

namespace SmartMap

/-! ## C2: key isolation -/

/-- C2 (key isolation) at a failing input.  The container `c5` is move
constructed from a container that holds a `std::string` and an `int` under the
same key type.  The id map of `int` moves to `c5`, its pool does not (the type
helper at index 0 was initialised for `std::string`).  The program runs without
undefined behaviour; the lookups of the two different keys `k2` and `k1` on
`c5` return pointers with the same object id 0 and the same cached address,
and a write through the first is read through the second. -/
theorem sharedSlot_after_move :
    run sharedSlotProg State.init = some (finalState sharedSlotProg) ∧
    keyIndex (finalState sharedSlotProg) 5 1 0 2 = some 0 ∧
    keyIndex (finalState sharedSlotProg) 5 1 0 1 = some 0 ∧
    objectIdOf (finalState sharedSlotProg) 1 3 = some 0 ∧
    objectIdOf (finalState sharedSlotProg) 1 4 = some 0 ∧
    mapOf (finalState sharedSlotProg) 1 3 = some (some 5) ∧
    mapOf (finalState sharedSlotProg) 1 4 = some (some 5) ∧
    objectPtrOf (finalState sharedSlotProg) 1 3 = objectPtrOf (finalState sharedSlotProg) 1 4 ∧
    Pointer.read 1 4 (finalState sharedSlotProg) = some 0 ∧
    (Pointer.write 1 3 7 (finalState sharedSlotProg)).bind (Pointer.read 1 4) = some 7 := by
  refine ⟨by rfl, by decide, by decide, by decide, by decide, by decide, by decide, by decide,
    by decide, by decide⟩

end SmartMap

namespace SmartMap

/-! ## C4: copy independence -/

/-- C4 (copy independence) at a failing input.  `copyPointerPool` copies the
wrappers of the pointer pool of `c1` to `c2`, so the pointer `p1`, which stays
attached to `c1`, is named by an active wrapper of the pointer pool of `c2`.
The lookup of a new key on `c2` makes the pool of `c2` grow and resynchronises
`p1` to slot 0 of the pool of `c2`.  A write through the pointer `p3` obtained
from `c2` is then read through `p1`, while slot 0 of the pool of `c1` keeps
its value 7. -/
theorem copy_shares_slot_after_growth :
    run copyThenGrow State.init = some (finalState copyThenGrow) ∧
    mapOf (finalState copyThenGrow) 0 1 = some (some 1) ∧
    mapOf (finalState copyThenGrow) 0 3 = some (some 2) ∧
    ((finalState copyThenGrow).pointerPoolMap.find (0, 2)).map (fun p => p.data) =
      some [⟨1, true⟩, ⟨2, true⟩, ⟨3, true⟩] ∧
    objectPtrOf (finalState copyThenGrow) 0 1 =
      some (some ⟨((finalState copyThenGrow).poolMap.getD (0, 2) {}).buf, 0⟩) ∧
    objectPtrOf (finalState copyThenGrow) 0 3 = objectPtrOf (finalState copyThenGrow) 0 1 ∧
    Pointer.read 0 1 (finalState copyThenGrow) = some 7 ∧
    (Pointer.write 0 3 9 (finalState copyThenGrow)).bind (Pointer.read 0 1) = some 9 ∧
    (Pointer.write 0 3 9 (finalState copyThenGrow)).map (fun s => slotValue s 1 0 0)
      = some (some 7) ∧
    (Pointer.write 0 1 8 (finalState copyThenGrow)).bind (Pointer.read 0 3) = some 8 := by
  refine ⟨by rfl, by decide, by decide, by decide, by decide, by decide, by decide, by decide,
    by decide, by decide⟩

/-! ## C5: move re-targeting -/

/-- C5 (move re-targeting) at a failing input.  After `c5` is move constructed
from `c1`, which holds a `std::string` and an `int` under the same key type,
the `std::string` pointer `p1` is attached to `c5`, but the `int` pointer `p2`
is still attached to `c1`, the pool of `int` is still keyed by `c1` and `c5`
has none, while the id map of `int` of `c5` gives slot 0 to the key: the
lookup `c5.getPointer<int>(k1)` indexes an empty vector. -/
theorem move_leaves_second_type :
    run moveTwoTypes State.init = some (finalState moveTwoTypes) ∧
    mapOf (finalState moveTwoTypes) 0 1 = some (some 5) ∧
    mapOf (finalState moveTwoTypes) 1 2 = some (some 1) ∧
    (finalState moveTwoTypes).poolMap.find (1, 5) = none ∧
    slotValue (finalState moveTwoTypes) 1 1 0 = some 10 ∧
    keyIndex (finalState moveTwoTypes) 5 1 0 1 = some 0 ∧
    getPointer 5 1 0 1 (finalState moveTwoTypes) = none ∧
    (finalState moveTwoTypes).maps.find 5 = some ⟨[⟨some 0, some 0, some 0,
      [none, some (0, 0), some (1, 0)], some 0, some 0, [none, some (0, 0), some (1, 0)]⟩]⟩ := by
  refine ⟨by rfl, by decide, by decide, by decide, by decide, by decide, by rfl, by decide⟩

/-! ## C6: copy preserves values -/

/-- C6 (copy preserves values) at a failing input.  After `c3` is copy
constructed from `c1`, which holds a `std::string` and an `int` under the same
key type, the `std::string` entry is copied, but `c3` has the id map of `int`
without a pool of `int`: the lookup `c3.getPointer<int>(k1)` indexes an empty
vector instead of returning a pointer to the value 10. -/
theorem copy_leaves_second_type :
    run copyTwoTypes State.init = some (finalState copyTwoTypes) ∧
    slotValue (finalState copyTwoTypes) 1 1 0 = some 10 ∧
    keyIndex (finalState copyTwoTypes) 3 0 0 1 = some 0 ∧
    slotValue (finalState copyTwoTypes) 3 0 0 = some 0 ∧
    keyIndex (finalState copyTwoTypes) 3 1 0 1 = some 0 ∧
    (finalState copyTwoTypes).poolMap.find (1, 3) = none ∧
    getPointer 3 1 0 1 (finalState copyTwoTypes) = none := by
  refine ⟨by rfl, by decide, by decide, by decide, by decide, by decide, by rfl⟩

/-! ## C7: detach on destruction -/

/-- C7 (detach on destruction) at a failing input.  After the destruction of
`c1`, which holds a `std::string` and an `int` under the same key type, the
`std::string` pointer `p1` is detached, but the `int` pointer `p2` still has
the address of the destroyed container in `_map`. -/
theorem destroy_leaves_pointer_attached :
    run destroyTwoTypes State.init = some (finalState destroyTwoTypes) ∧
    (finalState destroyTwoTypes).maps.find 1 = none ∧
    mapOf (finalState twoTypes) 0 1 = some (some 1) ∧
    mapOf (finalState twoTypes) 1 2 = some (some 1) ∧
    mapOf (finalState destroyTwoTypes) 0 1 = some none ∧
    mapOf (finalState destroyTwoTypes) 1 2 = some (some 1) := by
  refine ⟨by rfl, by decide, by decide, by decide, by decide, by decide⟩

/-! ## C8: destruction erases all state -/

/-- C8 (destruction erases all state) at a failing input.  After the
destruction of `c1`, which holds a `std::string` and an `int` under the same
key type, `poolMap<int>` and `pointerPoolMap<int>` still have an entry keyed by
the address of `c1`.  A container created later at that address starts with
that pool: its first `int` key gets slot 1, and slot 0 still holds 10. -/
theorem destroy_leaves_pool :
    run destroyTwoTypes State.init = some (finalState destroyTwoTypes) ∧
    (finalState destroyTwoTypes).poolMap.find (0, 1) = none ∧
    (finalState destroyTwoTypes).idMapMap.find (1, 0, 1) = none ∧
    ((finalState destroyTwoTypes).poolMap.find (1, 1)).map (fun p => p.data) = some [⟨10, true⟩] ∧
    ((finalState destroyTwoTypes).pointerPoolMap.find (1, 1)).map (fun p => p.data) = some [⟨2, true⟩] ∧
    run reuseAddress State.init = some (finalState reuseAddress) ∧
    objectIdOf (finalState reuseAddress) 1 3 = some 1 ∧
    slotValue (finalState reuseAddress) 1 1 0 = some 10 := by
  refine ⟨by rfl, by decide, by decide, by decide, by decide, by rfl, by decide, by decide⟩

/-! ## C9: the moved-from container -/

/-- C9 (moved-from container is fresh) at a failing input.  After `c5` is move
constructed from `c1`, which holds a `std::string` and an `int` under the same
key type, `_typeHelpers` of `c1` is empty and no `std::string` state is keyed
by `c1`, but `poolMap<int>` and `pointerPoolMap<int>` still have an entry keyed
by `c1`; the later lookup `c1.getPointer<int>(k1)` returns a pointer with
object id 1, not 0. -/
theorem moved_from_keeps_pool :
    run moveTwoTypes State.init = some (finalState moveTwoTypes) ∧
    (finalState moveTwoTypes).maps.find 1 = some ⟨[]⟩ ∧
    (finalState moveTwoTypes).poolMap.find (0, 1) = none ∧
    (finalState moveTwoTypes).idMapMap.find (1, 0, 1) = none ∧
    ((finalState moveTwoTypes).poolMap.find (1, 1)).map (fun p => p.data) = some [⟨10, true⟩] ∧
    ((finalState moveTwoTypes).pointerPoolMap.find (1, 1)).map (fun p => p.data) = some [⟨2, true⟩] ∧
    run reuseMovedFrom State.init = some (finalState reuseMovedFrom) ∧
    objectIdOf (finalState reuseMovedFrom) 1 3 = some 1 := by
  refine ⟨by rfl, by decide, by decide, by decide, by decide, by decide, by rfl, by decide⟩

/-! ## C10: stability of type ids -/

/-- Every call of `getTypeId<T>` returns the successor (in `unsigned`
arithmetic) of what the call before it returned, which is a different id. -/
theorem getTypeId_next (T : TypeTag) (s : State) :
    (getTypeId T (getTypeId T s).2).1 = ((getTypeId T s).1 + 1) % 2 ^ 32 ∧
    (getTypeId T (getTypeId T s).2).1 ≠ (getTypeId T s).1 := by
  have h : (getTypeId T (getTypeId T s).2).1 = ((getTypeId T s).1 + 1) % 2 ^ 32 := by
    simp [getTypeId, Assoc.getD, Assoc.find_set]
  refine ⟨h, ?_⟩
  rw [h]
  have key : ∀ n : Nat, (n + 1) % 2 ^ 32 ≠ n := by intro n; omega
  exact key _

/-- C10 (type id stability) at a failing input.  At program start the first
three calls of `getTypeId<int>` return 0, 1 and 2. -/
theorem getTypeId_counts :
    (getTypeId 1 State.init).1 = 0 ∧
    (getTypeId 1 (getTypeId 1 State.init).2).1 = 1 ∧
    (getTypeId 1 (getTypeId 1 (getTypeId 1 State.init).2).2).1 = 2 := by
  decide

end SmartMap

namespace SmartMap

/-! ## Well-formed buffers in every reachable state -/

theorem BufWF.kept {s s' : State} (h : BufWF s) (hk : PoolsKept s s') : BufWF s' := by
  unfold BufWF; rw [hk.1]; exact PoolsWF.mono h hk.2

theorem PoolsKept.refl_kept (s : State) : PoolsKept s s := ⟨rfl, Nat.le_refl _⟩

theorem PoolsKept.trans_kept {s s1 s2 : State} (h1 : PoolsKept s s1) (h2 : PoolsKept s1 s2) :
    PoolsKept s s2 := ⟨by rw [h2.1, h1.1], Nat.le_trans h1.2 h2.2⟩

theorem registerPointer_kept {T : TypeTag} {m : MapPtr} {p : PtrAddr} {s s' : State} {pid : Id}
    (h : registerPointer T m p s = some (pid, s')) : PoolsKept s s' := by
  obtain ⟨_, _, _, e3, _, _, e6, _⟩ := registerPointer_effect _ _ _ _ _ _ h
  exact ⟨e3, e6⟩

theorem unregisterPointer_kept {T : TypeTag} {m : MapPtr} {pId : Id} {s s' : State}
    (h : unregisterPointer T m pId s = some s') : PoolsKept s s' := by
  unfold unregisterPointer at h
  simp only [Option.bind_eq_bind, Option.bind_eq_some] at h
  obtain ⟨obj, _, h⟩ := h
  split at h
  · simp only [Option.some.injEq] at h
    subst h; exact ⟨rfl, Nat.le_refl _⟩
  · simp at h

theorem updatePointerMapData_kept {T : TypeTag} {oldMap : MapPtr} {newMap : Option MapPtr}
    {s s' : State} (h : updatePointerMapData T oldMap newMap s = some s') : PoolsKept s s' := by
  unfold updatePointerMapData at h
  simp only [Option.bind_eq_bind, Option.bind_eq_some, Option.some.injEq] at h
  obtain ⟨ptrs, _, rfl⟩ := h
  exact ⟨rfl, Nat.le_refl _⟩

theorem PoolsWF.erase {m : Assoc (TypeTag × MapPtr) (ObjectPool Val)} {n : Nat}
    (h : PoolsWF m n) (key : TypeTag × MapPtr) : PoolsWF (m.erase key) n := by
  obtain ⟨h1, h2, h3, h4⟩ := h
  refine ⟨h1, Assoc.nodup_erase h2 key, ?_, ?_⟩
  · intro k P hk
    rw [Assoc.find_erase] at hk
    split at hk
    · simp at hk
    · exact h3 k P hk
  · intro k1 k2 P1 P2 hk1 hk2
    rw [Assoc.find_erase] at hk1 hk2
    split at hk1
    · simp at hk1
    · split at hk2
      · simp at hk2
      · exact h4 k1 k2 P1 P2 hk1 hk2

theorem PoolsWF.moveNode {m m' : Assoc (TypeTag × MapPtr) (ObjectPool Val)} {n : Nat}
    (h : PoolsWF m n) {oldKey newKey : TypeTag × MapPtr}
    (hm : SmartMap.moveNode m oldKey newKey = some m') : PoolsWF m' n := by
  unfold SmartMap.moveNode at hm
  cases hf : m.find oldKey with
  | none => simp [hf] at hm
  | some v =>
    simp only [hf] at hm
    have he := h.erase oldKey
    cases hn : (m.erase oldKey).find newKey with
    | some w =>
      simp only [hn, Option.some.injEq] at hm
      rw [← hm]; exact he
    | none =>
      simp only [hn, Option.some.injEq] at hm
      rw [← hm]
      obtain ⟨_, _, h3, h4⟩ := h
      obtain ⟨a, b, c⟩ := h3 _ _ hf
      refine he.set newKey v a b c ?_
      intro k P _ hk hbuf
      rw [Assoc.find_erase] at hk
      split at hk
      · simp at hk
      · rename_i hne
        by_contra hz
        apply hne
        exact (h4 k oldKey P v hk hf hbuf (by rw [hbuf]; exact hz)).symm

theorem BufWF.movePoolB {s s' : State} (h : BufWF s) {T : TypeTag} {oldMap : MapPtr}
    {newMap : Option MapPtr} (hm : movePool T oldMap newMap s = some s') : BufWF s' := by
  unfold movePool at hm
  cases newMap with
  | none =>
    simp only [Option.some.injEq] at hm
    subst hm
    exact PoolsWF.erase h _
  | some n =>
    simp only [Option.map_eq_some'] at hm
    obtain ⟨m', hm', rfl⟩ := hm
    exact PoolsWF.moveNode h hm'

theorem movePointerPool_kept {T : TypeTag} {oldMap : MapPtr} {newMap : Option MapPtr}
    {s s' : State} (hm : movePointerPool T oldMap newMap s = some s') : PoolsKept s s' := by
  unfold movePointerPool at hm
  cases newMap with
  | none =>
    simp only [Option.some.injEq] at hm
    subst hm; exact ⟨rfl, Nat.le_refl _⟩
  | some n =>
    simp only [Option.map_eq_some'] at hm
    obtain ⟨m', _, rfl⟩ := hm
    exact ⟨rfl, Nat.le_refl _⟩

theorem moveIdMap_kept {T K : TypeTag} {oldMap : MapPtr} {newMap : Option MapPtr}
    {s s' : State} (hm : moveIdMap T K oldMap newMap s = some s') : PoolsKept s s' := by
  unfold moveIdMap at hm
  cases newMap with
  | none =>
    simp only [Option.some.injEq] at hm
    subst hm; exact ⟨rfl, Nat.le_refl _⟩
  | some n =>
    simp only [Option.map_eq_some'] at hm
    obtain ⟨m', _, rfl⟩ := hm
    exact ⟨rfl, Nat.le_refl _⟩

theorem runIdMapMovers_kept {oldMap : MapPtr} {newMap : Option MapPtr}
    (fs : List (Option (TypeTag × TypeTag))) {s s' : State}
    (h : runIdMapMovers oldMap newMap fs s = some s') : PoolsKept s s' := by
  induction fs generalizing s with
  | nil =>
    simp only [runIdMapMovers, Option.some.injEq] at h
    subst h; exact PoolsKept.refl_kept _
  | cons f r ih =>
    cases f with
    | none => exact ih (by simpa [runIdMapMovers] using h)
    | some f =>
      unfold runIdMapMovers at h
      cases hm : moveIdMap f.1 f.2 oldMap newMap s with
      | none => simp [hm] at h
      | some s1 =>
        simp only [hm] at h
        exact (moveIdMap_kept hm).trans_kept (ih h)

theorem BufWF.moveHelperB {s s' : State} (h : BufWF s) {m : TypeHelper} {oldMap : MapPtr}
    {newMap : Option MapPtr} (hm : moveHelper m oldMap newMap s = some s') : BufWF s' := by
  unfold moveHelper at hm
  cases hu : m.pointerMapDataUpdater with
  | none =>
    simp only [hu, Option.some.injEq] at hm
    subst hm; exact h
  | some tu =>
    simp only [hu, Option.bind_eq_bind, Option.bind_eq_some] at hm
    obtain ⟨s1, h1, tp, _, s2, h2, tq, _, s3, h3, h4⟩ := hm
    exact (((h.kept (updatePointerMapData_kept h1)).movePoolB h2).kept
      (movePointerPool_kept h3)).kept (runIdMapMovers_kept _ h4)

theorem BufWF.moveDataLoopB {oldMap : MapPtr} {newMap : Option MapPtr} (ms : List TypeHelper)
    {s s' : State} (h : BufWF s) (hm : moveDataLoop oldMap newMap ms s = some s') :
    BufWF s' := by
  induction ms generalizing s with
  | nil =>
    simp only [moveDataLoop, Option.some.injEq] at hm
    subst hm; exact h
  | cons m r ih =>
    unfold moveDataLoop at hm
    cases h1 : moveHelper m oldMap newMap s with
    | none => simp [h1] at hm
    | some s1 =>
      simp only [h1] at hm
      exact ih (h.moveHelperB h1) hm

theorem BufWF.moveDataB {s s' : State} (h : BufWF s) {this oldMap : MapPtr}
    {newMap : Option MapPtr} (hm : moveData this oldMap newMap s = some s') : BufWF s' := by
  unfold moveData at hm
  simp only [Option.bind_eq_bind, Option.bind_eq_some] at hm
  obtain ⟨m, _, h1⟩ := hm
  exact h.moveDataLoopB _ h1

end SmartMap

namespace SmartMap

theorem BufWF.copyPoolB {s : State} (h : BufWF s) (T : TypeTag) (oldMap newMap : MapPtr) :
    BufWF (copyPool T oldMap newMap s) := by
  have hm : PoolsWF ((s.poolMap.ensure (T, oldMap) {}).ensure (T, newMap) {}) s.nextBuf :=
    PoolsWF.ensure (PoolsWF.ensure h _) _
  unfold copyPool BufWF
  dsimp only
  split
  · exact hm
  · dsimp only
    unfold ObjectPool.assign
    split
    · exact hm.set_fresh _ _ rfl (Nat.le_refl _)
    · rename_i hc
      exact hm.set_same _ _ rfl rfl (Nat.le_of_not_lt hc)

theorem copyPointerPool_kept (T : TypeTag) (oldMap newMap : MapPtr) (s : State) :
    PoolsKept s (copyPointerPool T oldMap newMap s) := by
  unfold copyPointerPool
  dsimp only
  split
  · exact ⟨rfl, Nat.le_refl _⟩
  · refine ⟨rfl, ?_⟩
    dsimp only
    unfold ObjectPool.assign
    split
    · exact Nat.le_succ _
    · exact Nat.le_refl _

theorem runIdMapCopiers_kept (oldMap newMap : MapPtr) (fs : List (Option (TypeTag × TypeTag)))
    (s : State) : PoolsKept s (runIdMapCopiers oldMap newMap fs s) := by
  induction fs generalizing s with
  | nil => exact PoolsKept.refl_kept _
  | cons f r ih =>
    cases f with
    | none => exact ih s
    | some f =>
      unfold runIdMapCopiers
      exact PoolsKept.trans_kept ⟨rfl, Nat.le_refl _⟩ (ih (copyIdMap f.1 f.2 oldMap newMap s))

theorem BufWF.copyHelperB {s s' : State} (h : BufWF s) {m : TypeHelper} {oldMap newMap : MapPtr}
    (hm : copyHelper m oldMap newMap s = some s') : BufWF s' := by
  unfold copyHelper at hm
  cases hu : m.pointerMapDataUpdater with
  | none =>
    simp only [hu, Option.some.injEq] at hm
    subst hm; exact h
  | some tu =>
    simp only [hu, Option.bind_eq_bind, Option.bind_eq_some, Option.some.injEq] at hm
    obtain ⟨tp, _, tq, _, rfl⟩ := hm
    exact (((h.copyPoolB tp oldMap newMap).kept (copyPointerPool_kept tq oldMap newMap _)).kept
      (runIdMapCopiers_kept oldMap newMap _ _))

theorem BufWF.copyDataLoopB {oldMap newMap : MapPtr} (ms : List TypeHelper)
    {s s' : State} (h : BufWF s) (hm : copyDataLoop oldMap newMap ms s = some s') :
    BufWF s' := by
  induction ms generalizing s with
  | nil =>
    simp only [copyDataLoop, Option.some.injEq] at hm
    subst hm; exact h
  | cons m r ih =>
    unfold copyDataLoop at hm
    cases h1 : copyHelper m oldMap newMap s with
    | none => simp [h1] at hm
    | some s1 =>
      simp only [h1] at hm
      exact ih (h.copyHelperB h1) hm

theorem BufWF.copyDataB {s s' : State} (h : BufWF s) {this oldMap : MapPtr}
    {newMap : Option MapPtr} (hm : copyData this oldMap newMap s = some s') : BufWF s' := by
  unfold copyData at hm
  cases newMap with
  | none =>
    simp only [Option.some.injEq] at hm
    subst hm; exact h
  | some n =>
    simp only [Option.bind_eq_bind, Option.bind_eq_some] at hm
    obtain ⟨m, _, h1⟩ := hm
    exact h.copyDataLoopB _ h1

/-! ### Special member functions of the container -/

theorem BufWF.defaultConstructB {s s' : State} (h : BufWF s) {this : MapPtr}
    (hm : defaultConstruct this s = some s') : BufWF s' := by
  unfold defaultConstruct at hm
  cases hf : s.maps.find this with
  | some o => simp [hf] at hm
  | none =>
    simp only [hf, Option.some.injEq] at hm
    subst hm; exact h

theorem BufWF.copyConstructB {s s' : State} (h : BufWF s) {this other : MapPtr}
    (hm : copyConstruct this other s = some s') : BufWF s' := by
  unfold copyConstruct at hm
  cases hf : s.maps.find this with
  | some o => simp [hf] at hm
  | none =>
    simp only [hf, Option.bind_eq_bind, Option.bind_eq_some] at hm
    obtain ⟨o, _, h1⟩ := hm
    refine BufWF.copyDataB ?_ h1
    exact h

theorem BufWF.moveConstructB {s s' : State} (h : BufWF s) {this other : MapPtr}
    (hm : moveConstruct this other s = some s') : BufWF s' := by
  unfold moveConstruct at hm
  cases hf : s.maps.find this with
  | some o => simp [hf] at hm
  | none =>
    simp only [hf, Option.bind_eq_bind, Option.bind_eq_some] at hm
    obtain ⟨o, _, h1⟩ := hm
    refine BufWF.moveDataB ?_ h1
    exact h

theorem BufWF.copyAssignB {s s' : State} (h : BufWF s) {this other : MapPtr}
    (hm : copyAssign this other s = some s') : BufWF s' := by
  unfold copyAssign at hm
  simp only [Option.bind_eq_bind, Option.bind_eq_some] at hm
  obtain ⟨s1, h1, o, _, h2⟩ := hm
  have h0 : BufWF s1 := h.moveDataB h1
  refine BufWF.copyDataB ?_ h2
  exact h0

theorem BufWF.moveAssignB {s s' : State} (h : BufWF s) {this other : MapPtr}
    (hm : moveAssign this other s = some s') : BufWF s' := by
  unfold moveAssign at hm
  simp only [Option.bind_eq_bind, Option.bind_eq_some] at hm
  obtain ⟨s1, h1, o, _, h2⟩ := hm
  split at h2
  · simp at h2
  · have h0 : BufWF s1 := h.moveDataB h1
    refine BufWF.moveDataB ?_ h2
    exact h0

theorem BufWF.destroyB {s s' : State} (h : BufWF s) {this : MapPtr}
    (hm : destroy this s = some s') : BufWF s' := by
  unfold destroy at hm
  simp only [Option.bind_eq_bind, Option.bind_eq_some, Option.some.injEq] at hm
  obtain ⟨s1, h1, rfl⟩ := hm
  have h0 : BufWF s1 := h.moveDataB h1
  exact h0

end SmartMap

namespace SmartMap

/-! ### Special member functions of Pointer -/

theorem Pointer.copyConstruct_kept {T : TypeTag} {other : PtrAddr} {s s' : State} {a : PtrAddr}
    (h : Pointer.copyConstruct T other s = some (a, s')) : PoolsKept s s' := by
  unfold Pointer.copyConstruct at h
  cases ho : s.ptrs.find (T, other) with
  | none => simp [ho] at h
  | some o =>
    simp only [ho, Option.bind_eq_bind, Option.some_bind] at h
    cases hm : o._map with
    | none =>
      simp only [hm, Option.some_bind, Option.some.injEq, Prod.mk.injEq] at h
      obtain ⟨_, rfl⟩ := h
      exact ⟨rfl, Nat.le_refl _⟩
    | some m =>
      simp only [hm, Option.bind_eq_some, Option.some.injEq, Prod.mk.injEq] at h
      obtain ⟨r, hr, _, rfl⟩ := h
      have hk := registerPointer_kept hr
      exact ⟨hk.1, hk.2⟩

theorem Pointer.release_kept {T : TypeTag} {other : PtrAddr} {s s' : State}
    (h : Pointer.release T other s = some s') : PoolsKept s s' := by
  unfold Pointer.release at h
  cases ho : s.ptrs.find (T, other) with
  | none => simp [ho] at h
  | some o =>
    simp only [ho, Option.bind_eq_bind, Option.some_bind] at h
    cases hm : o._map with
    | none =>
      simp only [hm, Option.some_bind, Option.some.injEq] at h
      subst h
      exact ⟨rfl, Nat.le_refl _⟩
    | some m =>
      simp only [hm, Option.bind_eq_some, Option.some.injEq] at h
      obtain ⟨s1, h1, rfl⟩ := h
      have hk := unregisterPointer_kept h1
      exact ⟨hk.1, hk.2⟩

theorem Pointer.moveConstruct_kept {T : TypeTag} {other : PtrAddr} {s s' : State} {a : PtrAddr}
    (h : Pointer.moveConstruct T other s = some (a, s')) : PoolsKept s s' := by
  unfold Pointer.moveConstruct at h
  simp only [Option.bind_eq_bind, Option.bind_eq_some, Option.some.injEq, Prod.mk.injEq] at h
  obtain ⟨r, hr, s1, h1, _, rfl⟩ := h
  exact (Pointer.copyConstruct_kept hr).trans_kept (Pointer.release_kept h1)

theorem Pointer.assignFields_kept {T : TypeTag} {this other : PtrAddr} {s s' : State}
    (h : Pointer.assignFields T this other s = some s') : PoolsKept s s' := by
  unfold Pointer.assignFields at h
  cases ht : s.ptrs.find (T, this) with
  | none => simp [ht] at h
  | some t =>
    cases ho : s.ptrs.find (T, other) with
    | none => simp [ht, ho] at h
    | some o =>
      simp only [ht, ho, Option.bind_eq_bind, Option.some_bind] at h
      cases hm : t._map with
      | none =>
        simp only [hm, Option.some_bind, Option.bind_eq_some, Option.some.injEq] at h
        obtain ⟨t1, _, o1, _, rfl⟩ := h
        exact ⟨rfl, Nat.le_refl _⟩
      | some m =>
        simp only [hm] at h
        split at h
        · simp only [Option.bind_eq_bind, Option.bind_eq_some, Option.some.injEq] at h
          obtain ⟨s2, h2, m1, _, r, hr, t1, _, o1, _, rfl⟩ := h
          have hk := (unregisterPointer_kept h2).trans_kept (registerPointer_kept hr)
          exact ⟨hk.1, hk.2⟩
        · simp only [Option.some_bind, Option.bind_eq_some, Option.some.injEq] at h
          obtain ⟨t1, _, o1, _, rfl⟩ := h
          exact ⟨rfl, Nat.le_refl _⟩

theorem Pointer.moveAssign_kept {T : TypeTag} {this other : PtrAddr} {s s' : State}
    (h : Pointer.moveAssign T this other s = some s') : PoolsKept s s' := by
  unfold Pointer.moveAssign at h
  simp only [Option.bind_eq_bind, Option.bind_eq_some] at h
  obtain ⟨s1, h1, h2⟩ := h
  exact (Pointer.assignFields_kept h1).trans_kept (Pointer.release_kept h2)

theorem Pointer.destroy_kept {T : TypeTag} {this : PtrAddr} {s s' : State}
    (h : Pointer.destroy T this s = some s') : PoolsKept s s' := by
  unfold Pointer.destroy at h
  cases ht : s.ptrs.find (T, this) with
  | none => simp [ht] at h
  | some t =>
    simp only [ht, Option.bind_eq_bind, Option.some_bind] at h
    cases hm : t._map with
    | none =>
      simp only [hm, Option.some_bind, Option.some.injEq] at h
      subst h
      exact ⟨rfl, Nat.le_refl _⟩
    | some m =>
      simp only [hm, Option.bind_eq_some, Option.some.injEq] at h
      obtain ⟨s1, h1, rfl⟩ := h
      have hk := unregisterPointer_kept h1
      exact ⟨hk.1, hk.2⟩

theorem BufWF.storeB {s s' : State} (h : BufWF s) {T : TypeTag} {a : ObjAddr} {v : Val}
    (hs : store T a v s = some s') : BufWF s' := by
  unfold store at hs
  simp only [Option.bind_eq_bind, Option.bind_eq_some] at hs
  obtain ⟨e, he, hs⟩ := hs
  split at hs
  · simp only [Option.some.injEq] at hs
    subst hs
    obtain ⟨m1, _, _⟩ := findBuf_mem he
    have hf : s.poolMap.find e.1 = some e.2 := Assoc.find_of_mem h.2.1 m1
    have hg : s.poolMap.getD e.1 {} = e.2 := Assoc.getD_of_find hf _
    unfold BufWF
    refine PoolsWF.set_same h _ _ (by rw [hg]) (by rw [hg]) ?_
    dsimp only
    rw [length_setO]
    exact (h.2.2.1 _ _ hf).2.1
  · simp at hs

theorem BufWF.writeB {s s' : State} (h : BufWF s) {T : TypeTag} {p : PtrAddr} {v : Val}
    (hs : Pointer.write T p v s = some s') : BufWF s' := by
  unfold Pointer.write at hs
  simp only [Option.bind_eq_bind, Option.bind_eq_some] at hs
  obtain ⟨q, _, a, _, h1⟩ := hs
  exact h.storeB h1

/-! ### Client programs -/

theorem BufWF.stepB {s s' : State} (h : BufWF s) {op : Op} (hs : step s op = some s') :
    BufWF s' := by
  cases op with
  | newMap c => exact h.defaultConstructB hs
  | copyMap c other => exact h.copyConstructB hs
  | moveMap c other => exact h.moveConstructB hs
  | assignMap c other => exact h.copyAssignB hs
  | moveAssignMap c other => exact h.moveAssignB hs
  | deleteMap c => exact h.destroyB hs
  | get c T K key =>
    simp only [step, Option.map_eq_some'] at hs
    obtain ⟨r, hr, rfl⟩ := hs
    exact h.getPointerB hr
  | newPtr T =>
    simp only [step, Option.some.injEq] at hs
    subst hs; exact h
  | copyPtr T other =>
    simp only [step, Option.map_eq_some'] at hs
    obtain ⟨r, hr, rfl⟩ := hs
    exact h.kept (Pointer.copyConstruct_kept hr)
  | movePtr T other =>
    simp only [step, Option.map_eq_some'] at hs
    obtain ⟨r, hr, rfl⟩ := hs
    exact h.kept (Pointer.moveConstruct_kept hr)
  | assignPtr T p other => exact h.kept (Pointer.assignFields_kept hs)
  | moveAssignPtr T p other => exact h.kept (Pointer.moveAssign_kept hs)
  | deletePtr T p => exact h.kept (Pointer.destroy_kept hs)
  | write T p v => exact h.writeB hs

theorem BufWF.runB (prog : List Op) {s s' : State} (h : BufWF s)
    (hr : run prog s = some s') : BufWF s' := by
  induction prog generalizing s with
  | nil =>
    simp only [run, Option.some.injEq] at hr
    subst hr; exact h
  | cons op ops ih =>
    unfold run at hr
    cases h1 : step s op with
    | none => simp [h1] at hr
    | some s1 =>
      simp only [h1] at hr
      exact ih (h.stepB h1) hr

theorem bufWF_init : BufWF State.init := by
  refine ⟨by decide, by simp [State.init], ?_, ?_⟩
  · intro k P h; simp [State.init, Assoc.find] at h
  · intro k1 k2 P1 P2 h; simp [State.init, Assoc.find] at h

/-- Every state that a client program reaches from program start has
well-formed pool buffers. -/
theorem reachable_bufWF {s : State} (h : Reachable s) : BufWF s := by
  obtain ⟨prog, hp⟩ := h
  exact bufWF_init.runB prog hp

end SmartMap

namespace SmartMap

/-! ## Consistent containers -/

theorem scanInactive_eq {α : Type} (ws : List (Wrapper α)) (i : Nat) (ws' : List (Wrapper α))
    (h : scanInactive ws = some (i, ws')) : ws' = setActive ws i true := by
  induction ws generalizing i ws' with
  | nil => simp [scanInactive] at h
  | cons w ws ih =>
    unfold scanInactive at h
    by_cases hw : w.active = true
    · simp only [hw, if_true, Option.map_eq_some'] at h
      obtain ⟨⟨i0, ws0⟩, h0, h1⟩ := h
      simp only [Prod.mk.injEq] at h1
      obtain ⟨rfl, rfl⟩ := h1
      rw [ih i0 ws0 h0]; rfl
    · simp only [hw, if_false, Option.some.injEq, Prod.mk.injEq] at h
      obtain ⟨rfl, rfl⟩ := h
      rfl

theorem scanInactive_allActive {α : Type} (ws : List (Wrapper α))
    (h : ∀ w ∈ ws, w.active = true) : scanInactive ws = none := by
  induction ws with
  | nil => rfl
  | cons w ws ih =>
    unfold scanInactive
    rw [if_pos (h w (List.mem_cons_self _ _)), ih (fun x hx => h x (List.mem_cons_of_mem _ hx))]
    rfl

theorem mem_setO_setActive {α : Type} (ws : List (Wrapper α)) (i : Nat) (p : α)
    (w : Wrapper α) (h : w ∈ setO (setActive ws i true) i p) : w = ⟨p, true⟩ ∨ w ∈ ws := by
  induction ws generalizing i with
  | nil => simp [setActive, setO] at h
  | cons x xs ih =>
    cases i with
    | zero =>
      simp only [setActive, setO, List.mem_cons] at h ⊢
      rcases h with h | h
      · exact Or.inl h
      · exact Or.inr (Or.inr h)
    | succ i =>
      simp only [setActive, setO, List.mem_cons] at h ⊢
      rcases h with h | h
      · exact Or.inr (Or.inl h)
      · rcases ih i h with h | h
        · exact Or.inl h
        · exact Or.inr (Or.inr h)

theorem setO_append_length {α : Type} (ws : List (Wrapper α)) (x : Wrapper α) (p : α) :
    setO (ws ++ [x]) ws.length p = ws ++ [{ x with o := p }] := by
  induction ws with
  | nil => rfl
  | cons w ws ih =>
    show w :: setO (ws ++ [x]) ws.length p = w :: (ws ++ [{ x with o := p }])
    rw [ih]

/-- The wrappers of a pointer pool after a registration are the old ones and
the active wrapper of the registered pointer. -/
theorem registerPointer_mem {T : TypeTag} {m : MapPtr} {p : PtrAddr} {s s' : State} {pid : Id}
    (h : registerPointer T m p s = some (pid, s')) (w : Wrapper PtrAddr)
    (hw : w ∈ (s'.pointerPoolMap.getD (T, m) {}).data) :
    w = ⟨p, true⟩ ∨ w ∈ (s.pointerPoolMap.getD (T, m) {}).data := by
  unfold registerPointer at h
  cases hm : s.maps.find m with
  | none => simp [hm] at h
  | some obj =>
    simp only [hm, Option.bind_eq_bind, Option.some_bind, Option.some.injEq, Prod.mk.injEq] at h
    obtain ⟨rfl, rfl⟩ := h
    simp only [Assoc.getD_set, if_true] at hw
    rcases firstInactiveId_cases (s.pointerPoolMap.getD (T, m) {}) s.nextBuf with
      ⟨d, hs, hp, _⟩ | ⟨_, hi, hd, _⟩
    · rw [hp] at hw
      dsimp only at hw
      rw [scanInactive_eq _ _ _ hs] at hw
      exact mem_setO_setActive _ _ _ _ hw
    · rw [hd, hi, setO_append_length] at hw
      rcases List.mem_append.mp hw with h1 | h1
      · exact Or.inr h1
      · left; simpa using h1

/-- The resynchronisation loop does not fail when every active wrapper names a
live pointer whose object id is inside the pool. -/
theorem updateObjectPtrs_total (T : TypeTag) (P : ObjectPool Val) (ws : List (Wrapper PtrAddr))
    (ptrs : Assoc (TypeTag × PtrAddr) Pointer)
    (h : ∀ w ∈ ws, w.active = true →
      ∃ q, ptrs.find (T, w.o) = some q ∧ q._objectId < P.data.length) :
    ∃ ptrs', updateObjectPtrs T P ws ptrs = some ptrs' := by
  induction ws generalizing ptrs with
  | nil => exact ⟨ptrs, rfl⟩
  | cons w ws ih =>
    unfold updateObjectPtrs
    by_cases hw : w.active = true
    · obtain ⟨q, hq, hlt⟩ := h w (List.mem_cons_self _ _) hw
      simp only [hw, if_true, hq, ObjectPool.addr, if_pos hlt]
      apply ih
      intro x hx hxa
      obtain ⟨q', hq', hlt'⟩ := h x (List.mem_cons_of_mem _ hx) hxa
      rw [Assoc.find_set]
      by_cases hk : (T, w.o) = (T, x.o)
      · rw [if_pos hk]
        rw [← hk, hq] at hq'
        have : q' = q := (Option.some.inj hq').symm
        subst this
        exact ⟨_, rfl, hlt'⟩
      · rw [if_neg hk]; exact ⟨q', hq', hlt'⟩
    · simp only [hw, if_false]
      exact ih ptrs (fun x hx hxa => h x (List.mem_cons_of_mem _ hx) hxa)

end SmartMap

namespace SmartMap

/-- Consistency only depends on the liveness of the container, the vectors of
its pools, its id maps, its pointer pools and the object ids of the pointers. -/
theorem Clean.of_views {s s' : State} {c : MapPtr} (h : Clean s c)
    (hl : s'.maps.find c ≠ none)
    (hp : ∀ T, (s'.poolMap.getD (T, c) {}).data = (s.poolMap.getD (T, c) {}).data)
    (hk : ∀ T K k, keyIndex s' c T K k = keyIndex s c T K k)
    (hr : ∀ T, s'.pointerPoolMap.getD (T, c) {} = s.pointerPoolMap.getD (T, c) {})
    (hq : ∀ T x q, s.ptrs.find (T, x) = some q →
      ∃ q', s'.ptrs.find (T, x) = some q' ∧ q'._objectId = q._objectId) :
    Clean s' c := by
  refine ⟨hl, ?_, ?_, ?_, ?_⟩
  · intro T w hw; rw [hp] at hw; exact h.active T w hw
  · intro T K k id hi; rw [hk] at hi; rw [hp]; exact h.inBounds T K k id hi
  · intro T K1 K2 k1 k2 id h1 h2; rw [hk] at h1 h2; exact h.inj T K1 K2 k1 k2 id h1 h2
  · intro T w hw ha
    rw [hr] at hw
    obtain ⟨q, hf, hlt⟩ := h.registry T w hw ha
    obtain ⟨q', hf', ho⟩ := hq T w.o q hf
    exact ⟨q', hf', by rw [hp, ho]; exact hlt⟩

theorem Clean.sameDataC {s s' : State} {c : MapPtr} (h : Clean s c) (hs : SameData s s')
    (hl : s'.maps.find c ≠ none) : Clean s' c := by
  obtain ⟨e1, _, e3, e4, e5, _⟩ := hs
  refine h.of_views hl (fun T => by rw [e3]) (fun T K k => by unfold keyIndex; rw [e5])
    (fun T => by rw [e4]) (fun T x q hq => ⟨q, by rw [e1]; exact hq, rfl⟩)

theorem Clean.accessMapsC {s : State} {c : MapPtr} (h : Clean s c) (T K : TypeTag) :
    Clean (accessMaps c T K (getPointerStatic T K s).2) c := by
  obtain ⟨e1, _, e3, _, e5, e6, e7⟩ := accessMaps_effect c T K (getPointerStatic T K s).2
  obtain ⟨hs, hm⟩ := getPointerStatic_sameData T K s
  have h1 : Clean (getPointerStatic T K s).2 c := h.sameDataC hs (by rw [hm]; exact h.live)
  refine h1.of_views (by rw [e5]; exact h1.live) (fun T2 => by rw [e6])
    (fun T2 K2 k2 => by unfold keyIndex; rw [e7]) (fun T2 => by rw [e3])
    (fun T2 x q hq => ⟨q, by rw [e1]; exact hq, rfl⟩)

/-- In a consistent container the allocation of a slot appends a slot, whose id
no key has. -/
theorem Clean.allocC {s : State} {c : MapPtr} (h : Clean s c) (T : TypeTag) :
    Clean (poolFirstInactiveId T c s).2 c ∧
    (poolFirstInactiveId T c s).1 <
      ((poolFirstInactiveId T c s).2.poolMap.getD (T, c) {}).data.length ∧
    (∀ K k id, keyIndex (poolFirstInactiveId T c s).2 c T K k = some id →
      id ≠ (poolFirstInactiveId T c s).1) ∧
    (∀ T2 K k, keyIndex (poolFirstInactiveId T c s).2 c T2 K k = keyIndex s c T2 K k) := by
  obtain ⟨e1, _, e3, e4, e5, e6, e7, e8⟩ := poolFirstInactiveId_effect T c s
  have hk : ∀ T2 K k, keyIndex (poolFirstInactiveId T c s).2 c T2 K k = keyIndex s c T2 K k := by
    intro T2 K k; unfold keyIndex; rw [e4]
  have hscan := scanInactive_allActive _ (h.active T)
  rcases firstInactiveId_cases (s.poolMap.getD (T, c) {}) s.nextBuf with
    ⟨d, hs, _, _⟩ | ⟨_, hi, hd, _⟩
  · rw [hscan] at hs; exact absurd hs (by simp)
  · have hdata : ((poolFirstInactiveId T c s).2.poolMap.getD (T, c) {}).data =
        (s.poolMap.getD (T, c) {}).data ++ [⟨default, true⟩] := by rw [e7, hd]
    have hlen : ∀ T2, (s.poolMap.getD (T2, c) {}).data.length ≤
        ((poolFirstInactiveId T c s).2.poolMap.getD (T2, c) {}).data.length := by
      intro T2
      by_cases hT : T2 = T
      · subst hT; rw [hdata, List.length_append]; exact Nat.le_add_right _ _
      · rw [e6 (T2, c) (by intro e; exact hT (Prod.mk.inj e).1)]
    refine ⟨⟨by rw [e5]; exact h.live, ?_, ?_, ?_, ?_⟩, ?_, ?_, hk⟩
    · intro T2 w hw
      by_cases hT : T2 = T
      · subst hT
        rw [hdata] at hw
        rcases List.mem_append.mp hw with h1 | h1
        · exact h.active T2 w h1
        · simp only [List.mem_singleton] at h1; rw [h1]
      · rw [e6 (T2, c) (by intro e; exact hT (Prod.mk.inj e).1)] at hw
        exact h.active T2 w hw
    · intro T2 K k id hid
      rw [hk] at hid
      exact Nat.lt_of_lt_of_le (h.inBounds T2 K k id hid) (hlen T2)
    · intro T2 K1 K2 k1 k2 id h1 h2
      rw [hk] at h1 h2
      exact h.inj T2 K1 K2 k1 k2 id h1 h2
    · intro T2 w hw ha
      rw [e3] at hw
      obtain ⟨q, hf, hlt⟩ := h.registry T2 w hw ha
      exact ⟨q, by rw [e1]; exact hf, Nat.lt_of_lt_of_le hlt (hlen T2)⟩
    · rw [hdata, e8, hi, List.length_append]
      exact Nat.lt_add_one _
    · intro K k id hid
      rw [hk] at hid
      have := h.inBounds T K k id hid
      rw [e8, hi]
      exact Nat.ne_of_lt this

/-- In a consistent container the resynchronisation does not fail and keeps
the container consistent. -/
theorem Clean.resyncC {s : State} {c : MapPtr} (h : Clean s c) (T : TypeTag) :
    ∃ s', updatePointerObjectData T c s = some s' ∧ Clean s' c := by
  obtain ⟨ptrs, hp⟩ := updateObjectPtrs_total T (s.poolMap.getD (T, c) {})
    (s.pointerPoolMap.getD (T, c) {}).data s.ptrs (fun w hw ha => h.registry T w hw ha)
  have hu : updatePointerObjectData T c s = some { s with
      poolMap := s.poolMap.set (T, c) { s.poolMap.getD (T, c) {} with invalidated := false },
      pointerPoolMap := s.pointerPoolMap.ensure (T, c) {},
      ptrs := ptrs } := by
    unfold updatePointerObjectData
    simp only [hp, Option.bind_eq_bind, Option.some_bind]
  refine ⟨_, hu, ?_⟩
  obtain ⟨_, _, e3, e4, _, e6, e7⟩ := updatePointerObjectData_effect _ _ _ _ hu
  refine h.of_views (by rw [e4]; exact h.live)
    (fun T2 => (updatePointerObjectData_pool _ _ _ _ hu T2 c).1)
    (fun T2 K k => by unfold keyIndex; rw [e3]) (fun T2 => e6 _) ?_
  intro T2 x q hq
  rw [e7, hq]
  refine ⟨_, rfl, ?_⟩
  dsimp only
  split <;> rfl

end SmartMap

namespace SmartMap

theorem Clean.assignIdC {s : State} {c : MapPtr} (h : Clean s c) {T : TypeTag} (K : TypeTag)
    (k : Key) {newId : Id} (hlt : newId < (s.poolMap.getD (T, c) {}).data.length)
    (hfresh : ∀ K2 k2 id, keyIndex s c T K2 k2 = some id → id ≠ newId) :
    Clean (assignId c T K k newId s) c := by
  obtain ⟨e1, _, e3, e4, _, e6, e7⟩ := assignId_effect c T K k newId s
  refine ⟨by rw [e6]; exact h.live, ?_, ?_, ?_, ?_⟩
  · intro T2 w hw; rw [e3] at hw; exact h.active T2 w hw
  · intro T2 K2 k2 id hid
    rw [e7, e3] at *
    split at hid
    · rename_i hc
      obtain ⟨rfl, _⟩ := Prod.mk.inj hc.1
      rw [← Option.some.inj hid]; exact hlt
    · exact h.inBounds T2 K2 k2 id hid
  · intro T2 K1 K2 k1 k2 id h1 h2
    rw [e7] at h1 h2
    split at h1
    · rename_i hc1
      obtain ⟨rfl, e1'⟩ := Prod.mk.inj hc1.1
      obtain ⟨rfl, _⟩ := Prod.mk.inj e1'
      have hid : id = newId := (Option.some.inj h1).symm
      split at h2
      · rename_i hc2
        obtain ⟨_, e2'⟩ := Prod.mk.inj hc2.1
        obtain ⟨rfl, _⟩ := Prod.mk.inj e2'
        exact ⟨rfl, hc1.2.symm.trans hc2.2⟩
      · exact absurd hid (hfresh K2 k2 id h2)
    · split at h2
      · rename_i hc2
        obtain ⟨rfl, _⟩ := Prod.mk.inj hc2.1
        have hid : id = newId := (Option.some.inj h2).symm
        exact absurd hid (hfresh K1 k1 id h1)
      · exact h.inj T2 K1 K2 k1 k2 id h1 h2
  · intro T2 w hw ha
    rw [e4] at hw
    obtain ⟨q, hf, hl⟩ := h.registry T2 w hw ha
    exact ⟨q, by rw [e1]; exact hf, by rw [e3]; exact hl⟩

theorem registerPointer_total (T : TypeTag) (m : MapPtr) (p : PtrAddr) (s : State)
    (hl : s.maps.find m ≠ none) : ∃ r, registerPointer T m p s = some r := by
  unfold registerPointer
  cases hm : s.maps.find m with
  | none => exact absurd hm hl
  | some obj => exact ⟨_, rfl⟩

theorem construct_total (T : TypeTag) (m : MapPtr) (id : Id) (addr : ObjAddr) (s : State)
    (hl : s.maps.find m ≠ none) : ∃ r, Pointer.construct T m id addr s = some r := by
  obtain ⟨r, hr⟩ := registerPointer_total T m s.nextPtr s hl
  unfold Pointer.construct
  simp only [hr, Option.bind_eq_bind, Option.some_bind]
  exact ⟨_, rfl⟩

theorem construct_mem {T : TypeTag} {m : MapPtr} {id : Id} {addr : ObjAddr} {s s' : State}
    {a : PtrAddr} (h : Pointer.construct T m id addr s = some (a, s')) (w : Wrapper PtrAddr)
    (hw : w ∈ (s'.pointerPoolMap.getD (T, m) {}).data) :
    w = ⟨a, true⟩ ∨ w ∈ (s.pointerPoolMap.getD (T, m) {}).data := by
  unfold Pointer.construct at h
  cases hr : registerPointer T m s.nextPtr s with
  | none => simp [hr] at h
  | some r =>
    obtain ⟨pid, s1⟩ := r
    simp only [hr, Option.bind_eq_bind, Option.some_bind, Option.some.injEq, Prod.mk.injEq] at h
    obtain ⟨rfl, rfl⟩ := h
    exact registerPointer_mem hr w hw

/-- The construction of a pointer to a slot inside the pool keeps the
container consistent. -/
theorem Clean.constructC {s s' : State} {c : MapPtr} (h : Clean s c) {T : TypeTag} {id : Id}
    {addr : ObjAddr} {a : PtrAddr} (hlt : id < (s.poolMap.getD (T, c) {}).data.length)
    (hc : Pointer.construct T c id addr s = some (a, s')) : Clean s' c := by
  obtain ⟨_, _, e3, e4, e5, _, e7, _, pid, _, e10⟩ := construct_effect _ _ _ _ _ _ _ hc
  refine ⟨by rw [e5]; exact h.live, ?_, ?_, ?_, ?_⟩
  · intro T2 w hw; rw [e3] at hw; exact h.active T2 w hw
  · intro T2 K2 k2 id2 hid
    unfold keyIndex at hid; rw [e4] at hid; rw [e3]
    exact h.inBounds T2 K2 k2 id2 hid
  · intro T2 K1 K2 k1 k2 id2 h1 h2
    unfold keyIndex at h1 h2; rw [e4] at h1 h2
    exact h.inj T2 K1 K2 k1 k2 id2 h1 h2
  · intro T2 w hw ha
    rw [e3, e10]
    by_cases hk : (T, a) = (T2, w.o)
    · rw [if_pos hk]
      obtain ⟨rfl, _⟩ := Prod.mk.inj hk
      exact ⟨_, rfl, hlt⟩
    · rw [if_neg hk]
      by_cases hT : T2 = T
      · subst hT
        rcases construct_mem hc w hw with h1 | h1
        · exfalso; apply hk; rw [h1]
        · exact h.registry T2 w h1 ha
      · rw [e7 (T2, c) (by intro e; exact hT (Prod.mk.inj e).1)] at hw
        exact h.registry T2 w hw ha

theorem installTypeHelper_total (this : MapPtr) (typeId : TypeId) (T K : TypeTag) (s : State)
    (hl : s.maps.find this ≠ none) : ∃ s', installTypeHelper this typeId T K s = some s' := by
  unfold installTypeHelper
  cases hm : s.maps.find this with
  | none => exact absurd hm hl
  | some m =>
    simp only [Option.bind_eq_bind, Option.some_bind]
    have hlt : typeId < (if m._typeHelpers.length ≤ typeId
        then resize m._typeHelpers (typeId + 1) {} else m._typeHelpers).length := by
      by_cases hle : m._typeHelpers.length ≤ typeId
      · rw [if_pos hle]
        unfold resize
        rw [List.length_append, List.length_replicate,
          Nat.add_sub_cancel' (Nat.le_succ_of_le hle)]
        exact Nat.lt_succ_self _
      · rw [if_neg hle]; exact Nat.lt_of_not_le hle
    rw [List.get?_eq_getElem?, List.getElem?_eq_getElem hlt]
    exact ⟨_, rfl⟩

end SmartMap

namespace SmartMap

theorem Clean.resyncIfC {s : State} {c : MapPtr} (h : Clean s c) (T : TypeTag) :
    ∃ s', resyncIfInvalidated T c s = some s' ∧ Clean s' c ∧
      (∀ T2, (s'.poolMap.getD (T2, c) {}).data = (s.poolMap.getD (T2, c) {}).data) ∧
      s'.idMapMap = s.idMapMap := by
  unfold resyncIfInvalidated
  by_cases hi : (s.poolMap.getD (T, c) {}).invalidated = true
  · rw [if_pos hi]
    obtain ⟨s', hu, hc⟩ := h.resyncC T
    obtain ⟨_, _, e3, _⟩ := updatePointerObjectData_effect _ _ _ _ hu
    exact ⟨s', hu, hc, fun T2 => (updatePointerObjectData_pool _ _ _ _ hu T2 c).1, e3⟩
  · rw [if_neg hi]
    exact ⟨s, rfl, h, fun _ => rfl, rfl⟩

/-- In a consistent container the insertion of a new key does not fail and
keeps the container consistent. -/
theorem Clean.getPointerNewC {s : State} {c : MapPtr} (h : Clean s c) (tid : TypeId)
    (T K : TypeTag) (k : Key) :
    ∃ a s', getPointerNew c tid T K k s = some (a, s') ∧ Clean s' c := by
  obtain ⟨s1, h1⟩ := installTypeHelper_total c tid T K s h.live
  obtain ⟨sd, hl⟩ := installTypeHelper_sameData _ _ _ _ _ _ h1
  have c1 : Clean s1 c := h.sameDataC sd (hl c h.live)
  obtain ⟨c2, hlt, hfresh, _⟩ := c1.allocC T
  obtain ⟨s3, h3, c3, hd, hi⟩ := c2.resyncIfC T
  have hlt3 : (poolFirstInactiveId T c s1).1 < (s3.poolMap.getD (T, c) {}).data.length := by
    rw [hd]; exact hlt
  have hfresh3 : ∀ K2 k2 id, keyIndex s3 c T K2 k2 = some id →
      id ≠ (poolFirstInactiveId T c s1).1 := by
    intro K2 k2 id hid
    unfold keyIndex at hid
    rw [hi] at hid
    exact hfresh K2 k2 id hid
  have c4 := c3.assignIdC K k hlt3 hfresh3
  obtain ⟨_, _, e3, _⟩ := assignId_effect c T K k (poolFirstInactiveId T c s1).1 s3
  have hlt4 : (poolFirstInactiveId T c s1).1 <
      ((assignId c T K k (poolFirstInactiveId T c s1).1 s3).poolMap.getD (T, c) {}).data.length := by
    rw [e3]; exact hlt3
  obtain ⟨r, hr⟩ := construct_total T c (poolFirstInactiveId T c s1).1
    ⟨((assignId c T K k (poolFirstInactiveId T c s1).1 s3).poolMap.getD (T, c) {}).buf,
      (poolFirstInactiveId T c s1).1⟩
    (assignId c T K k (poolFirstInactiveId T c s1).1 s3) c4.live
  refine ⟨r.1, r.2, ?_, c4.constructC hlt4 hr⟩
  unfold getPointerNew
  simp only [h1, h3, Option.bind_eq_bind, Option.some_bind, ObjectPool.addr, if_pos hlt4, hr]

/-- In a consistent container `getPointer` does not fail and keeps the
container consistent. -/
theorem Clean.getPointerC {s : State} {c : MapPtr} (h : Clean s c) (T K : TypeTag) (k : Key) :
    ∃ a s', getPointer c T K k s = some (a, s') ∧ Clean s' c := by
  have c0 := h.accessMapsC T K
  cases hm : s.maps.find c with
  | none => exact absurd hm h.live
  | some obj =>
    cases hk : keyIndex (accessMaps c T K (getPointerStatic T K s).2) c T K k with
    | none =>
      obtain ⟨a, s', hg, hc⟩ := c0.getPointerNewC (getPointerStatic T K s).1 T K k
      refine ⟨a, s', ?_, hc⟩
      unfold getPointer
      unfold keyIndex at hk
      simp only [hm, Option.bind_eq_bind, Option.some_bind, hk]
      exact hg
    | some id =>
      have hlt := c0.inBounds T K k id hk
      obtain ⟨r, hr⟩ := construct_total T c id
        ⟨((accessMaps c T K (getPointerStatic T K s).2).poolMap.getD (T, c) {}).buf, id⟩
        (accessMaps c T K (getPointerStatic T K s).2) c0.live
      refine ⟨r.1, r.2, ?_, c0.constructC hlt hr⟩
      unfold getPointer
      unfold keyIndex at hk
      simp only [hm, Option.bind_eq_bind, Option.some_bind, hk, ObjectPool.addr, if_pos hlt, hr]

/-- On a consistent container every sequence of lookups runs to its end and
leaves the container consistent. -/
theorem Clean.lookupsC {c : MapPtr} (ops : List (TypeTag × TypeTag × Key)) {s : State}
    (h : Clean s c) : ∃ s', lookups c ops s = some s' ∧ Clean s' c := by
  induction ops generalizing s with
  | nil => exact ⟨s, rfl, h⟩
  | cons q qs ih =>
    obtain ⟨a, s1, hg, hc⟩ := h.getPointerC q.1 q.2.1 q.2.2
    obtain ⟨s', hl, hc'⟩ := ih hc
    refine ⟨s', ?_, hc'⟩
    unfold lookups
    simp only [hg]
    exact hl

/-- A live container at an address that keys no pool, pointer pool or id map
is consistent. -/
theorem Clean.of_unused {s : State} {c : MapPtr} (hl : s.maps.find c ≠ none)
    (hu : Unused s c) : Clean s c := by
  have hp : ∀ T, s.poolMap.getD (T, c) {} = {} := by
    intro T; simp [Assoc.getD, (hu T).1]
  have hr : ∀ T, s.pointerPoolMap.getD (T, c) {} = {} := by
    intro T; simp [Assoc.getD, (hu T).2.1]
  have hk : ∀ T K k, keyIndex s c T K k = none := by
    intro T K k; simp [keyIndex, Assoc.getD, (hu T).2.2 K, Assoc.find]
  refine ⟨hl, ?_, ?_, ?_, ?_⟩
  · intro T w hw; rw [hp] at hw; simp at hw
  · intro T K k id hid; rw [hk] at hid; simp at hid
  · intro T K1 K2 k1 k2 id h1; rw [hk] at h1; simp at h1
  · intro T w hw; rw [hr] at hw; simp at hw

end SmartMap

namespace SmartMap

theorem Clean.of_getPointer {s s' : State} {c : MapPtr} (h : Clean s c) {T K : TypeTag}
    {k : Key} {a : PtrAddr} (hg : getPointer c T K k s = some (a, s')) : Clean s' c := by
  obtain ⟨a0, s0, h0, hc⟩ := h.getPointerC T K k
  rw [hg] at h0
  obtain ⟨_, rfl⟩ := Prod.mk.inj (Option.some.inj h0)
  exact hc

theorem Clean.of_lookups {s s' : State} {c : MapPtr} (h : Clean s c)
    {ops : List (TypeTag × TypeTag × Key)} (hl : lookups c ops s = some s') : Clean s' c := by
  obtain ⟨s0, h0, hc⟩ := h.lookupsC ops
  rw [hl] at h0
  rw [Option.some.inj h0]
  exact hc

theorem slotValue_writeSlot_other {s : State} {c : MapPtr} {T : TypeTag} {id id' : Id}
    (hne : id' ≠ id) (v : Val) :
    slotValue (writeSlot c T id v s) c T id' = slotValue s c T id' := by
  unfold slotValue
  rw [writeSlot_pool]
  dsimp only
  rw [get?_setO, if_neg hne]

/-- Writing a slot of the pool of `(T, c)` does not change what a pointer that
caches the address of another slot of that pool reads. -/
theorem write_read_other {s : State} (hw : BufWF s) {T : TypeTag} {c : MapPtr} {id id' : Id}
    (hlt : id < (s.poolMap.getD (T, c) {}).data.length)
    (hlt' : id' < (s.poolMap.getD (T, c) {}).data.length) (hne : id' ≠ id)
    {a b : PtrAddr} {p q : Pointer}
    (hp : s.ptrs.find (T, a) = some p)
    (hptr : p._objectPtr = some ⟨(s.poolMap.getD (T, c) {}).buf, id⟩)
    (hq : s.ptrs.find (T, b) = some q)
    (hqtr : q._objectPtr = some ⟨(s.poolMap.getD (T, c) {}).buf, id'⟩) (v : Val) :
    ∃ s4, Pointer.write T a v s = some s4 ∧ Pointer.read T b s4 = Pointer.read T b s := by
  refine ⟨writeSlot c T id v s, write_slot hw hlt hp hptr v, ?_⟩
  have hl4 : id' < ((writeSlot c T id v s).poolMap.getD (T, c) {}).data.length := by
    rw [writeSlot_pool]; dsimp only; rw [length_setO]; exact hlt'
  have hq' : (writeSlot c T id v s).ptrs.find (T, b) = some q := hq
  have hqtr' : q._objectPtr = some ⟨((writeSlot c T id v s).poolMap.getD (T, c) {}).buf, id'⟩ := by
    rw [writeSlot_pool]; exact hqtr
  rw [read_slot (hw.writeSlotB c T id v) hl4 hq' hqtr', read_slot hw hlt' hq hqtr]
  exact slotValue_writeSlot_other hne v

/-- Key isolation on a consistent container (in particular on a container
that has only been used through lookups): the pointers returned for two
different keys, of one key type or of two key types, of the same value type
have different object ids, and a write through one of them does not change the
value read through the other. -/
theorem key_isolation_of_clean (s s1 s2 s3 : State) (c : MapPtr) (T K1 K2 : TypeTag)
    (k1 k2 : Key) (a1 a2 : PtrAddr) (ops : List (TypeTag × TypeTag × Key))
    (hw : BufWF s) (hc : Clean s c) (hne : ¬ (K1 = K2 ∧ k1 = k2))
    (h1 : getPointer c T K1 k1 s = some (a1, s1)) (hm : lookups c ops s1 = some s2)
    (h2 : getPointer c T K2 k2 s2 = some (a2, s3)) :
    ∃ p1 p2, s3.ptrs.find (T, a1) = some p1 ∧ s3.ptrs.find (T, a2) = some p2 ∧
      p1._objectId ≠ p2._objectId ∧
      (∀ v, ∃ s4, Pointer.write T a1 v s3 = some s4 ∧
        Pointer.read T a2 s4 = Pointer.read T a2 s3) ∧
      (∀ v, ∃ s4, Pointer.write T a2 v s3 = some s4 ∧
        Pointer.read T a1 s4 = Pointer.read T a1 s3) := by
  obtain ⟨_, id1, v1, t1⟩ := getPointer_tracked h1
  have t2 := t1.lookupsT ops hm
  obtain ⟨t3, _⟩ := t2.getPointerT h2
  obtain ⟨_, id2, v2, u3⟩ := getPointer_tracked h2
  have hw3 : BufWF s3 := ((hw.getPointerB h1).lookupsB ops hm).getPointerB h2
  have hc3 : Clean s3 c := ((hc.of_getPointer h1).of_lookups hm).of_getPointer h2
  have hid : id1 ≠ id2 := by
    intro e
    apply hne
    have e1 := t3.1.2.2
    have e2 := u3.1.2.2
    rw [e] at e1
    exact hc3.inj T K1 K2 k1 k2 id2 e1 e2
  obtain ⟨⟨⟨_, p1, f1, g1, _, _, l1⟩, _, _⟩, q1, f1', y1⟩ := t3
  obtain ⟨⟨⟨_, p2, f2, g2, _, _, l2⟩, _, _⟩, q2, f2', y2⟩ := u3
  rw [f1] at f1'
  rw [f2] at f2'
  have e1 : q1 = p1 := (Option.some.inj f1').symm
  have e2 : q2 = p2 := (Option.some.inj f2').symm
  subst e1
  subst e2
  refine ⟨q1, q2, f1, f2, by rw [g1, g2]; exact hid, ?_, ?_⟩
  · intro v; exact write_read_other hw3 l1 l2 (Ne.symm hid) f1 y1 f2 y2 v
  · intro v; exact write_read_other hw3 l2 l1 hid f2 y2 f1 y1 v

/-- The state after `SmartMap c1;` at program start has a consistent container. -/
theorem clean_oneMap : Clean oneMap 1 :=
  Clean.of_unused (by decide) (fun _ => ⟨rfl, rfl, fun _ => rfl⟩)

end SmartMap

namespace SmartMap

/-! ## The test program of the repository -/

/-- The function `test` of main.cpp runs to its end in the embedding and the
values its assertions compare are the expected ones. -/
theorem main_test_passes :
    readAll 0 [1, 2, 3, 5] (finalState mainPart1) = [some 2, some 2, some 1, some 1] ∧
    Pointer.read 1 4 (finalState mainPart1) = some 10 ∧
    readAll 0 [1, 8, 9, 3] (finalState mainPart2) = [some 4, some 4, some 1, some 1] ∧
    readAll 0 [10, 11, 1] (finalState mainPart3) = [some 2, some 1, some 4] ∧
    readAll 0 [12, 5] (finalState mainPart4) = [some 5, some 1] ∧
    readAll 0 [13, 1, 14, 5] (finalState mainPart5) = [some 2, some 2, some 6, some 6] ∧
    run mainPart6 State.init = some (finalState mainPart6) ∧
    (finalState mainPart6).ptrs = [] ∧ (finalState mainPart6).maps = [] := by
  refine ⟨by decide, by decide, by decide, by decide, by decide, by decide, by rfl, by decide,
    by decide⟩

end SmartMap

namespace SmartMap

/-! ## C11: type ids of distinct types -/

/-- C11 (type id uniqueness) at a failing input.  At program start the first
call of `getTypeId<std::string>` and the first call of `getTypeId<int>` both
return 0, and after the two lookups of `twoTypes` the type ids that
`getPointer<std::string, std::string>` and `getPointer<int, std::string>` keep
in their static `typeId` are both 0: the two value types index the same entry
of `_typeHelpers`. -/
theorem getTypeId_collides :
    (getTypeId 0 State.init).1 = 0 ∧
    (getTypeId 1 (getTypeId 0 State.init).2).1 = 0 ∧
    run twoTypes State.init = some (finalState twoTypes) ∧
    (finalState twoTypes).getPointerTypeId.find (0, 0) = some 0 ∧
    (finalState twoTypes).getPointerTypeId.find (1, 0) = some 0 := by
  refine ⟨by decide, by decide, by rfl, by decide, by decide⟩

/-! ## C12: one type helper for each value type -/

/-- C12 (lifecycle table installation) at two failing inputs.  After the
lookups of `twoTypes` (value types `std::string` and `int`) `_typeHelpers` of
`c1` has one entry, initialised with the functions of `std::string`, and no
entry with the functions of `int`.  After the lookups of `twoKeyTypes` (value
type `std::string` with two key types) `_typeHelpers` of `c1` has two entries
initialised with the functions of `std::string`, each with the id map functions
of one of the key types; `moveData` then calls `movePool<std::string>` twice,
and the second call uses the key of an empty node handle. -/
theorem typeHelpers_not_one_per_type :
    run twoTypes State.init = some (finalState twoTypes) ∧
    (finalState twoTypes).maps.find 1 = some ⟨[⟨some 0, some 0, some 0,
      [none, some (0, 0), some (1, 0)], some 0, some 0, [none, some (0, 0), some (1, 0)]⟩]⟩ ∧
    run twoKeyTypes State.init = some (finalState twoKeyTypes) ∧
    (finalState twoKeyTypes).maps.find 1 = some ⟨[
      ⟨some 0, some 0, some 0, [none, some (0, 0)], some 0, some 0, [none, some (0, 0)]⟩,
      ⟨none, none, none, [], none, none, []⟩,
      ⟨some 0, some 0, some 0, [some (0, 2)], some 0, some 0, [some (0, 2)]⟩]⟩ ∧
    run moveTwoKeyTypes State.init = none := by
  refine ⟨by rfl, by decide, by rfl, by decide, by rfl⟩

/-! ## C13: copies of pointers -/

/-- C13 (handle copy) at a failing input.  After the copy assignment `p2 = p1`
to the default constructed pointer `p2`, where `p1` is attached to `c1`, `p2`
has the object id and the cached address of `p1`, but `_map` of `p2` is still
null and the pointer pool of `c1` has no wrapper for `p2`.  When the pool of
`c1` grows, `p1` is resynchronised and reads 7, while `p2` keeps the address
of the released storage. -/
theorem copyAssign_detached_target :
    run assignToDetached State.init = some (finalState assignToDetached) ∧
    mapOf (finalState assignToDetached) 0 1 = some (some 1) ∧
    mapOf (finalState assignToDetached) 0 2 = some none ∧
    objectIdOf (finalState assignToDetached) 0 2 = objectIdOf (finalState assignToDetached) 0 1 ∧
    objectPtrOf (finalState assignToDetached) 0 2 = objectPtrOf (finalState assignToDetached) 0 1 ∧
    ((finalState assignToDetached).pointerPoolMap.find (0, 1)).map (fun p => p.data) =
      some [⟨1, true⟩] ∧
    Pointer.read 0 2 (finalState assignToDetached) = some 7 ∧
    run assignThenGrow State.init = some (finalState assignThenGrow) ∧
    Pointer.read 0 1 (finalState assignThenGrow) = some 7 ∧
    objectPtrOf (finalState assignThenGrow) 0 2 = objectPtrOf (finalState assignToDetached) 0 2 ∧
    objectPtrOf (finalState assignThenGrow) 0 1 ≠ objectPtrOf (finalState assignThenGrow) 0 2 ∧
    Pointer.read 0 2 (finalState assignThenGrow) = none := by
  refine ⟨by rfl, by decide, by decide, by decide, by decide, by decide, by decide, by rfl,
    by decide, by decide, by decide, by decide⟩

/-! ## C14: moves of pointers -/

/-- C14 (handle move) at a failing input.  After the move assignment
`p2 = std::move(p1)` to the default constructed pointer `p2`, where `p1` was
attached to `c1`, the source `p1` is detached and its wrapper in the pointer
pool of `c1` is inactive, but `_map` of `p2` is still null and the pointer pool
of `c1` has no wrapper for `p2`: no pointer is registered any more. -/
theorem moveAssign_detached_target :
    run moveAssignToDetached State.init = some (finalState moveAssignToDetached) ∧
    mapOf (finalState moveAssignToDetached) 0 1 = some none ∧
    objectPtrOf (finalState moveAssignToDetached) 0 1 = some none ∧
    mapOf (finalState moveAssignToDetached) 0 2 = some none ∧
    objectIdOf (finalState moveAssignToDetached) 0 2 = some 0 ∧
    objectPtrOf (finalState moveAssignToDetached) 0 2 =
      some (some ⟨((finalState moveAssignToDetached).poolMap.getD (0, 1) {}).buf, 0⟩) ∧
    ((finalState moveAssignToDetached).pointerPoolMap.find (0, 1)).map (fun p => p.data) =
      some [⟨1, false⟩] := by
  refine ⟨by rfl, by decide, by decide, by decide, by decide, by decide, by decide⟩

/-! ## C17: the source of a copy -/

/-- C17 (copy leaves the source untouched) at a failing input.  The pointer
`p1` is attached to `c1`, and `c2` is a copy of `c1`, so the copied pointer
pool of `c2` names `p1`.  The copy assignment `c2 = c1` first runs
`moveData(this, nullptr)` on `c2`, which sets `_map` of every pointer named by
the pointer pool of `c2` to null: after the assignment `p1` is detached, while
the pointer pool of `c1` still has the active wrapper of `p1`. -/
theorem copyAssign_detaches_source_pointer :
    run copyOnce State.init = some (finalState copyOnce) ∧
    mapOf (finalState copyOnce) 0 1 = some (some 1) ∧
    ((finalState copyOnce).pointerPoolMap.find (0, 2)).map (fun p => p.data) = some [⟨1, true⟩] ∧
    run copyThenAssign State.init = some (finalState copyThenAssign) ∧
    mapOf (finalState copyThenAssign) 0 1 = some none ∧
    ((finalState copyThenAssign).pointerPoolMap.find (0, 1)).map (fun p => p.data) =
      some [⟨1, true⟩] := by
  refine ⟨by rfl, by decide, by decide, by rfl, by decide, by decide⟩

/-! ## C20: slot ids of the id maps -/

/-- C20 (key index invariant) at a failing input.  The state after
`copyTwoTypes` is reachable and the container `c3` is live in it; the id map
of `c3` for `int` gives slot 0 to the key `k1`, but the pool of `c3` for `int`
is empty, so slot 0 is not inside it, and the lookup of the existing key
`c3.getPointer<int>(k1)` indexes the empty vector. -/
theorem keyIndex_outside_pool :
    Reachable (finalState copyTwoTypes) ∧
    (finalState copyTwoTypes).maps.find 3 ≠ none ∧
    keyIndex (finalState copyTwoTypes) 3 1 0 1 = some 0 ∧
    ((finalState copyTwoTypes).poolMap.getD (1, 3) {}).data.length = 0 ∧
    getPointer 3 1 0 1 (finalState copyTwoTypes) = none := by
  refine ⟨⟨copyTwoTypes, by rfl⟩, by decide, by decide, by decide, by rfl⟩

end SmartMap

namespace SmartMap

/-! ## C15: the allocation of a slot -/

/-- The scan stops at the first inactive wrapper: the wrapper at the returned
index is inactive and every wrapper before it is active. -/
theorem scanInactive_first {α : Type} (ws : List (Wrapper α)) (i : Nat) (ws' : List (Wrapper α))
    (h : scanInactive ws = some (i, ws')) :
    ws[i]?.map (fun w => w.active) = some false ∧
    ∀ j : Nat, j < i → ws[j]?.map (fun w => w.active) = some true := by
  induction ws generalizing i ws' with
  | nil => simp [scanInactive] at h
  | cons w ws ih =>
    unfold scanInactive at h
    by_cases hw : w.active = true
    · simp only [hw, if_true, Option.map_eq_some'] at h
      obtain ⟨⟨i0, ws0⟩, h0, h1⟩ := h
      simp only [Prod.mk.injEq] at h1
      obtain ⟨rfl, rfl⟩ := h1
      obtain ⟨a1, a2⟩ := ih i0 ws0 h0
      refine ⟨by simpa using a1, ?_⟩
      intro j hj
      cases j with
      | zero => simpa using hw
      | succ j => simpa using a2 j (by omega)
    · simp only [hw, if_false, Option.some.injEq, Prod.mk.injEq] at h
      obtain ⟨rfl, rfl⟩ := h
      refine ⟨by simpa using hw, ?_⟩
      intro j hj
      exact absurd hj (Nat.not_lt_zero _)

/-- C15 (slot pool allocate).  For every pool, `firstInactiveId` returns an id
that is inside the vector after the call, and the wrapper at that id is active
after the call.  If some wrapper was inactive before the call, the returned id
is the smallest index of an inactive wrapper, the length of the vector and the
flag `invalidated` are unchanged, every wrapper at another index is unchanged
and the object of the wrapper at the returned id is unchanged.  If no wrapper
was inactive, the returned id is the previous length, the length grows by one,
`invalidated` is true and every earlier wrapper is unchanged. -/
theorem firstInactiveId_contract {α : Type} [Inhabited α] (p : ObjectPool α) (heap : Nat) :
    (p.firstInactiveId heap).1 < (p.firstInactiveId heap).2.1.data.length ∧
    (p.firstInactiveId heap).2.1.data[(p.firstInactiveId heap).1]?.map (fun w => w.active)
      = some true ∧
    ((∃ w ∈ p.data, w.active = false) →
      p.data[(p.firstInactiveId heap).1]?.map (fun w => w.active) = some false ∧
      (∀ j : Nat, j < (p.firstInactiveId heap).1 →
        p.data[j]?.map (fun w => w.active) = some true) ∧
      (p.firstInactiveId heap).2.1.data.length = p.data.length ∧
      (p.firstInactiveId heap).2.1.invalidated = p.invalidated ∧
      (∀ j : Nat, j ≠ (p.firstInactiveId heap).1 →
        (p.firstInactiveId heap).2.1.data[j]? = p.data[j]?) ∧
      (p.firstInactiveId heap).2.1.data[(p.firstInactiveId heap).1]?.map (fun w => w.o) =
        p.data[(p.firstInactiveId heap).1]?.map (fun w => w.o)) ∧
    ((∀ w ∈ p.data, w.active = true) →
      (p.firstInactiveId heap).1 = p.data.length ∧
      (p.firstInactiveId heap).2.1.data.length = p.data.length + 1 ∧
      (p.firstInactiveId heap).2.1.invalidated = true ∧
      (∀ j : Nat, j < p.data.length →
        (p.firstInactiveId heap).2.1.data[j]? = p.data[j]?)) := by
  obtain ⟨b1, _, _, _, b5, _, _⟩ := firstInactiveId_spec p heap
  refine ⟨b1, b5, ?_, ?_⟩
  · rintro ⟨w, hw, hwa⟩
    rcases firstInactiveId_cases p heap with ⟨d, hs, hp, _⟩ | ⟨hs, _⟩
    · obtain ⟨a1, a2⟩ := scanInactive_first _ _ _ hs
      obtain ⟨_, c2, c3, _, _⟩ := scanInactive_spec _ _ _ hs
      have hd := scanInactive_eq _ _ _ hs
      rw [hp]
      refine ⟨a1, a2, c2, rfl, ?_, c3 _⟩
      intro j hj
      show d[j]? = p.data[j]?
      rw [hd, get?_setActive, if_neg hj]
    · have := scanInactive_none _ hs w hw
      rw [hwa] at this
      exact absurd this (by simp)
  · intro hall
    rcases firstInactiveId_cases p heap with ⟨d, hs, _, _⟩ | ⟨_, hi, hd, hinv, _⟩
    · rw [scanInactive_allActive _ hall] at hs
      exact absurd hs (by simp)
    · refine ⟨hi, by rw [hd]; simp, hinv, ?_⟩
      intro j hj
      rw [hd, List.getElem?_append_left hj]

/-- The contract of `firstInactiveId` on two pools of `int`: in the pool with
the wrappers `(5, active)`, `(6, inactive)`, `(7, inactive)` the call returns 1
and changes the flag of slot 1 only; in the pool with the wrappers
`(5, active)`, `(6, active)` it returns 2 and appends a slot. -/
theorem firstInactiveId_contract_witness :
    ((⟨[⟨5, true⟩, ⟨6, false⟩, ⟨7, false⟩], false, 1, 4⟩ : ObjectPool Val).firstInactiveId 2).1 = 1 ∧
    ((⟨[⟨5, true⟩, ⟨6, false⟩, ⟨7, false⟩], false, 1, 4⟩ : ObjectPool Val).firstInactiveId 2).2.1.data
      = [⟨5, true⟩, ⟨6, true⟩, ⟨7, false⟩] ∧
    ((⟨[⟨5, true⟩, ⟨6, false⟩, ⟨7, false⟩], false, 1, 4⟩ : ObjectPool Val).firstInactiveId 2).2.1.data.length
      = 3 ∧
    ((⟨[⟨5, true⟩, ⟨6, true⟩], false, 1, 2⟩ : ObjectPool Val).firstInactiveId 2).1 = 2 ∧
    ((⟨[⟨5, true⟩, ⟨6, true⟩], false, 1, 2⟩ : ObjectPool Val).firstInactiveId 2).2.1.data.length
      = 3 ∧
    ((⟨[⟨5, true⟩, ⟨6, true⟩], false, 1, 2⟩ : ObjectPool Val).firstInactiveId 2).2.1.invalidated
      = true :=
  ⟨by decide, by decide,
    ((firstInactiveId_contract (⟨[⟨5, true⟩, ⟨6, false⟩, ⟨7, false⟩], false, 1, 4⟩ : ObjectPool Val) 2).2.2.1
      ⟨⟨6, false⟩, by decide, rfl⟩).2.2.1,
    ((firstInactiveId_contract (⟨[⟨5, true⟩, ⟨6, true⟩], false, 1, 2⟩ : ObjectPool Val) 2).2.2.2
      (by decide)).1,
    ((firstInactiveId_contract (⟨[⟨5, true⟩, ⟨6, true⟩], false, 1, 2⟩ : ObjectPool Val) 2).2.2.2
      (by decide)).2.1,
    ((firstInactiveId_contract (⟨[⟨5, true⟩, ⟨6, true⟩], false, 1, 2⟩ : ObjectPool Val) 2).2.2.2
      (by decide)).2.2.1⟩

end SmartMap

namespace SmartMap

/-! ## C18: the overload for string literals -/

theorem stringKey_step (a b x y : Nat) (ha : a < 256) (hb : b < 256)
    (h : a + 1 + 257 * x = b + 1 + 257 * y) : a = b ∧ x = y := by omega

/-- Different character sequences have different key values. -/
theorem stringKey_injective (a b : List (Fin 256)) (h : stringKey a = stringKey b) : a = b := by
  induction a generalizing b with
  | nil =>
    cases b with
    | nil => rfl
    | cons y ys =>
      have h0 : (0 : Nat) = y.val + 1 + 257 * stringKey ys := h
      exact absurd h0 (by intro e; have := Nat.succ_le_of_lt y.isLt; omega)
  | cons x xs ih =>
    cases b with
    | nil =>
      have h0 : x.val + 1 + 257 * stringKey xs = (0 : Nat) := h
      exact absurd h0 (by intro e; have := Nat.succ_le_of_lt x.isLt; omega)
    | cons y ys =>
      have h0 : x.val + 1 + 257 * stringKey xs = y.val + 1 + 257 * stringKey ys := h
      obtain ⟨h1, h2⟩ := stringKey_step _ _ _ _ x.isLt y.isLt h0
      rw [Fin.ext h1, ih ys h2]

/-- C18 (string-literal overload).  In every state, for every value type `T`
and C string `lit`, the call `c.getPointer<T>(lit)` has the same result as the
call `c.getPointer<T, std::string>(std::string(lit))`: the same returned
pointer and the same resulting state, or both undefined.  When the two calls
are made one after the other, the two returned pointers have the same object
id, which is the slot id of the one entry of the id map of
`(T, std::string)` for that key, they cache the same address, and they read
the same value. -/
theorem getPointerCStr_eq (c : MapPtr) (T : TypeTag) (lit : CStr) (s : State) :
    getPointerCStr c T lit s = getPointer c T stdStringTag (stdStringOf lit) s ∧
    ∀ (a1 a2 : PtrAddr) (s1 s2 : State), BufWF s →
      getPointerCStr c T lit s = some (a1, s1) →
      getPointer c T stdStringTag (stdStringOf lit) s1 = some (a2, s2) →
      a1 ≠ a2 ∧ ∃ id,
        keyIndex s1 c T stdStringTag (stdStringOf lit) = some id ∧
        keyIndex s2 c T stdStringTag (stdStringOf lit) = some id ∧
        objectIdOf s2 T a1 = some id ∧ objectIdOf s2 T a2 = some id ∧
        mapOf s2 T a1 = some (some c) ∧ mapOf s2 T a2 = some (some c) ∧
        objectPtrOf s2 T a1 = some (some ⟨(s2.poolMap.getD (T, c) {}).buf, id⟩) ∧
        objectPtrOf s2 T a2 = some (some ⟨(s2.poolMap.getD (T, c) {}).buf, id⟩) ∧
        ∃ v, Pointer.read T a1 s2 = some v ∧ Pointer.read T a2 s2 = some v := by
  refine ⟨rfl, ?_⟩
  intro a1 a2 s1 s2 hw h1 h2
  have h1' : getPointer c T stdStringTag (stdStringOf lit) s = some (a1, s1) := h1
  obtain ⟨_, id, v, t1⟩ := getPointer_tracked h1'
  obtain ⟨t3, hne⟩ := t1.getPointerT h2
  obtain ⟨_, id', v', u3⟩ := getPointer_tracked h2
  have hw2 : BufWF s2 := (hw.getPointerB h1').getPointerB h2
  have hid : id' = id := by
    have e1 := t3.1.2.2
    have e2 := u3.1.2.2
    rw [e1] at e2
    exact (Option.some.inj e2).symm
  subst hid
  obtain ⟨⟨⟨_, p1, f1, g1, m1, _, l1⟩, hv1, k3⟩, q1, f1', y1⟩ := t3
  obtain ⟨⟨⟨_, p2, f2, g2, m2, _, _⟩, _, _⟩, q2, f2', y2⟩ := u3
  rw [f1] at f1'
  rw [f2] at f2'
  have e1 : q1 = p1 := (Option.some.inj f1').symm
  have e2 : q2 = p2 := (Option.some.inj f2').symm
  subst e1
  subst e2
  refine ⟨hne, id', t1.1.2.2, k3, ?_, ?_, ?_, ?_, ?_, ?_, v, ?_, ?_⟩
  · simp only [objectIdOf, f1, Option.map_some', g1]
  · simp only [objectIdOf, f2, Option.map_some', g2]
  · simp only [mapOf, f1, Option.map_some', m1]
  · simp only [mapOf, f2, Option.map_some', m2]
  · simp only [objectPtrOf, f1, Option.map_some', y1]
  · simp only [objectPtrOf, f2, Option.map_some', y2]
  · rw [read_slot hw2 l1 f1 y1]; exact hv1
  · rw [read_slot hw2 l1 f2 y2]; exact hv1

/-- Witness of C18: the literal `"paavo"` on a new container, first through
the overload and then with the `std::string` key. -/
theorem getPointerCStr_eq_witness :
    BufWF oneMap ∧ getPointerCStr 1 0 paavo oneMap = some (1, literalS1) ∧
    getPointer 1 0 stdStringTag (stdStringOf paavo) literalS1 = some (2, literalS2) ∧
    (1 ≠ 2 ∧ ∃ id,
      keyIndex literalS1 1 0 stdStringTag (stdStringOf paavo) = some id ∧
      keyIndex literalS2 1 0 stdStringTag (stdStringOf paavo) = some id ∧
      objectIdOf literalS2 0 1 = some id ∧ objectIdOf literalS2 0 2 = some id ∧
      mapOf literalS2 0 1 = some (some 1) ∧ mapOf literalS2 0 2 = some (some 1) ∧
      objectPtrOf literalS2 0 1 = some (some ⟨(literalS2.poolMap.getD (0, 1) {}).buf, id⟩) ∧
      objectPtrOf literalS2 0 2 = some (some ⟨(literalS2.poolMap.getD (0, 1) {}).buf, id⟩) ∧
      ∃ v, Pointer.read 0 1 literalS2 = some v ∧ Pointer.read 0 2 literalS2 = some v) :=
  ⟨bufWF_oneMap, by rfl, by rfl,
    (getPointerCStr_eq 1 0 paavo oneMap).2 1 2 literalS1 literalS2 bufWF_oneMap (by rfl) (by rfl)⟩

end SmartMap

namespace SmartMap

/-! ## C19: the resynchronisation of the pointers -/

/-- The values of an unordered map after the move of a node are values of the
map before the move (or missing). -/
theorem moveNode_getD {κ ν : Type} [DecidableEq κ] {m m' : Assoc κ ν} {oldKey newKey : κ}
    (h : moveNode m oldKey newKey = some m') (key : κ) (d : ν) :
    m'.getD key d = d ∨ ∃ key', m'.getD key d = m.getD key' d := by
  unfold moveNode at h
  cases hf : m.find oldKey with
  | none => simp [hf] at h
  | some v =>
    simp only [hf] at h
    cases hn : (m.erase oldKey).find newKey with
    | some w =>
      simp only [hn, Option.some.injEq] at h
      subst h
      rw [Assoc.getD_erase]
      split
      · exact Or.inl rfl
      · exact Or.inr ⟨key, rfl⟩
    | none =>
      simp only [hn, Option.some.injEq] at h
      subst h
      rw [Assoc.getD_set, Assoc.getD_erase]
      split
      · exact Or.inr ⟨oldKey, (Assoc.getD_of_find hf d).symm⟩
      · split
        · exact Or.inl rfl
        · exact Or.inr ⟨key, rfl⟩

/-- When the loop of `updatePointerObjectData<T>` is defined, every active
wrapper names a live pointer whose object id is inside the pool. -/
theorem updateObjectPtrs_defined (T : TypeTag) (P : ObjectPool Val) (ws : List (Wrapper PtrAddr))
    (ptrs ptrs' : Assoc (TypeTag × PtrAddr) Pointer)
    (h : updateObjectPtrs T P ws ptrs = some ptrs') :
    ∀ w ∈ ws, w.active = true →
      ∃ p, ptrs.find (T, w.o) = some p ∧ p._objectId < P.data.length := by
  induction ws generalizing ptrs with
  | nil => intro w hw; simp at hw
  | cons w0 ws ih =>
    unfold updateObjectPtrs at h
    by_cases hw0 : w0.active = true
    · simp only [hw0, if_true] at h
      cases hf : ptrs.find (T, w0.o) with
      | none => simp [hf] at h
      | some p0 =>
        simp only [hf] at h
        cases ha : P.addr p0._objectId with
        | none => simp [ha] at h
        | some a =>
          simp only [ha] at h
          have hlt : p0._objectId < P.data.length := by
            unfold ObjectPool.addr at ha
            split at ha
            · assumption
            · simp at ha
          intro w hw hact
          rcases List.mem_cons.mp hw with rfl | hw'
          · exact ⟨p0, hf, hlt⟩
          · obtain ⟨p, hp, hpl⟩ := ih _ h w hw' hact
            rw [Assoc.find_set] at hp
            by_cases hk : (T, w0.o) = (T, w.o)
            · rw [if_pos hk] at hp
              have hp' : p = { p0 with _objectPtr := some a } := (Option.some.inj hp).symm
              refine ⟨p0, by rw [← hk]; exact hf, ?_⟩
              rw [hp'] at hpl; exact hpl
            · rw [if_neg hk] at hp
              exact ⟨p, hp, hpl⟩
    · simp only [hw0] at h
      intro w hw hact
      rcases List.mem_cons.mp hw with rfl | hw'
      · exact absurd hact hw0
      · exact ih _ h w hw' hact

/-- A lookup leaves the flag `invalidated` of every pool cleared. -/
theorem getPointer_flag {c : MapPtr} {T K : TypeTag} {k : Key} {s s' : State} {a : PtrAddr}
    (hg : getPointer c T K k s = some (a, s')) (key : TypeTag × MapPtr)
    (hf : (s.poolMap.getD key {}).invalidated = false) :
    (s'.poolMap.getD key {}).invalidated = false := by
  obtain ⟨_, hcase⟩ := getPointer_unfold hg
  obtain ⟨⟨_, _, g3, _, _, _⟩, _⟩ := getPointerStatic_sameData T K s
  obtain ⟨_, _, _, _, _, a6, _⟩ := accessMaps_effect c T K (getPointerStatic T K s).2
  have h0 : ((accessMaps c T K (getPointerStatic T K s).2).poolMap.getD key {}).invalidated
      = false := by rw [a6, g3]; exact hf
  rcases hcase with ⟨_, hnew⟩ | ⟨id, addr, _, _, hc⟩
  · obtain ⟨s1, s2, addr, hi, hr, _, hc⟩ := getPointerNew_unfold hnew
    obtain ⟨⟨_, _, i3, _, _, _⟩, _⟩ := installTypeHelper_sameData _ _ _ _ _ _ hi
    obtain ⟨_, _, c3, _⟩ := construct_effect _ _ _ _ _ _ _ hc
    obtain ⟨_, _, y3, _⟩ := assignId_effect c T K k (poolFirstInactiveId T c s1).1 s2
    obtain ⟨_, _, _, _, _, p6, _, _⟩ := poolFirstInactiveId_effect T c s1
    rw [c3, y3]
    rcases resyncIfInvalidated_cases hr with ⟨_, hu⟩ | ⟨hfl, rfl⟩
    · obtain ⟨_, _, _, _, e5, _, _⟩ := updatePointerObjectData_effect _ _ _ _ hu
      rw [e5, Assoc.getD_set]
      by_cases hk : (T, c) = key
      · rw [if_pos hk]
      · rw [if_neg hk, p6 key (fun e => hk e.symm), i3]; exact h0
    · by_cases hk : (T, c) = key
      · rw [← hk]; exact hfl
      · rw [p6 key (fun e => hk e.symm), i3]; exact h0
  · obtain ⟨_, _, c3, _⟩ := construct_effect _ _ _ _ _ _ _ hc
    rw [c3]; exact h0

theorem Flushed.kept_flushed {s s' : State} (h : Flushed s) (hk : PoolsKept s s') :
    Flushed s' := by
  intro key; rw [hk.1]; exact h key

theorem Flushed.movePoolF {s s' : State} (h : Flushed s) {T : TypeTag} {oldMap : MapPtr}
    {newMap : Option MapPtr} (hm : movePool T oldMap newMap s = some s') : Flushed s' := by
  unfold movePool at hm
  cases newMap with
  | none =>
    simp only [Option.some.injEq] at hm
    subst hm
    intro key
    dsimp only
    rw [Assoc.getD_erase]
    split
    · rfl
    · exact h key
  | some n =>
    simp only [Option.map_eq_some'] at hm
    obtain ⟨m', hm', rfl⟩ := hm
    intro key
    rcases moveNode_getD hm' key {} with e | ⟨key', e⟩
    · dsimp only; rw [e]
    · dsimp only; rw [e]; exact h key'

theorem Flushed.moveHelperF {s s' : State} (h : Flushed s) {m : TypeHelper} {oldMap : MapPtr}
    {newMap : Option MapPtr} (hm : moveHelper m oldMap newMap s = some s') : Flushed s' := by
  unfold moveHelper at hm
  cases hu : m.pointerMapDataUpdater with
  | none =>
    simp only [hu, Option.some.injEq] at hm
    subst hm; exact h
  | some tu =>
    simp only [hu, Option.bind_eq_bind, Option.bind_eq_some] at hm
    obtain ⟨s1, h1, tp, _, s2, h2, tq, _, s3, h3, h4⟩ := hm
    exact (((h.kept_flushed (updatePointerMapData_kept h1)).movePoolF h2).kept_flushed
      (movePointerPool_kept h3)).kept_flushed (runIdMapMovers_kept _ h4)

theorem Flushed.moveDataLoopF {oldMap : MapPtr} {newMap : Option MapPtr} (ms : List TypeHelper)
    {s s' : State} (h : Flushed s) (hm : moveDataLoop oldMap newMap ms s = some s') :
    Flushed s' := by
  induction ms generalizing s with
  | nil =>
    simp only [moveDataLoop, Option.some.injEq] at hm
    subst hm; exact h
  | cons m r ih =>
    unfold moveDataLoop at hm
    cases h1 : moveHelper m oldMap newMap s with
    | none => simp [h1] at hm
    | some s1 =>
      simp only [h1] at hm
      exact ih (h.moveHelperF h1) hm

theorem Flushed.moveDataF {s s' : State} (h : Flushed s) {this oldMap : MapPtr}
    {newMap : Option MapPtr} (hm : moveData this oldMap newMap s = some s') : Flushed s' := by
  unfold moveData at hm
  simp only [Option.bind_eq_bind, Option.bind_eq_some] at hm
  obtain ⟨m, _, h1⟩ := hm
  exact h.moveDataLoopF _ h1

theorem Flushed.copyPoolF {s : State} (h : Flushed s) (T : TypeTag) (oldMap newMap : MapPtr) :
    Flushed (copyPool T oldMap newMap s) := by
  have hm : ∀ key, (((s.poolMap.ensure (T, oldMap) {}).ensure (T, newMap) {}).getD key
      ({} : ObjectPool Val)).invalidated = false := by
    intro key; rw [Assoc.getD_ensure, Assoc.getD_ensure]; exact h key
  intro key
  unfold copyPool
  dsimp only
  split
  · exact hm key
  · dsimp only
    rw [Assoc.getD_set]
    split
    · unfold ObjectPool.assign
      split
      · exact hm _
      · exact hm _
    · exact hm key

theorem Flushed.copyHelperF {s s' : State} (h : Flushed s) {m : TypeHelper}
    {oldMap newMap : MapPtr} (hm : copyHelper m oldMap newMap s = some s') : Flushed s' := by
  unfold copyHelper at hm
  cases hu : m.pointerMapDataUpdater with
  | none =>
    simp only [hu, Option.some.injEq] at hm
    subst hm; exact h
  | some tu =>
    simp only [hu, Option.bind_eq_bind, Option.bind_eq_some, Option.some.injEq] at hm
    obtain ⟨tp, _, tq, _, rfl⟩ := hm
    exact (((h.copyPoolF tp oldMap newMap).kept_flushed
      (copyPointerPool_kept tq oldMap newMap _)).kept_flushed
      (runIdMapCopiers_kept oldMap newMap _ _))

theorem Flushed.copyDataLoopF {oldMap newMap : MapPtr} (ms : List TypeHelper)
    {s s' : State} (h : Flushed s) (hm : copyDataLoop oldMap newMap ms s = some s') :
    Flushed s' := by
  induction ms generalizing s with
  | nil =>
    simp only [copyDataLoop, Option.some.injEq] at hm
    subst hm; exact h
  | cons m r ih =>
    unfold copyDataLoop at hm
    cases h1 : copyHelper m oldMap newMap s with
    | none => simp [h1] at hm
    | some s1 =>
      simp only [h1] at hm
      exact ih (h.copyHelperF h1) hm

theorem Flushed.copyDataF {s s' : State} (h : Flushed s) {this oldMap : MapPtr}
    {newMap : Option MapPtr} (hm : copyData this oldMap newMap s = some s') : Flushed s' := by
  unfold copyData at hm
  cases newMap with
  | none =>
    simp only [Option.some.injEq] at hm
    subst hm; exact h
  | some n =>
    simp only [Option.bind_eq_bind, Option.bind_eq_some] at hm
    obtain ⟨m, _, h1⟩ := hm
    exact h.copyDataLoopF _ h1

theorem Flushed.storeF {s s' : State} (h : Flushed s) (hw : BufWF s) {T : TypeTag} {a : ObjAddr}
    {v : Val} (hs : store T a v s = some s') : Flushed s' := by
  unfold store at hs
  simp only [Option.bind_eq_bind, Option.bind_eq_some] at hs
  obtain ⟨e, he, hs⟩ := hs
  split at hs
  · simp only [Option.some.injEq] at hs
    subst hs
    obtain ⟨m1, _, _⟩ := findBuf_mem he
    have hf : s.poolMap.find e.1 = some e.2 := Assoc.find_of_mem hw.2.1 m1
    have hg : s.poolMap.getD e.1 {} = e.2 := Assoc.getD_of_find hf _
    intro key
    dsimp only
    rw [Assoc.getD_set]
    split
    · dsimp only; rw [← hg]; exact h _
    · exact h key
  · simp at hs

theorem Flushed.stepF {s s' : State} (h : Flushed s) (hw : BufWF s) {op : Op}
    (hs : step s op = some s') : Flushed s' := by
  cases op with
  | newMap c =>
    simp only [step] at hs
    unfold defaultConstruct at hs
    cases hf : s.maps.find c with
    | some o => simp [hf] at hs
    | none =>
      simp only [hf, Option.some.injEq] at hs
      subst hs; exact h
  | copyMap c other =>
    simp only [step] at hs
    unfold copyConstruct at hs
    cases hf : s.maps.find c with
    | some o => simp [hf] at hs
    | none =>
      simp only [hf, Option.bind_eq_bind, Option.bind_eq_some] at hs
      obtain ⟨o, _, h1⟩ := hs
      refine Flushed.copyDataF ?_ h1
      exact h
  | moveMap c other =>
    simp only [step] at hs
    unfold moveConstruct at hs
    cases hf : s.maps.find c with
    | some o => simp [hf] at hs
    | none =>
      simp only [hf, Option.bind_eq_bind, Option.bind_eq_some] at hs
      obtain ⟨o, _, h1⟩ := hs
      refine Flushed.moveDataF ?_ h1
      exact h
  | assignMap c other =>
    simp only [step] at hs
    unfold copyAssign at hs
    simp only [Option.bind_eq_bind, Option.bind_eq_some] at hs
    obtain ⟨s1, h1, o, _, h2⟩ := hs
    have h0 : Flushed s1 := h.moveDataF h1
    refine Flushed.copyDataF ?_ h2
    exact h0
  | moveAssignMap c other =>
    simp only [step] at hs
    unfold moveAssign at hs
    simp only [Option.bind_eq_bind, Option.bind_eq_some] at hs
    obtain ⟨s1, h1, o, _, h2⟩ := hs
    split at h2
    · simp at h2
    · have h0 : Flushed s1 := h.moveDataF h1
      refine Flushed.moveDataF ?_ h2
      exact h0
  | deleteMap c =>
    simp only [step] at hs
    unfold destroy at hs
    simp only [Option.bind_eq_bind, Option.bind_eq_some, Option.some.injEq] at hs
    obtain ⟨s1, h1, rfl⟩ := hs
    have h0 : Flushed s1 := h.moveDataF h1
    exact h0
  | get c T K key =>
    simp only [step, Option.map_eq_some'] at hs
    obtain ⟨r, hr, rfl⟩ := hs
    intro key
    exact getPointer_flag hr key (h key)
  | newPtr T =>
    simp only [step, Option.some.injEq] at hs
    subst hs; exact h
  | copyPtr T other =>
    simp only [step, Option.map_eq_some'] at hs
    obtain ⟨r, hr, rfl⟩ := hs
    exact h.kept_flushed (Pointer.copyConstruct_kept hr)
  | movePtr T other =>
    simp only [step, Option.map_eq_some'] at hs
    obtain ⟨r, hr, rfl⟩ := hs
    exact h.kept_flushed (Pointer.moveConstruct_kept hr)
  | assignPtr T p other => exact h.kept_flushed (Pointer.assignFields_kept hs)
  | moveAssignPtr T p other => exact h.kept_flushed (Pointer.moveAssign_kept hs)
  | deletePtr T p => exact h.kept_flushed (Pointer.destroy_kept hs)
  | write T p v =>
    simp only [step] at hs
    unfold Pointer.write at hs
    simp only [Option.bind_eq_bind, Option.bind_eq_some] at hs
    obtain ⟨q, _, a, _, h1⟩ := hs
    exact h.storeF hw h1

theorem Flushed.runF (prog : List Op) {s s' : State} (h : Flushed s) (hw : BufWF s)
    (hr : run prog s = some s') : Flushed s' := by
  induction prog generalizing s with
  | nil =>
    simp only [run, Option.some.injEq] at hr
    subst hr; exact h
  | cons op ops ih =>
    unfold run at hr
    cases h1 : step s op with
    | none => simp [h1] at hr
    | some s1 =>
      simp only [h1] at hr
      exact ih (h.stepF hw h1) (hw.stepB h1) hr

/-- In every state that a client program reaches, no pool has the flag
`invalidated` set. -/
theorem reachable_flushed {s : State} (h : Reachable s) : Flushed s := by
  obtain ⟨prog, hp⟩ := h
  refine Flushed.runF prog ?_ bufWF_init hp
  intro key
  rfl

end SmartMap

namespace SmartMap

/-- C19 (resync postcondition).  When `updatePointerObjectData<T>()` has run
on the container `c`, every pointer named by an active wrapper of the pointer
pool of `c` for `T` is live, its object id is inside the pool of `c` for `T`
and its cached object pointer is the address of the slot with that object id
in that pool; the flag `invalidated` of the pool is false; the container, the
object id and the pointer id of every pointer, every pointer pool, the wrappers
of every pool (objects and active flags), the id maps and the containers are
unchanged.  A call of `getPointer<T, K>` that returns leaves the flag
`invalidated` of the pool of `c` for `T` false when it was false before the
call, which is so in every state that a client program reaches. -/
theorem updatePointerObjectData_post (T : TypeTag) (c : MapPtr) (s : State) :
    (∀ s', updatePointerObjectData T c s = some s' →
      (∀ w ∈ (s.pointerPoolMap.getD (T, c) {}).data, w.active = true →
        ∃ p p', s.ptrs.find (T, w.o) = some p ∧ s'.ptrs.find (T, w.o) = some p' ∧
          p'._objectId < (s'.poolMap.getD (T, c) {}).data.length ∧
          p'._objectPtr = (s'.poolMap.getD (T, c) {}).addr p'._objectId ∧
          p'._objectPtr = some ⟨(s'.poolMap.getD (T, c) {}).buf, p'._objectId⟩) ∧
      (s'.poolMap.getD (T, c) {}).invalidated = false ∧
      (∀ (T2 : TypeTag) (x : PtrAddr),
        (s'.ptrs.find (T2, x)).map (fun p => (p._map, p._objectId, p._pointerId)) =
        (s.ptrs.find (T2, x)).map (fun p => (p._map, p._objectId, p._pointerId))) ∧
      (∀ key, s'.pointerPoolMap.getD key {} = s.pointerPoolMap.getD key {}) ∧
      (∀ key, (s'.poolMap.getD key {}).data = (s.poolMap.getD key {}).data) ∧
      s'.idMapMap = s.idMapMap ∧ s'.maps = s.maps) ∧
    (∀ (K : TypeTag) (k : Key) (a : PtrAddr) (s' : State),
      getPointer c T K k s = some (a, s') →
      ((s.poolMap.getD (T, c) {}).invalidated = false →
        (s'.poolMap.getD (T, c) {}).invalidated = false) ∧
      (Reachable s → (s'.poolMap.getD (T, c) {}).invalidated = false)) := by
  refine ⟨?_, ?_⟩
  · intro s' hu
    obtain ⟨_, _, e3, e4, e5, e6, e7⟩ := updatePointerObjectData_effect _ _ _ _ hu
    obtain ⟨q1, q2, _⟩ := updatePointerObjectData_pool _ _ _ _ hu T c
    refine ⟨?_, ?_, ?_, e6, ?_, e3, e4⟩
    · intro w hw hact
      have hu' := hu
      unfold updatePointerObjectData at hu'
      simp only [Option.bind_eq_bind, Option.bind_eq_some, Option.some.injEq] at hu'
      obtain ⟨ptrs, hp, _⟩ := hu'
      obtain ⟨p, hf, hlt⟩ := updateObjectPtrs_defined T _ _ _ _ hp w hw hact
      have hmem : (⟨w.o, true⟩ : Wrapper PtrAddr) ∈ (s.pointerPoolMap.getD (T, c) {}).data := by
        have : w = ⟨w.o, true⟩ := by
          cases w with
          | mk o act => simp only at hact; rw [hact]
        rw [← this]; exact hw
      have hf' := e7 T w.o
      rw [hf, Option.map_some', if_pos ⟨rfl, hmem⟩] at hf'
      refine ⟨p, _, hf, hf', ?_, ?_, ?_⟩
      · rw [q1]; exact hlt
      · unfold ObjectPool.addr
        rw [q1, q2]
        dsimp only
        rw [if_pos hlt]
      · rw [q2]
    · rw [e5, Assoc.getD_set, if_pos rfl]
    · intro T2 x
      rw [e7 T2 x]
      cases s.ptrs.find (T2, x) with
      | none => rfl
      | some p =>
        simp only [Option.map_some']
        split <;> rfl
    · intro key
      exact (updatePointerObjectData_pool _ _ _ _ hu key.1 key.2).1
  · intro K k a s' hg
    exact ⟨fun hf => getPointer_flag hg (T, c) hf,
      fun hr => getPointer_flag hg (T, c) (reachable_flushed hr (T, c))⟩

/-- Witness of C19.  In `resyncS0` the vector of the pool of `c1` has moved to
a new buffer; `updatePointerObjectData<std::string>()` gives the pointer `p1`
the address of slot 0 in that buffer and clears the flag.  The lookup of a new
key in the reachable state `identityS1` returns with the flag cleared. -/
theorem updatePointerObjectData_post_witness :
    updatePointerObjectData 0 1 resyncS0 = some resyncS1 ∧
    (resyncS0.poolMap.getD (0, 1) {}).invalidated = true ∧
    objectPtrOf resyncS0 0 1 = some (some ⟨1, 0⟩) ∧
    objectPtrOf resyncS1 0 1 = some (some ⟨3, 0⟩) ∧
    (∀ w ∈ (resyncS0.pointerPoolMap.getD (0, 1) {}).data, w.active = true →
      ∃ p p', resyncS0.ptrs.find (0, w.o) = some p ∧ resyncS1.ptrs.find (0, w.o) = some p' ∧
        p'._objectId < (resyncS1.poolMap.getD (0, 1) {}).data.length ∧
        p'._objectPtr = (resyncS1.poolMap.getD (0, 1) {}).addr p'._objectId ∧
        p'._objectPtr = some ⟨(resyncS1.poolMap.getD (0, 1) {}).buf, p'._objectId⟩) ∧
    (resyncS1.poolMap.getD (0, 1) {}).invalidated = false ∧
    Reachable identityS1 ∧ getPointer 1 0 0 2 identityS1 = some (2, resyncS2) ∧
    (resyncS2.poolMap.getD (0, 1) {}).invalidated = false :=
  ⟨by rfl, by decide, by decide, by decide,
    ((updatePointerObjectData_post 0 1 resyncS0).1 resyncS1 (by rfl)).1,
    ((updatePointerObjectData_post 0 1 resyncS0).1 resyncS1 (by rfl)).2.1,
    ⟨[.newMap 1, .get 1 0 0 1], by rfl⟩, by rfl,
    ((updatePointerObjectData_post 0 1 identityS1).2 0 2 2 resyncS2 (by rfl)).2
      ⟨[.newMap 1, .get 1 0 0 1], by rfl⟩⟩

end SmartMap

namespace SmartMap

/-! ## Partition of the storage by container and by value type -/

theorem StepFrame.refl_frame (s : State) (c : MapPtr) (T K : TypeTag) : StepFrame s s c T K :=
  ⟨rfl, fun _ => rfl, fun _ _ => rfl, fun _ _ => rfl, fun _ _ _ => rfl, fun _ _ => Iff.rfl⟩

theorem StepFrame.trans_frame {s s1 s2 : State} {c : MapPtr} {T K : TypeTag}
    (h1 : StepFrame s s1 c T K) (h2 : StepFrame s1 s2 c T K) : StepFrame s s2 c T K := by
  obtain ⟨a1, a2, a3, a4, a5, a6⟩ := h1
  obtain ⟨b1, b2, b3, b4, b5, b6⟩ := h2
  refine ⟨by rw [b1, a1], fun kk => by rw [b2, a2], fun kk hk => by rw [b3 kk hk, a3 kk hk],
    fun kk hk => by rw [b4 kk hk, a4 kk hk], ?_, fun T2 x => (b6 T2 x).trans (a6 T2 x)⟩
  intro T2 x hn
  rw [b5 T2 x (by rw [a2]; exact hn), a5 T2 x hn]

theorem StepFrame.of_sameData {s s' : State} (h : SameData s s') (c : MapPtr) (T K : TypeTag) :
    StepFrame s s' c T K := by
  obtain ⟨e1, e2, e3, e4, e5, _⟩ := h
  exact ⟨e2, fun _ => by rw [e4], fun _ _ => by rw [e3], fun _ _ => by rw [e5],
    fun _ _ _ => by rw [e1], fun _ _ => by rw [e1]⟩

theorem accessMaps_frame (c : MapPtr) (T K : TypeTag) (s : State) (c' : MapPtr) (T' K' : TypeTag) :
    StepFrame s (accessMaps c T K s) c' T' K' := by
  obtain ⟨m1, m2, m3, _, _, m6, m7⟩ := accessMaps_effect c T K s
  exact ⟨m2, fun _ => by rw [m3], fun kk _ => m6 kk, fun kk _ => m7 kk,
    fun _ _ _ => by rw [m1], fun _ _ => by rw [m1]⟩

theorem poolFirstInactiveId_frame (c : MapPtr) (T K : TypeTag) (s : State) :
    StepFrame s (poolFirstInactiveId T c s).2 c T K := by
  obtain ⟨p1, p2, p3, p4, _, p6, _, _⟩ := poolFirstInactiveId_effect T c s
  exact ⟨p2, fun _ => by rw [p3], p6, fun _ _ => by rw [p4], fun _ _ _ => by rw [p1],
    fun _ _ => by rw [p1]⟩

theorem updatePointerObjectData_frame {c : MapPtr} {T : TypeTag} {s s' : State}
    (hu : updatePointerObjectData T c s = some s') (K : TypeTag) : StepFrame s s' c T K := by
  obtain ⟨e1, _, e3, _, e5, e6, e7⟩ := updatePointerObjectData_effect _ _ _ _ hu
  refine ⟨e1, e6, ?_, fun _ _ => by rw [e3], ?_, ?_⟩
  · intro kk hk
    rw [e5, Assoc.getD_set, if_neg (fun e => hk e.symm)]
  · intro T2 x hn
    rw [e7]
    cases s.ptrs.find (T2, x) with
    | none => rfl
    | some p => simp only [Option.map_some', if_neg hn]
  · intro T2 x
    rw [e7]
    cases s.ptrs.find (T2, x) <;> simp

theorem assignId_frame (c : MapPtr) (T K : TypeTag) (k : Key) (newId : Id) (s : State) :
    StepFrame s (assignId c T K k newId s) c T K := by
  refine ⟨rfl, fun _ => rfl, fun _ _ => rfl, ?_, fun _ _ _ => rfl, fun _ _ => Iff.rfl⟩
  intro kk hk
  unfold assignId
  dsimp only
  rw [Assoc.getD_set, if_neg (fun e => hk e.symm)]

theorem LookupFrame.of_construct {s sE s' : State} {c : MapPtr} {T K : TypeTag} {a : PtrAddr}
    {id : Id} {addr : ObjAddr} (hf : StepFrame s sE c T K)
    (hc : Pointer.construct T c id addr sE = some (a, s')) : LookupFrame s s' c T K a := by
  obtain ⟨e_np, e_reg, e_pool, e_id, e_ptr, e_live⟩ := hf
  obtain ⟨c1, c2, c3, c4, _, _, c7, _, pid, _, c10⟩ := construct_effect _ _ _ _ _ _ _ hc
  refine ⟨by rw [c1, e_np], by rw [c2, e_np], ?_, ?_, ?_, ?_, ?_, ?_, ?_⟩
  · intro kk hk; rw [c7 kk hk, e_reg]
  · intro w hw
    have := construct_mem hc w hw
    rw [e_reg] at this; exact this
  · intro kk hk; rw [c3]; exact e_pool kk hk
  · intro kk hk; rw [c4]; exact e_id kk hk
  · intro T2 x hne hn
    rw [c10, if_neg (fun e => hne e.symm)]
    exact e_ptr T2 x hn
  · intro T2 x hne
    rw [c10, if_neg (fun e => hne e.symm)]
    exact e_live T2 x
  · rw [c10, if_pos rfl]; simp

/-- What a lookup `c.getPointer<T, K>(k)` leaves unchanged. -/
theorem getPointer_frame {c : MapPtr} {T K : TypeTag} {k : Key} {s s' : State} {a : PtrAddr}
    (h : getPointer c T K k s = some (a, s')) : LookupFrame s s' c T K a := by
  obtain ⟨_, hcase⟩ := getPointer_unfold h
  have f0 : StepFrame s (accessMaps c T K (getPointerStatic T K s).2) c T K :=
    (StepFrame.of_sameData (getPointerStatic_sameData T K s).1 c T K).trans_frame
      (accessMaps_frame c T K _ c T K)
  rcases hcase with ⟨_, hnew⟩ | ⟨id, addr, _, _, hc⟩
  · obtain ⟨s1, s2, addr, hi, hr, _, hc⟩ := getPointerNew_unfold hnew
    have f1 := f0.trans_frame
      (StepFrame.of_sameData (installTypeHelper_sameData _ _ _ _ _ _ hi).1 c T K)
    have f2 := f1.trans_frame (poolFirstInactiveId_frame c T K s1)
    have f3 : StepFrame s s2 c T K := by
      rcases resyncIfInvalidated_cases hr with ⟨_, hu⟩ | ⟨_, rfl⟩
      · exact f2.trans_frame (updatePointerObjectData_frame hu K)
      · exact f2
    exact LookupFrame.of_construct (f3.trans_frame (assignId_frame c T K k _ s2)) hc
  · exact LookupFrame.of_construct f0 hc

end SmartMap

namespace SmartMap

/-- A pointer obtained from `c.getPointer<T, K>(k)` stays tracked over a lookup
on another container whose pointer pool for `T` does not hold its address. -/
theorem Tracked.getPointerO {s s' : State} {c : MapPtr} {T K : TypeTag} {k : Key}
    {a : PtrAddr} {id : Id} {v : Val} (ht : Tracked s c T K k a id v)
    {c' : MapPtr} (hc : c' ≠ c) {T' K' : TypeTag} {k' : Key} {a' : PtrAddr}
    (hx : ∀ w ∈ (s.pointerPoolMap.getD (T, c') {}).data, w.o ≠ a)
    (h : getPointer c' T' K' k' s = some (a', s')) :
    Tracked s' c T K k a id v ∧ a ≠ a' := by
  obtain ⟨f1, f2, f3, _, f5, f6, f7, _, _⟩ := getPointer_frame h
  have hlt : a < s.nextPtr := ht.1.1.1
  have hne : a ≠ a' := by rw [f1]; exact Nat.ne_of_lt hlt
  refine ⟨ht.frameT (by rw [f2]; exact Nat.le_succ _) ?_ ?_ ?_ ?_, hne⟩
  · refine f7 T a (fun e => hne (Prod.mk.inj e).2) ?_
    rintro ⟨rfl, hm⟩
    exact hx _ hm rfl
  · exact f3 _ (fun e => hc (Prod.mk.inj e).2.symm)
  · exact f5 _ (fun e => hc (Prod.mk.inj e).2.symm)
  · exact f6 _ (fun e => hc (Prod.mk.inj (Prod.mk.inj e).2).2.symm)

theorem Exclusive.getPointerE {s s' : State} {c : MapPtr} {T : TypeTag} {a : PtrAddr}
    (hx : Exclusive s c T a) (hlt : a < s.nextPtr) {c' : MapPtr} {T' K' : TypeTag} {k' : Key}
    {a' : PtrAddr} (h : getPointer c' T' K' k' s = some (a', s')) : Exclusive s' c T a := by
  obtain ⟨f1, _, f3, f4, _⟩ := getPointer_frame h
  intro c2 hc2 w hw
  by_cases hk : (T, c2) = (T', c')
  · rw [hk] at hw
    rcases f4 w hw with rfl | hold
    · show a' ≠ a
      rw [f1]; exact Nat.ne_of_gt hlt
    · rw [← hk] at hold
      exact hx c2 hc2 w hold
  · rw [f3 _ hk] at hw
    exact hx c2 hc2 w hw

/-- When the pointer returned by a lookup is constructed in storage that no
pointer pool of another container names, no pointer pool of another container
holds its address after the lookup. -/
theorem Exclusive.of_unnamed {s s' : State} {c : MapPtr} {T K : TypeTag} {k : Key}
    {a : PtrAddr} (hx : Exclusive s c T s.nextPtr)
    (h : getPointer c T K k s = some (a, s')) : Exclusive s' c T a := by
  obtain ⟨f1, _, f3, _⟩ := getPointer_frame h
  intro c2 hc2 w hw
  rw [f3 _ (fun e => hc2 (Prod.mk.inj e).2)] at hw
  rw [f1]
  exact hx c2 hc2 w hw

/-- When no storage has been reused, no pointer pool names the storage of the
next pointer. -/
theorem PtrWF.exclusive_next {s : State} (hp : PtrWF s) (c : MapPtr) (T : TypeTag) :
    Exclusive s c T s.nextPtr := by
  intro c2 _ w hw
  exact Nat.ne_of_lt (hp.1 _ w hw)

/-- When no storage has been reused, no pointer pool of another container holds
the address of the pointer returned by a lookup. -/
theorem Exclusive.of_lookup {s s' : State} (hp : PtrWF s) {c : MapPtr} {T K : TypeTag}
    {k : Key} {a : PtrAddr} (h : getPointer c T K k s = some (a, s')) :
    Exclusive s' c T a := by
  obtain ⟨f1, _, f3, _⟩ := getPointer_frame h
  intro c2 hc2 w hw
  rw [f3 _ (fun e => hc2 (Prod.mk.inj e).2)] at hw
  rw [f1]
  exact Nat.ne_of_lt (hp.1 _ w hw)

/-- A pointer obtained from `c.getPointer<T, K>(k)`, whose address no pointer
pool of another container holds, stays so over a lookup on any container. -/
theorem Tracked.getPointerA {s s' : State} {c : MapPtr} {T K : TypeTag} {k : Key}
    {a : PtrAddr} {id : Id} {v : Val} (ht : Tracked s c T K k a id v)
    (hx : Exclusive s c T a) {c' : MapPtr} {T' K' : TypeTag} {k' : Key} {a' : PtrAddr}
    (h : getPointer c' T' K' k' s = some (a', s')) :
    Tracked s' c T K k a id v ∧ Exclusive s' c T a ∧ a ≠ a' := by
  have hx' := hx.getPointerE ht.1.1.1 h
  by_cases hc : c' = c
  · subst hc
    obtain ⟨t, hne⟩ := ht.getPointerT h
    exact ⟨t, hx', hne⟩
  · obtain ⟨t, hne⟩ := ht.getPointerO hc (hx c' hc) h
    exact ⟨t, hx', hne⟩

theorem Tracked.lookupsOnT {c : MapPtr} {T K : TypeTag} {k : Key} {a : PtrAddr} {id : Id}
    {v : Val} (ops : List (MapPtr × TypeTag × TypeTag × Key)) {s s' : State}
    (ht : Tracked s c T K k a id v) (hx : Exclusive s c T a)
    (h : lookupsOn ops s = some s') :
    Tracked s' c T K k a id v ∧ Exclusive s' c T a := by
  induction ops generalizing s with
  | nil =>
    simp only [lookupsOn, Option.some.injEq] at h
    rw [← h]; exact ⟨ht, hx⟩
  | cons q qs ih =>
    unfold lookupsOn at h
    cases hg : getPointer q.1 q.2.1 q.2.2.1 q.2.2.2 s with
    | none => simp [hg] at h
    | some r =>
      simp only [hg] at h
      obtain ⟨a', s1⟩ := r
      obtain ⟨t, x, _⟩ := ht.getPointerA hx hg
      exact ih t x h

theorem BufWF.lookupsOnB (ops : List (MapPtr × TypeTag × TypeTag × Key)) {s s' : State}
    (h : BufWF s) (hl : lookupsOn ops s = some s') : BufWF s' := by
  induction ops generalizing s with
  | nil =>
    simp only [lookupsOn, Option.some.injEq] at hl
    rw [← hl]; exact h
  | cons q qs ih =>
    unfold lookupsOn at hl
    cases hg : getPointer q.1 q.2.1 q.2.2.1 q.2.2.2 s with
    | none => simp [hg] at hl
    | some r =>
      simp only [hg] at hl
      exact ih (h.getPointerB hg) hl

/-- Two pools with a slot each, under different keys of `poolMap`, have
different buffers. -/
theorem buf_ne_of_key_ne {s : State} (hw : BufWF s) {T1 T2 : TypeTag} {c1 c2 : MapPtr}
    {id1 id2 : Id} (h1 : id1 < (s.poolMap.getD (T1, c1) {}).data.length)
    (h2 : id2 < (s.poolMap.getD (T2, c2) {}).data.length) (hne : (T1, c1) ≠ (T2, c2)) :
    (s.poolMap.getD (T1, c1) {}).buf ≠ (s.poolMap.getD (T2, c2) {}).buf := by
  have f1 := find_of_lt_length h1
  have f2 := find_of_lt_length h2
  intro e
  have hb : (s.poolMap.getD (T1, c1) {}).buf ≠ 0 := by
    intro h0
    have hcap := (hw.2.2.1 _ _ f1).2.2 h0
    have hle := (hw.2.2.1 _ _ f1).2.1
    rw [hcap] at hle
    exact absurd (Nat.lt_of_lt_of_le h1 hle) (Nat.not_lt_zero _)
  exact hne (hw.2.2.2 _ _ _ _ f1 f2 e hb)

/-- A write to a slot of one pool does not change what a pointer that caches
the address of a slot of a pool under another key of `poolMap` reads. -/
theorem write_read_elsewhere {s : State} (hw : BufWF s) {T1 T2 : TypeTag} {c1 c2 : MapPtr}
    {id1 id2 : Id} (hne : (T1, c1) ≠ (T2, c2))
    (hl1 : id1 < (s.poolMap.getD (T1, c1) {}).data.length)
    (hl2 : id2 < (s.poolMap.getD (T2, c2) {}).data.length)
    {a1 a2 : PtrAddr} {p1 p2 : Pointer}
    (hp1 : s.ptrs.find (T1, a1) = some p1)
    (hy1 : p1._objectPtr = some ⟨(s.poolMap.getD (T1, c1) {}).buf, id1⟩)
    (hp2 : s.ptrs.find (T2, a2) = some p2)
    (hy2 : p2._objectPtr = some ⟨(s.poolMap.getD (T2, c2) {}).buf, id2⟩) (v : Val) :
    ∃ s4 u, Pointer.write T2 a2 v s = some s4 ∧ Pointer.read T1 a1 s = some u ∧
      Pointer.read T1 a1 s4 = some u ∧ Pointer.read T2 a2 s4 = some v := by
  obtain ⟨u, hu⟩ := slotValue_isSome hl1
  have hpool : (writeSlot c2 T2 id2 v s).poolMap.getD (T1, c1) {} = s.poolMap.getD (T1, c1) {} := by
    unfold writeSlot
    dsimp only
    rw [Assoc.getD_set, if_neg (fun e => hne e.symm)]
  have hw4 := hw.writeSlotB c2 T2 id2 v
  refine ⟨writeSlot c2 T2 id2 v s, u, write_slot hw hl2 hp2 hy2 v, ?_, ?_, ?_⟩
  · rw [read_slot hw hl1 hp1 hy1]; exact hu
  · have hl1' : id1 < ((writeSlot c2 T2 id2 v s).poolMap.getD (T1, c1) {}).data.length := by
      rw [hpool]; exact hl1
    have hp1' : (writeSlot c2 T2 id2 v s).ptrs.find (T1, a1) = some p1 := hp1
    have hy1' : p1._objectPtr =
        some ⟨((writeSlot c2 T2 id2 v s).poolMap.getD (T1, c1) {}).buf, id1⟩ := by
      rw [hpool]; exact hy1
    rw [read_slot hw4 hl1' hp1' hy1']
    unfold slotValue
    rw [hpool]; exact hu
  · have hl2' : id2 < ((writeSlot c2 T2 id2 v s).poolMap.getD (T2, c2) {}).data.length := by
      rw [writeSlot_pool]; dsimp only; rw [length_setO]; exact hl2
    have hp2' : (writeSlot c2 T2 id2 v s).ptrs.find (T2, a2) = some p2 := hp2
    have hy2' : p2._objectPtr =
        some ⟨((writeSlot c2 T2 id2 v s).poolMap.getD (T2, c2) {}).buf, id2⟩ := by
      rw [writeSlot_pool]; exact hy2
    rw [read_slot hw4 hl2' hp2' hy2']
    exact slotValue_writeSlot hl2 v

/-- The partition of the storage, under the condition that the storage in
which `p1` is constructed is not named by a wrapper of a pointer pool of
another container (a stale wrapper of a copied pointer pool can name reused
storage).  Let `p1` be returned by `c1.getPointer<T1, K1>(k1)` and, after any
sequence of lookups on any containers, `p2` by `c2.getPointer<T2, K2>(k2)`,
where the containers differ or the value types differ (the keys and key types
may be the same).  Then `p1` is attached to `c1` and caches the address of a
slot of the pool of `c1` for `T1`, `p2` is attached to `c2` and caches the
address of a slot of the pool of `c2` for `T2`, the two pools have different
buffers, so the cached addresses differ, and a write through either pointer is
read back through it and does not change the value read through the other. -/
theorem storage_partitioned (s s1 s2 s3 : State) (c1 c2 : MapPtr) (T1 T2 K1 K2 : TypeTag)
    (k1 k2 : Key) (a1 a2 : PtrAddr) (ops : List (MapPtr × TypeTag × TypeTag × Key))
    (hw : BufWF s) (hx : Exclusive s c1 T1 s.nextPtr) (hne : c1 ≠ c2 ∨ T1 ≠ T2)
    (h1 : getPointer c1 T1 K1 k1 s = some (a1, s1)) (hm : lookupsOn ops s1 = some s2)
    (h2 : getPointer c2 T2 K2 k2 s2 = some (a2, s3)) :
    ∃ p1 p2, s3.ptrs.find (T1, a1) = some p1 ∧ s3.ptrs.find (T2, a2) = some p2 ∧
      p1._map = some c1 ∧ p2._map = some c2 ∧
      keyIndex s3 c1 T1 K1 k1 = some p1._objectId ∧
      keyIndex s3 c2 T2 K2 k2 = some p2._objectId ∧
      p1._objectId < (s3.poolMap.getD (T1, c1) {}).data.length ∧
      p2._objectId < (s3.poolMap.getD (T2, c2) {}).data.length ∧
      p1._objectPtr = some ⟨(s3.poolMap.getD (T1, c1) {}).buf, p1._objectId⟩ ∧
      p2._objectPtr = some ⟨(s3.poolMap.getD (T2, c2) {}).buf, p2._objectId⟩ ∧
      (s3.poolMap.getD (T1, c1) {}).buf ≠ (s3.poolMap.getD (T2, c2) {}).buf ∧
      p1._objectPtr ≠ p2._objectPtr ∧
      (∀ v, ∃ s4 u, Pointer.write T2 a2 v s3 = some s4 ∧ Pointer.read T1 a1 s3 = some u ∧
        Pointer.read T1 a1 s4 = some u ∧ Pointer.read T2 a2 s4 = some v) ∧
      (∀ v, ∃ s4 u, Pointer.write T1 a1 v s3 = some s4 ∧ Pointer.read T2 a2 s3 = some u ∧
        Pointer.read T2 a2 s4 = some u ∧ Pointer.read T1 a1 s4 = some v) := by
  obtain ⟨_, id1, v1, t1⟩ := getPointer_tracked h1
  have x1 := Exclusive.of_unnamed hx h1
  obtain ⟨t2, x2⟩ := t1.lookupsOnT ops x1 hm
  obtain ⟨t3, _, _⟩ := t2.getPointerA x2 h2
  obtain ⟨_, id2, v2, u3⟩ := getPointer_tracked h2
  have hw3 : BufWF s3 := ((hw.getPointerB h1).lookupsOnB ops hm).getPointerB h2
  have hkey : (T1, c1) ≠ (T2, c2) := by
    intro e
    rcases hne with hc | hT
    · exact hc (Prod.mk.inj e).2
    · exact hT (Prod.mk.inj e).1
  obtain ⟨⟨⟨_, p1, f1, g1, m1, _, l1⟩, _, k1'⟩, q1, f1', y1⟩ := t3
  obtain ⟨⟨⟨_, p2, f2, g2, m2, _, l2⟩, _, k2'⟩, q2, f2', y2⟩ := u3
  rw [f1] at f1'
  rw [f2] at f2'
  have e1 : q1 = p1 := (Option.some.inj f1').symm
  have e2 : q2 = p2 := (Option.some.inj f2').symm
  subst e1
  subst e2
  have hbuf := buf_ne_of_key_ne hw3 l1 l2 hkey
  subst g1
  subst g2
  refine ⟨q1, q2, f1, f2, m1, m2, k1', k2', l1, l2, y1, y2, hbuf, ?_, ?_, ?_⟩
  · rw [y1, y2]
    intro e
    exact hbuf (congrArg ObjAddr.buf (Option.some.inj e))
  · intro v
    exact write_read_elsewhere hw3 hkey l1 l2 f1 y1 f2 y2 v
  · intro v
    exact write_read_elsewhere hw3 (fun e => hkey e.symm) l2 l1 f2 y2 f1 y1 v

end SmartMap

namespace SmartMap

/-! ## Addresses of pointers in programs that reuse no storage -/

theorem PtrWF.of_viewsP {s s' : State} (h : PtrWF s) (hn : s.nextPtr ≤ s'.nextPtr)
    (hr : ∀ key, ∀ w ∈ (s'.pointerPoolMap.getD key {}).data, w.o < s'.nextPtr ∨
      ∃ key', ∃ w' ∈ (s.pointerPoolMap.getD key' {}).data, w.o = w'.o)
    (hl : ∀ (T : TypeTag) (a : PtrAddr), s'.ptrs.find (T, a) ≠ none →
      a < s'.nextPtr ∨ s.ptrs.find (T, a) ≠ none) : PtrWF s' := by
  refine ⟨?_, ?_⟩
  · intro key w hw
    rcases hr key w hw with h1 | ⟨key', w', hw', e⟩
    · exact h1
    · rw [e]; exact Nat.lt_of_lt_of_le (h.1 key' w' hw') hn
  · intro T a ha
    rcases hl T a ha with h1 | h1
    · exact h1
    · exact Nat.lt_of_lt_of_le (h.2 T a h1) hn

theorem mem_setActive {α : Type} (ws : List (Wrapper α)) (i : Nat) (b : Bool) (w : Wrapper α)
    (h : w ∈ setActive ws i b) : ∃ w0 ∈ ws, w.o = w0.o := by
  induction ws generalizing i with
  | nil => simp [setActive] at h
  | cons w0 ws ih =>
    cases i with
    | zero =>
      simp only [setActive, List.mem_cons] at h
      rcases h with rfl | h
      · exact ⟨w0, List.mem_cons_self _ _, rfl⟩
      · exact ⟨w, List.mem_cons_of_mem _ h, rfl⟩
    | succ i =>
      simp only [setActive, List.mem_cons] at h
      rcases h with rfl | h
      · exact ⟨w, List.mem_cons_self _ _, rfl⟩
      · obtain ⟨w1, hw1, e⟩ := ih i h
        exact ⟨w1, List.mem_cons_of_mem _ hw1, e⟩

theorem PtrWF.registerW {s s' : State} (h : PtrWF s) {T : TypeTag} {m : MapPtr} {p : PtrAddr}
    {pid : Id} (hp : p < s.nextPtr) (hr : registerPointer T m p s = some (pid, s')) :
    PtrWF s' := by
  obtain ⟨_, e1, e2, _, _, _, _, e7, _, _⟩ := registerPointer_effect _ _ _ _ _ _ hr
  refine h.of_viewsP (Nat.le_of_eq e2.symm) ?_ ?_
  · intro key w hw
    by_cases hk : key = (T, m)
    · subst hk
      rcases registerPointer_mem hr w hw with rfl | hold
      · left; rw [e2]; exact hp
      · exact Or.inr ⟨_, w, hold, rfl⟩
    · rw [e7 key hk] at hw
      exact Or.inr ⟨_, w, hw, rfl⟩
  · intro T2 a ha
    rw [e1] at ha
    exact Or.inr ha

theorem PtrWF.unregisterW {s s' : State} (h : PtrWF s) {T : TypeTag} {m : MapPtr} {pid : Id}
    (hr : unregisterPointer T m pid s = some s') : PtrWF s' := by
  unfold unregisterPointer at hr
  cases hm : s.maps.find m with
  | none => simp [hm] at hr
  | some obj =>
    simp only [hm, Option.bind_eq_bind, Option.some_bind] at hr
    split at hr
    · simp only [Option.some.injEq] at hr
      subst hr
      refine h.of_viewsP (Nat.le_refl _) ?_ ?_
      · intro key w hw
        dsimp only at hw
        rw [Assoc.getD_set] at hw
        split at hw
        · obtain ⟨w0, hw0, e⟩ := mem_setActive _ _ _ _ hw
          exact Or.inr ⟨_, w0, hw0, e⟩
        · exact Or.inr ⟨_, w, hw, rfl⟩
      · intro T2 a ha
        exact Or.inr ha
    · simp at hr

/-- Storing a pointer object at the address of a constructed pointer. -/
theorem PtrWF.setPtr {s : State} (h : PtrWF s) (T : TypeTag) (a : PtrAddr) (p : Pointer)
    (ha : a < s.nextPtr) : PtrWF { s with ptrs := s.ptrs.set (T, a) p } := by
  refine h.of_viewsP (Nat.le_refl _) (fun key w hw => Or.inr ⟨_, w, hw, rfl⟩) ?_
  intro T2 x hx
  dsimp only at hx
  rw [Assoc.find_set] at hx
  split at hx
  · rename_i e
    left
    rw [← (Prod.mk.inj e).2]; exact ha
  · exact Or.inr hx

/-- The construction of a pointer object at the next unused address. -/
theorem PtrWF.newPtrW {s : State} (h : PtrWF s) (T : TypeTag) (p : Pointer) :
    PtrWF { s with ptrs := s.ptrs.set (T, s.nextPtr) p, nextPtr := s.nextPtr + 1 } := by
  refine h.of_viewsP (Nat.le_succ _) (fun key w hw => Or.inr ⟨_, w, hw, rfl⟩) ?_
  intro T2 x hx
  dsimp only at hx
  rw [Assoc.find_set] at hx
  split at hx
  · rename_i e
    left
    rw [← (Prod.mk.inj e).2]; exact Nat.lt_succ_self _
  · exact Or.inr hx

theorem PtrWF.erasePtr {s : State} (h : PtrWF s) (T : TypeTag) (a : PtrAddr) :
    PtrWF { s with ptrs := s.ptrs.erase (T, a) } := by
  refine h.of_viewsP (Nat.le_refl _) (fun key w hw => Or.inr ⟨_, w, hw, rfl⟩) ?_
  intro T2 x hx
  dsimp only at hx
  rw [Assoc.find_erase] at hx
  split at hx
  · exact absurd rfl hx
  · exact Or.inr hx

theorem PtrWF.lt_of_find {s : State} (h : PtrWF s) {T : TypeTag} {a : PtrAddr} {p : Pointer}
    (hf : s.ptrs.find (T, a) = some p) : a < s.nextPtr :=
  h.2 T a (by rw [hf]; simp)

theorem PtrWF.getPointerP {s s' : State} (h : PtrWF s) {c : MapPtr} {T K : TypeTag} {k : Key}
    {a : PtrAddr} (hg : getPointer c T K k s = some (a, s')) : PtrWF s' := by
  obtain ⟨f1, f2, f3, f4, _, _, _, f8, _⟩ := getPointer_frame hg
  refine h.of_viewsP (by rw [f2]; exact Nat.le_succ _) ?_ ?_
  · intro key w hw
    by_cases hk : key = (T, c)
    · subst hk
      rcases f4 w hw with rfl | hold
      · left; rw [f2, f1]; exact Nat.lt_succ_self _
      · exact Or.inr ⟨_, w, hold, rfl⟩
    · rw [f3 key hk] at hw
      exact Or.inr ⟨_, w, hw, rfl⟩
  · intro T2 x hx
    by_cases hk : (T2, x) = (T, a)
    · left
      rw [(Prod.mk.inj hk).2, f2, f1]; exact Nat.lt_succ_self _
    · right
      intro hn
      exact hx ((f8 T2 x hk).mpr hn)

end SmartMap

namespace SmartMap

theorem PtrWF.keptP {s s' : State} (h : PtrWF s) (hk : PtrsKept s s') : PtrWF s' := by
  obtain ⟨e1, e2, e3⟩ := hk
  refine ⟨?_, ?_⟩
  · intro key w hw; rw [e1] at hw; rw [e3]; exact h.1 key w hw
  · intro T a ha; rw [e2] at ha; rw [e3]; exact h.2 T a ha

theorem unregisterPointer_ptrs {T : TypeTag} {m : MapPtr} {pid : Id} {s s' : State}
    (hr : unregisterPointer T m pid s = some s') : s'.ptrs = s.ptrs ∧ s'.nextPtr = s.nextPtr := by
  unfold unregisterPointer at hr
  cases hm : s.maps.find m with
  | none => simp [hm] at hr
  | some obj =>
    simp only [hm, Option.bind_eq_bind, Option.some_bind] at hr
    split at hr
    · simp only [Option.some.injEq] at hr
      subst hr
      exact ⟨rfl, rfl⟩
    · simp at hr

/-- The registration of the pointer under construction and its construction. -/
theorem PtrWF.registerNew {s s1 : State} (h : PtrWF s) {T : TypeTag} {m : MapPtr} {pid : Id}
    (hr : registerPointer T m s.nextPtr s = some (pid, s1)) (p : Pointer) :
    PtrWF { s1 with ptrs := s1.ptrs.set (T, s.nextPtr) p, nextPtr := s.nextPtr + 1 } := by
  obtain ⟨_, e1, e2, _, _, _, _, e7, _, _⟩ := registerPointer_effect _ _ _ _ _ _ hr
  refine h.of_viewsP (Nat.le_succ _) ?_ ?_
  · intro key w hw
    dsimp only at hw
    by_cases hk : key = (T, m)
    · subst hk
      rcases registerPointer_mem hr w hw with rfl | hold
      · left; exact Nat.lt_succ_self _
      · exact Or.inr ⟨_, w, hold, rfl⟩
    · rw [e7 key hk] at hw
      exact Or.inr ⟨_, w, hw, rfl⟩
  · intro T2 x hx
    dsimp only at hx
    rw [Assoc.find_set, e1] at hx
    split at hx
    · rename_i e
      left
      rw [← (Prod.mk.inj e).2]; exact Nat.lt_succ_self _
    · exact Or.inr hx

theorem PtrWF.copyConstructP {s s' : State} (h : PtrWF s) {T : TypeTag} {other a : PtrAddr}
    (hc : Pointer.copyConstruct T other s = some (a, s')) : PtrWF s' := by
  unfold Pointer.copyConstruct at hc
  cases ho : s.ptrs.find (T, other) with
  | none => simp [ho] at hc
  | some o =>
    simp only [ho, Option.bind_eq_bind, Option.some_bind] at hc
    cases hm : o._map with
    | none =>
      simp only [hm, Option.some_bind, Option.some.injEq, Prod.mk.injEq] at hc
      obtain ⟨_, rfl⟩ := hc
      exact h.newPtrW T _
    | some m =>
      simp only [hm, Option.bind_eq_some, Option.some.injEq, Prod.mk.injEq] at hc
      obtain ⟨r, hr, _, rfl⟩ := hc
      exact h.registerNew hr _

theorem PtrWF.releaseP {s s' : State} (h : PtrWF s) {T : TypeTag} {other : PtrAddr}
    (hc : Pointer.release T other s = some s') : PtrWF s' := by
  unfold Pointer.release at hc
  cases ho : s.ptrs.find (T, other) with
  | none => simp [ho] at hc
  | some o =>
    have hlt := h.lt_of_find ho
    simp only [ho, Option.bind_eq_bind, Option.some_bind] at hc
    cases hm : o._map with
    | none =>
      simp only [hm, Option.some_bind, Option.some.injEq] at hc
      subst hc
      exact h.setPtr T other _ hlt
    | some m =>
      simp only [hm, Option.bind_eq_some, Option.some.injEq] at hc
      obtain ⟨s1, h1, rfl⟩ := hc
      obtain ⟨_, e2⟩ := unregisterPointer_ptrs h1
      exact (h.unregisterW h1).setPtr T other _ (by rw [e2]; exact hlt)

theorem PtrWF.moveConstructP {s s' : State} (h : PtrWF s) {T : TypeTag} {other a : PtrAddr}
    (hc : Pointer.moveConstruct T other s = some (a, s')) : PtrWF s' := by
  unfold Pointer.moveConstruct at hc
  simp only [Option.bind_eq_bind, Option.bind_eq_some, Option.some.injEq, Prod.mk.injEq] at hc
  obtain ⟨r, hr, s1, h1, _, rfl⟩ := hc
  exact (h.copyConstructP hr).releaseP h1

theorem PtrWF.assignFieldsP {s s' : State} (h : PtrWF s) {T : TypeTag} {this other : PtrAddr}
    (hc : Pointer.assignFields T this other s = some s') : PtrWF s' := by
  unfold Pointer.assignFields at hc
  cases ht : s.ptrs.find (T, this) with
  | none => simp [ht] at hc
  | some t =>
    have hlt := h.lt_of_find ht
    cases ho : s.ptrs.find (T, other) with
    | none => simp [ht, ho] at hc
    | some o =>
      simp only [ht, ho, Option.bind_eq_bind, Option.some_bind] at hc
      cases hm : t._map with
      | none =>
        simp only [hm, Option.some_bind, Option.bind_eq_some, Option.some.injEq] at hc
        obtain ⟨t1, _, o1, _, rfl⟩ := hc
        exact h.setPtr T this _ hlt
      | some m =>
        simp only [hm] at hc
        split at hc
        · simp only [Option.bind_eq_bind, Option.bind_eq_some, Option.some.injEq] at hc
          obtain ⟨s2, h2, m1, _, r, hr, t1, _, o1, _, rfl⟩ := hc
          obtain ⟨_, e2⟩ := unregisterPointer_ptrs h2
          have hlt2 : this < s2.nextPtr := by rw [e2]; exact hlt
          have w2 := (h.unregisterW h2).registerW hlt2 hr
          obtain ⟨_, _, e3, _⟩ := registerPointer_effect _ _ _ _ _ _ hr
          have hlt3 : this < r.2.nextPtr := by rw [e3]; exact hlt2
          exact (w2.setPtr T this _ hlt3).setPtr T this _ hlt3
        · simp only [Option.some_bind, Option.bind_eq_some, Option.some.injEq] at hc
          obtain ⟨t1, _, o1, _, rfl⟩ := hc
          exact h.setPtr T this _ hlt

theorem PtrWF.moveAssignP {s s' : State} (h : PtrWF s) {T : TypeTag} {this other : PtrAddr}
    (hc : Pointer.moveAssign T this other s = some s') : PtrWF s' := by
  unfold Pointer.moveAssign at hc
  simp only [Option.bind_eq_bind, Option.bind_eq_some] at hc
  obtain ⟨s1, h1, h2⟩ := hc
  exact (h.assignFieldsP h1).releaseP h2

theorem PtrWF.destroyP {s s' : State} (h : PtrWF s) {T : TypeTag} {this : PtrAddr}
    (hc : Pointer.destroy T this s = some s') : PtrWF s' := by
  unfold Pointer.destroy at hc
  cases ht : s.ptrs.find (T, this) with
  | none => simp [ht] at hc
  | some t =>
    simp only [ht, Option.bind_eq_bind, Option.some_bind] at hc
    cases hm : t._map with
    | none =>
      simp only [hm, Option.some_bind, Option.some.injEq] at hc
      subst hc
      exact h.erasePtr T this
    | some m =>
      simp only [hm, Option.bind_eq_some, Option.some.injEq] at hc
      obtain ⟨s1, h1, rfl⟩ := hc
      exact (h.unregisterW h1).erasePtr T this

end SmartMap

namespace SmartMap

/-- The loop of `updatePointerMapData<T>` creates and destroys no pointer. -/
theorem updateMapPtrs_live (T : TypeTag) (newMap : Option MapPtr) (ws : List (Wrapper PtrAddr))
    (ptrs ptrs' : Assoc (TypeTag × PtrAddr) Pointer)
    (h : updateMapPtrs T newMap ws ptrs = some ptrs') (key : TypeTag × PtrAddr) :
    ptrs'.find key = none ↔ ptrs.find key = none := by
  induction ws generalizing ptrs with
  | nil =>
    simp only [updateMapPtrs, Option.some.injEq] at h
    subst h; exact Iff.rfl
  | cons w ws ih =>
    unfold updateMapPtrs at h
    by_cases hw : w.active = true
    · simp only [hw, if_true] at h
      cases hf : ptrs.find (T, w.o) with
      | none => simp [hf] at h
      | some p0 =>
        simp only [hf] at h
        refine (ih _ h).trans ?_
        rw [Assoc.find_set]
        split
        · rename_i e
          rw [← e, hf]; simp
        · exact Iff.rfl
    · simp only [hw] at h
      exact ih _ h

theorem PtrWF.updatePointerMapDataP {s s' : State} (h : PtrWF s) {T : TypeTag} {oldMap : MapPtr}
    {newMap : Option MapPtr} (hu : updatePointerMapData T oldMap newMap s = some s') :
    PtrWF s' := by
  unfold updatePointerMapData at hu
  simp only [Option.bind_eq_bind, Option.bind_eq_some, Option.some.injEq] at hu
  obtain ⟨ptrs, hp, rfl⟩ := hu
  refine h.of_viewsP (Nat.le_refl _) ?_ ?_
  · intro key w hw
    dsimp only at hw
    rw [Assoc.getD_ensure] at hw
    exact Or.inr ⟨_, w, hw, rfl⟩
  · intro T2 x hx
    right
    intro hn
    exact hx ((updateMapPtrs_live _ _ _ _ _ hp (T2, x)).mpr hn)

theorem movePool_keptP {T : TypeTag} {oldMap : MapPtr} {newMap : Option MapPtr}
    {s s' : State} (hm : movePool T oldMap newMap s = some s') : PtrsKept s s' := by
  unfold movePool at hm
  cases newMap with
  | none =>
    simp only [Option.some.injEq] at hm
    subst hm; exact ⟨rfl, rfl, rfl⟩
  | some n =>
    simp only [Option.map_eq_some'] at hm
    obtain ⟨m', _, rfl⟩ := hm
    exact ⟨rfl, rfl, rfl⟩

theorem moveIdMap_keptP {T K : TypeTag} {oldMap : MapPtr} {newMap : Option MapPtr}
    {s s' : State} (hm : moveIdMap T K oldMap newMap s = some s') : PtrsKept s s' := by
  unfold moveIdMap at hm
  cases newMap with
  | none =>
    simp only [Option.some.injEq] at hm
    subst hm; exact ⟨rfl, rfl, rfl⟩
  | some n =>
    simp only [Option.map_eq_some'] at hm
    obtain ⟨m', _, rfl⟩ := hm
    exact ⟨rfl, rfl, rfl⟩

theorem PtrWF.movePointerPoolP {s s' : State} (h : PtrWF s) {T : TypeTag} {oldMap : MapPtr}
    {newMap : Option MapPtr} (hm : movePointerPool T oldMap newMap s = some s') : PtrWF s' := by
  unfold movePointerPool at hm
  cases newMap with
  | none =>
    simp only [Option.some.injEq] at hm
    subst hm
    refine h.of_viewsP (Nat.le_refl _) ?_ (fun _ _ hx => Or.inr hx)
    intro key w hw
    dsimp only at hw
    rw [Assoc.getD_erase] at hw
    split at hw
    · simp at hw
    · exact Or.inr ⟨_, w, hw, rfl⟩
  | some n =>
    simp only [Option.map_eq_some'] at hm
    obtain ⟨m', hm', rfl⟩ := hm
    refine h.of_viewsP (Nat.le_refl _) ?_ (fun _ _ hx => Or.inr hx)
    intro key w hw
    dsimp only at hw
    rcases moveNode_getD hm' key {} with e | ⟨key', e⟩
    · rw [e] at hw; simp at hw
    · rw [e] at hw; exact Or.inr ⟨_, w, hw, rfl⟩

theorem PtrWF.runIdMapMoversP {oldMap : MapPtr} {newMap : Option MapPtr}
    (fs : List (Option (TypeTag × TypeTag))) {s s' : State} (h : PtrWF s)
    (hr : runIdMapMovers oldMap newMap fs s = some s') : PtrWF s' := by
  induction fs generalizing s with
  | nil =>
    simp only [runIdMapMovers, Option.some.injEq] at hr
    subst hr; exact h
  | cons f r ih =>
    cases f with
    | none => exact ih h (by simpa [runIdMapMovers] using hr)
    | some f =>
      unfold runIdMapMovers at hr
      cases hm : moveIdMap f.1 f.2 oldMap newMap s with
      | none => simp [hm] at hr
      | some s1 =>
        simp only [hm] at hr
        exact ih (h.keptP (moveIdMap_keptP hm)) hr

theorem PtrWF.moveHelperP {s s' : State} (h : PtrWF s) {m : TypeHelper} {oldMap : MapPtr}
    {newMap : Option MapPtr} (hm : moveHelper m oldMap newMap s = some s') : PtrWF s' := by
  unfold moveHelper at hm
  cases hu : m.pointerMapDataUpdater with
  | none =>
    simp only [hu, Option.some.injEq] at hm
    subst hm; exact h
  | some tu =>
    simp only [hu, Option.bind_eq_bind, Option.bind_eq_some] at hm
    obtain ⟨s1, h1, tp, _, s2, h2, tq, _, s3, h3, h4⟩ := hm
    exact (((h.updatePointerMapDataP h1).keptP (movePool_keptP h2)).movePointerPoolP
      h3).runIdMapMoversP _ h4

theorem PtrWF.moveDataLoopP {oldMap : MapPtr} {newMap : Option MapPtr} (ms : List TypeHelper)
    {s s' : State} (h : PtrWF s) (hm : moveDataLoop oldMap newMap ms s = some s') :
    PtrWF s' := by
  induction ms generalizing s with
  | nil =>
    simp only [moveDataLoop, Option.some.injEq] at hm
    subst hm; exact h
  | cons m r ih =>
    unfold moveDataLoop at hm
    cases h1 : moveHelper m oldMap newMap s with
    | none => simp [h1] at hm
    | some s1 =>
      simp only [h1] at hm
      exact ih (h.moveHelperP h1) hm

theorem PtrWF.moveDataP {s s' : State} (h : PtrWF s) {this oldMap : MapPtr}
    {newMap : Option MapPtr} (hm : moveData this oldMap newMap s = some s') : PtrWF s' := by
  unfold moveData at hm
  simp only [Option.bind_eq_bind, Option.bind_eq_some] at hm
  obtain ⟨m, _, h1⟩ := hm
  exact h.moveDataLoopP _ h1

theorem copyPool_keptP (T : TypeTag) (oldMap newMap : MapPtr) (s : State) :
    PtrsKept s (copyPool T oldMap newMap s) := by
  unfold copyPool
  dsimp only
  split
  · exact ⟨rfl, rfl, rfl⟩
  · exact ⟨rfl, rfl, rfl⟩

theorem PtrWF.copyPointerPoolP {s : State} (h : PtrWF s) (T : TypeTag) (oldMap newMap : MapPtr) :
    PtrWF (copyPointerPool T oldMap newMap s) := by
  have hm : ∀ key, ((s.pointerPoolMap.ensure (T, oldMap) {}).ensure (T, newMap) {}).getD key
      ({} : ObjectPool PtrAddr) = s.pointerPoolMap.getD key {} := by
    intro key; rw [Assoc.getD_ensure, Assoc.getD_ensure]
  unfold copyPointerPool
  dsimp only
  split
  · refine h.of_viewsP (Nat.le_refl _) ?_ (fun _ _ hx => Or.inr hx)
    intro key w hw
    dsimp only at hw
    rw [hm] at hw
    exact Or.inr ⟨_, w, hw, rfl⟩
  · refine h.of_viewsP (Nat.le_refl _) ?_ (fun _ _ hx => Or.inr hx)
    intro key w hw
    dsimp only at hw
    rw [Assoc.getD_set] at hw
    split at hw
    · have hd : ∀ (d src : ObjectPool PtrAddr) (n : Nat), (d.assign src n).1.data = src.data := by
        intro d src n
        unfold ObjectPool.assign
        split <;> rfl
      rw [hd, hm] at hw
      exact Or.inr ⟨_, w, hw, rfl⟩
    · rw [hm] at hw
      exact Or.inr ⟨_, w, hw, rfl⟩

theorem runIdMapCopiers_keptP (oldMap newMap : MapPtr) (fs : List (Option (TypeTag × TypeTag)))
    (s : State) : PtrsKept s (runIdMapCopiers oldMap newMap fs s) := by
  induction fs generalizing s with
  | nil => exact ⟨rfl, rfl, rfl⟩
  | cons f r ih =>
    cases f with
    | none => exact ih s
    | some f =>
      unfold runIdMapCopiers
      obtain ⟨e1, e2, e3⟩ := ih (copyIdMap f.1 f.2 oldMap newMap s)
      exact ⟨e1, e2, e3⟩

theorem PtrWF.copyHelperP {s s' : State} (h : PtrWF s) {m : TypeHelper} {oldMap newMap : MapPtr}
    (hm : copyHelper m oldMap newMap s = some s') : PtrWF s' := by
  unfold copyHelper at hm
  cases hu : m.pointerMapDataUpdater with
  | none =>
    simp only [hu, Option.some.injEq] at hm
    subst hm; exact h
  | some tu =>
    simp only [hu, Option.bind_eq_bind, Option.bind_eq_some, Option.some.injEq] at hm
    obtain ⟨tp, _, tq, _, rfl⟩ := hm
    exact (((h.keptP (copyPool_keptP tp oldMap newMap s)).copyPointerPoolP tq oldMap
      newMap).keptP (runIdMapCopiers_keptP oldMap newMap _ _))

theorem PtrWF.copyDataLoopP {oldMap newMap : MapPtr} (ms : List TypeHelper)
    {s s' : State} (h : PtrWF s) (hm : copyDataLoop oldMap newMap ms s = some s') :
    PtrWF s' := by
  induction ms generalizing s with
  | nil =>
    simp only [copyDataLoop, Option.some.injEq] at hm
    subst hm; exact h
  | cons m r ih =>
    unfold copyDataLoop at hm
    cases h1 : copyHelper m oldMap newMap s with
    | none => simp [h1] at hm
    | some s1 =>
      simp only [h1] at hm
      exact ih (h.copyHelperP h1) hm

theorem PtrWF.copyDataP {s s' : State} (h : PtrWF s) {this oldMap : MapPtr}
    {newMap : Option MapPtr} (hm : copyData this oldMap newMap s = some s') : PtrWF s' := by
  unfold copyData at hm
  cases newMap with
  | none =>
    simp only [Option.some.injEq] at hm
    subst hm; exact h
  | some n =>
    simp only [Option.bind_eq_bind, Option.bind_eq_some] at hm
    obtain ⟨m, _, h1⟩ := hm
    exact h.copyDataLoopP _ h1

theorem store_keptP {T : TypeTag} {a : ObjAddr} {v : Val} {s s' : State}
    (hs : store T a v s = some s') : PtrsKept s s' := by
  unfold store at hs
  simp only [Option.bind_eq_bind, Option.bind_eq_some] at hs
  obtain ⟨e, _, hs⟩ := hs
  split at hs
  · simp only [Option.some.injEq] at hs
    subst hs
    exact ⟨rfl, rfl, rfl⟩
  · simp at hs

theorem PtrWF.stepP {s s' : State} (h : PtrWF s) {op : Op} (hs : step s op = some s') :
    PtrWF s' := by
  cases op with
  | newMap c =>
    simp only [step] at hs
    unfold defaultConstruct at hs
    cases hf : s.maps.find c with
    | some o => simp [hf] at hs
    | none =>
      simp only [hf, Option.some.injEq] at hs
      subst hs; exact h
  | copyMap c other =>
    simp only [step] at hs
    unfold copyConstruct at hs
    cases hf : s.maps.find c with
    | some o => simp [hf] at hs
    | none =>
      simp only [hf, Option.bind_eq_bind, Option.bind_eq_some] at hs
      obtain ⟨o, _, h1⟩ := hs
      refine PtrWF.copyDataP ?_ h1
      exact h
  | moveMap c other =>
    simp only [step] at hs
    unfold moveConstruct at hs
    cases hf : s.maps.find c with
    | some o => simp [hf] at hs
    | none =>
      simp only [hf, Option.bind_eq_bind, Option.bind_eq_some] at hs
      obtain ⟨o, _, h1⟩ := hs
      refine PtrWF.moveDataP ?_ h1
      exact h
  | assignMap c other =>
    simp only [step] at hs
    unfold copyAssign at hs
    simp only [Option.bind_eq_bind, Option.bind_eq_some] at hs
    obtain ⟨s1, h1, o, _, h2⟩ := hs
    have h0 : PtrWF s1 := h.moveDataP h1
    refine PtrWF.copyDataP ?_ h2
    exact h0
  | moveAssignMap c other =>
    simp only [step] at hs
    unfold moveAssign at hs
    simp only [Option.bind_eq_bind, Option.bind_eq_some] at hs
    obtain ⟨s1, h1, o, _, h2⟩ := hs
    split at h2
    · simp at h2
    · have h0 : PtrWF s1 := h.moveDataP h1
      refine PtrWF.moveDataP ?_ h2
      exact h0
  | deleteMap c =>
    simp only [step] at hs
    unfold destroy at hs
    simp only [Option.bind_eq_bind, Option.bind_eq_some, Option.some.injEq] at hs
    obtain ⟨s1, h1, rfl⟩ := hs
    have h0 : PtrWF s1 := h.moveDataP h1
    exact h0
  | get c T K key =>
    simp only [step, Option.map_eq_some'] at hs
    obtain ⟨r, hr, rfl⟩ := hs
    exact h.getPointerP hr
  | newPtr T =>
    simp only [step, Option.some.injEq] at hs
    subst hs
    exact h.newPtrW T _
  | copyPtr T other =>
    simp only [step, Option.map_eq_some'] at hs
    obtain ⟨r, hr, rfl⟩ := hs
    exact h.copyConstructP hr
  | movePtr T other =>
    simp only [step, Option.map_eq_some'] at hs
    obtain ⟨r, hr, rfl⟩ := hs
    exact h.moveConstructP hr
  | assignPtr T p other => exact h.assignFieldsP hs
  | moveAssignPtr T p other => exact h.moveAssignP hs
  | deletePtr T p => exact h.destroyP hs
  | write T p v =>
    simp only [step] at hs
    unfold Pointer.write at hs
    simp only [Option.bind_eq_bind, Option.bind_eq_some] at hs
    obtain ⟨q, _, a, _, h1⟩ := hs
    exact h.keptP (store_keptP h1)

theorem PtrWF.runP (prog : List Op) {s s' : State} (h : PtrWF s)
    (hr : run prog s = some s') : PtrWF s' := by
  induction prog generalizing s with
  | nil =>
    simp only [run, Option.some.injEq] at hr
    subst hr; exact h
  | cons op ops ih =>
    unfold run at hr
    cases h1 : step s op with
    | none => simp [h1] at hr
    | some s1 =>
      simp only [h1] at hr
      exact ih (h.stepP h1) hr

theorem ptrWF_init : PtrWF State.init := by
  refine ⟨?_, ?_⟩
  · intro key w hw
    simp [State.init, Assoc.getD, Assoc.find] at hw
  · intro T a ha
    simp [State.init, Assoc.find] at ha

/-- The statements of `Op` construct every pointer in storage that no earlier
pointer occupied, so in every state that `run` reaches no storage has been
reused.  (A C++ program can reuse the storage of a destroyed pointer:
`reuseStorage`.) -/
theorem reachable_ptrWF {s : State} (h : Reachable s) : PtrWF s := by
  obtain ⟨prog, hp⟩ := h
  exact ptrWF_init.runP prog hp

theorem ptrWF_twoMaps : PtrWF twoMaps := by
  refine ⟨?_, ?_⟩
  · intro key w hw
    simp [twoMaps, State.init, Assoc.getD, Assoc.find] at hw
  · intro T a ha
    simp [twoMaps, State.init, Assoc.find] at ha

theorem bufWF_twoMaps : BufWF twoMaps := by
  refine ⟨by decide, by simp [twoMaps, State.init], ?_, ?_⟩
  · intro k P h; simp [twoMaps, State.init, Assoc.find] at h
  · intro k1 k2 P1 P2 h; simp [twoMaps, State.init, Assoc.find] at h

end SmartMap

namespace SmartMap

/-- The partition of the storage on two new containers: the same key and the
same value type on both, with lookups of another value type on both containers
in between. -/
theorem storage_partitioned_witness :
    BufWF twoMaps ∧ Exclusive twoMaps 1 0 twoMaps.nextPtr ∧
    ((1 : MapPtr) ≠ 2 ∨ (0 : TypeTag) ≠ 0) ∧
    getPointer 1 0 0 1 twoMaps = some (1, partS1) ∧
    lookupsOn [(1, 1, 0, 1), (2, 1, 0, 1)] partS1 = some partS2 ∧
    getPointer 2 0 0 1 partS2 = some (4, partS3) ∧
    (∃ p1 p2, partS3.ptrs.find (0, 1) = some p1 ∧ partS3.ptrs.find (0, 4) = some p2 ∧
      p1._map = some 1 ∧ p2._map = some 2 ∧
      keyIndex partS3 1 0 0 1 = some p1._objectId ∧
      keyIndex partS3 2 0 0 1 = some p2._objectId ∧
      p1._objectId < (partS3.poolMap.getD (0, 1) {}).data.length ∧
      p2._objectId < (partS3.poolMap.getD (0, 2) {}).data.length ∧
      p1._objectPtr = some ⟨(partS3.poolMap.getD (0, 1) {}).buf, p1._objectId⟩ ∧
      p2._objectPtr = some ⟨(partS3.poolMap.getD (0, 2) {}).buf, p2._objectId⟩ ∧
      (partS3.poolMap.getD (0, 1) {}).buf ≠ (partS3.poolMap.getD (0, 2) {}).buf ∧
      p1._objectPtr ≠ p2._objectPtr ∧
      (∀ v, ∃ s4 u, Pointer.write 0 4 v partS3 = some s4 ∧ Pointer.read 0 1 partS3 = some u ∧
        Pointer.read 0 1 s4 = some u ∧ Pointer.read 0 4 s4 = some v) ∧
      (∀ v, ∃ s4 u, Pointer.write 0 1 v partS3 = some s4 ∧ Pointer.read 0 4 partS3 = some u ∧
        Pointer.read 0 4 s4 = some u ∧ Pointer.read 0 1 s4 = some v)) :=
  ⟨bufWF_twoMaps, ptrWF_twoMaps.exclusive_next 1 0, Or.inl (by decide), by rfl, by rfl, by rfl,
    storage_partitioned twoMaps partS1 partS2 partS3 1 2 0 0 0 0 1 1 1 4
      [(1, 1, 0, 1), (2, 1, 0, 1)] bufWF_twoMaps (ptrWF_twoMaps.exclusive_next 1 0)
      (Or.inl (by decide)) (by rfl) (by rfl) (by rfl)⟩

end SmartMap

namespace SmartMap

/-! ## Supplements to C13, C14 and C17: the operations that meet their contracts -/

/-- The copy constructor of `Pointer` and the copy assignment to an attached
pointer register the target with the container of the source: after
`copyPointers` the pointers `p4` (copy constructed), `p2` (assigned, same
container) and `p3` (assigned, other container) are attached to `c1`, each is
named by the active wrapper with its pointer id in the pointer pool of `c1`,
and each has the object id and the cached address of the source `p1`, which
is unchanged; the wrapper of `p3` in the pointer pool of `c2` is inactive. -/
theorem pointer_copies_attached :
    run copyPointers State.init = some (finalState copyPointers) ∧
    (finalState copyPointers).ptrs = [
      ((0, 1), ⟨some 1, 0, some ⟨3, 0⟩, 0⟩), ((0, 2), ⟨some 1, 0, some ⟨3, 0⟩, 1⟩),
      ((0, 3), ⟨some 1, 0, some ⟨3, 0⟩, 3⟩), ((0, 4), ⟨some 1, 0, some ⟨3, 0⟩, 2⟩)] ∧
    ((finalState copyPointers).pointerPoolMap.find (0, 1)).map (fun p => p.data) =
      some [⟨1, true⟩, ⟨2, true⟩, ⟨4, true⟩, ⟨3, true⟩] ∧
    ((finalState copyPointers).pointerPoolMap.find (0, 2)).map (fun p => p.data) =
      some [⟨3, false⟩] ∧
    ((finalState copyPointers).poolMap.getD (0, 1) {}).buf = 3 := by
  refine ⟨by rfl, by decide, by decide, by decide, by decide⟩

/-- The move constructor of `Pointer` and the move assignment to an attached
pointer: after `movePointers` the targets `p5` (move constructed) and `p4`
(assigned, other container) are attached to `c1` and named by active wrappers
of the pointer pool of `c1`, the sources `p1`, `p2` and `p3` are detached with
a null object pointer, and their wrappers are inactive. -/
theorem pointer_moves_attached :
    run movePointers State.init = some (finalState movePointers) ∧
    (finalState movePointers).ptrs = [
      ((0, 1), ⟨none, 0, none, 0⟩), ((0, 2), ⟨none, 1, none, 1⟩), ((0, 3), ⟨none, 1, none, 2⟩),
      ((0, 4), ⟨some 1, 1, some ⟨5, 1⟩, 0⟩), ((0, 5), ⟨some 1, 0, some ⟨5, 0⟩, 3⟩)] ∧
    ((finalState movePointers).pointerPoolMap.find (0, 1)).map (fun p => p.data) =
      some [⟨4, true⟩, ⟨2, false⟩, ⟨3, false⟩, ⟨5, true⟩] ∧
    ((finalState movePointers).pointerPoolMap.find (0, 2)).map (fun p => p.data) =
      some [⟨4, false⟩] ∧
    ((finalState movePointers).poolMap.getD (0, 1) {}).buf = 5 := by
  refine ⟨by rfl, by decide, by decide, by decide, by decide⟩

theorem SourceKept.refl_source (s : State) (c : MapPtr) : SourceKept s s c :=
  ⟨rfl, rfl, rfl, fun _ => rfl, fun _ => rfl, fun _ _ => rfl⟩

theorem SourceKept.trans_source {s s1 s2 : State} {c : MapPtr} (h1 : SourceKept s s1 c)
    (h2 : SourceKept s1 s2 c) : SourceKept s s2 c := by
  obtain ⟨a1, a2, a3, a4, a5, a6⟩ := h1
  obtain ⟨b1, b2, b3, b4, b5, b6⟩ := h2
  exact ⟨by rw [b1, a1], by rw [b2, a2], by rw [b3, a3], fun T => by rw [b4, a4],
    fun T => by rw [b5, a5], fun T K => by rw [b6, a6]⟩

theorem copyPool_source (T : TypeTag) {oldMap newMap : MapPtr} (hne : newMap ≠ oldMap)
    (s : State) : SourceKept s (copyPool T oldMap newMap s) oldMap := by
  have hm : ∀ key, ((s.poolMap.ensure (T, oldMap) {}).ensure (T, newMap) {}).getD key
      ({} : ObjectPool Val) = s.poolMap.getD key {} := by
    intro key; rw [Assoc.getD_ensure, Assoc.getD_ensure]
  unfold copyPool
  dsimp only
  rw [if_neg (fun e => hne e.symm)]
  refine ⟨rfl, rfl, rfl, ?_, fun _ => rfl, fun _ _ => rfl⟩
  intro T2
  dsimp only
  rw [Assoc.getD_set, if_neg (fun e => hne (Prod.mk.inj e).2), hm]

theorem copyPointerPool_source (T : TypeTag) {oldMap newMap : MapPtr} (hne : newMap ≠ oldMap)
    (s : State) : SourceKept s (copyPointerPool T oldMap newMap s) oldMap := by
  have hm : ∀ key, ((s.pointerPoolMap.ensure (T, oldMap) {}).ensure (T, newMap) {}).getD key
      ({} : ObjectPool PtrAddr) = s.pointerPoolMap.getD key {} := by
    intro key; rw [Assoc.getD_ensure, Assoc.getD_ensure]
  unfold copyPointerPool
  dsimp only
  rw [if_neg (fun e => hne e.symm)]
  refine ⟨rfl, rfl, rfl, fun _ => rfl, ?_, fun _ _ => rfl⟩
  intro T2
  dsimp only
  rw [Assoc.getD_set, if_neg (fun e => hne (Prod.mk.inj e).2), hm]

theorem copyIdMap_source (T K : TypeTag) {oldMap newMap : MapPtr} (hne : newMap ≠ oldMap)
    (s : State) : SourceKept s (copyIdMap T K oldMap newMap s) oldMap := by
  unfold copyIdMap
  refine ⟨rfl, rfl, rfl, fun _ => rfl, fun _ => rfl, ?_⟩
  intro T2 K2
  dsimp only
  rw [Assoc.getD_set, if_neg (fun e => hne (Prod.mk.inj (Prod.mk.inj e).2).2),
    Assoc.getD_ensure, Assoc.getD_ensure]

theorem runIdMapCopiers_source {oldMap newMap : MapPtr} (hne : newMap ≠ oldMap)
    (fs : List (Option (TypeTag × TypeTag))) (s : State) :
    SourceKept s (runIdMapCopiers oldMap newMap fs s) oldMap := by
  induction fs generalizing s with
  | nil => exact SourceKept.refl_source _ _
  | cons f r ih =>
    cases f with
    | none => exact ih s
    | some f =>
      unfold runIdMapCopiers
      exact (copyIdMap_source f.1 f.2 hne s).trans_source (ih _)

theorem copyHelper_source {m : TypeHelper} {oldMap newMap : MapPtr} (hne : newMap ≠ oldMap)
    {s s' : State} (hm : copyHelper m oldMap newMap s = some s') : SourceKept s s' oldMap := by
  unfold copyHelper at hm
  cases hu : m.pointerMapDataUpdater with
  | none =>
    simp only [hu, Option.some.injEq] at hm
    subst hm; exact SourceKept.refl_source _ _
  | some tu =>
    simp only [hu, Option.bind_eq_bind, Option.bind_eq_some, Option.some.injEq] at hm
    obtain ⟨tp, _, tq, _, rfl⟩ := hm
    exact ((copyPool_source tp hne s).trans_source (copyPointerPool_source tq hne _)).trans_source
      (runIdMapCopiers_source hne _ _)

theorem copyDataLoop_source {oldMap newMap : MapPtr} (hne : newMap ≠ oldMap)
    (ms : List TypeHelper) {s s' : State} (hm : copyDataLoop oldMap newMap ms s = some s') :
    SourceKept s s' oldMap := by
  induction ms generalizing s with
  | nil =>
    simp only [copyDataLoop, Option.some.injEq] at hm
    subst hm; exact SourceKept.refl_source _ _
  | cons m r ih =>
    unfold copyDataLoop at hm
    cases h1 : copyHelper m oldMap newMap s with
    | none => simp [h1] at hm
    | some s1 =>
      simp only [h1] at hm
      exact (copyHelper_source hne h1).trans_source (ih hm)

/-- The copy constructor `SmartMap c2 = c1` leaves the source untouched: the
pools, pointer pools and id maps of `c1`, its `_typeHelpers`, and every
pointer are the same after the construction. -/
theorem copyConstruct_source {this other : MapPtr} {s s' : State}
    (h : copyConstruct this other s = some s') :
    this ≠ other ∧ s'.ptrs = s.ptrs ∧ s'.maps.find other = s.maps.find other ∧
    (∀ T, s'.poolMap.getD (T, other) {} = s.poolMap.getD (T, other) {}) ∧
    (∀ T, s'.pointerPoolMap.getD (T, other) {} = s.pointerPoolMap.getD (T, other) {}) ∧
    (∀ T K, s'.idMapMap.getD (T, K, other) [] = s.idMapMap.getD (T, K, other) []) := by
  unfold copyConstruct at h
  cases hf : s.maps.find this with
  | some o => simp [hf] at h
  | none =>
    simp only [hf, Option.bind_eq_bind, Option.bind_eq_some] at h
    obtain ⟨o, ho, h1⟩ := h
    have hne : this ≠ other := by
      intro e; rw [e, ho] at hf; simp at hf
    unfold copyData at h1
    simp only [Option.bind_eq_bind, Option.bind_eq_some] at h1
    obtain ⟨m, _, h2⟩ := h1
    obtain ⟨e1, _, e3, e4, e5, e6⟩ := copyDataLoop_source hne _ h2
    refine ⟨hne, e1, ?_, e4, e5, e6⟩
    rw [e3]
    dsimp only
    rw [Assoc.find_set, if_neg hne]

end SmartMap

namespace SmartMap

/-! ## C21: attached pointers -/

/-- C21 (handle invariant) at a failing input.  The state after
`copyThenGrowCopy` is reachable.  In it the pointer `p1` is attached to `c1`
and the wrapper with its pointer id in the pointer pool of `c1` is active and
holds its address, but its cached object pointer is the address of slot 0 of
the pool of `c2`, not of slot 0 of the pool of `c1`: the copied pointer pool of
`c2` names `p1`, and the growth of the pool of `c2` resynchronised it.  A write
through `p1` changes slot 0 of `c2` and leaves slot 0 of `c1` as it is. -/
theorem attached_pointer_caches_other_pool :
    Reachable (finalState copyThenGrowCopy) ∧
    (finalState copyThenGrowCopy).ptrs.find (0, 1) = some ⟨some 1, 0, some ⟨5, 0⟩, 0⟩ ∧
    ((finalState copyThenGrowCopy).pointerPoolMap.getD (0, 1) {}).data[0]? = some ⟨1, true⟩ ∧
    ((finalState copyThenGrowCopy).poolMap.getD (0, 1) {}).addr 0 = some ⟨1, 0⟩ ∧
    ((finalState copyThenGrowCopy).poolMap.getD (0, 2) {}).addr 0 = some ⟨5, 0⟩ ∧
    objectPtrOf (finalState copyThenGrowCopy) 0 1 ≠
      some (((finalState copyThenGrowCopy).poolMap.getD (0, 1) {}).addr 0) ∧
    (Pointer.write 0 1 9 (finalState copyThenGrowCopy)).map
      (fun s => (slotValue s 1 0 0, slotValue s 2 0 0)) = some (some 7, some 9) := by
  refine ⟨⟨copyThenGrowCopy, by rfl⟩, by decide, by decide, by decide, by decide, by decide,
    by decide⟩

/-! ## C22: the wrappers of a pointer pool -/

/-- C22 (registry entries belong to their container) at a failing input.
Right after the copy `SmartMap c2 = c1`, in a reachable state, the pointer pool
of `c2` has an active wrapper that holds the address of `p1`, and `p1` is
attached to `c1`.  After the destruction of `p1`, again a reachable state, the
wrapper of the pointer pool of `c2` is still active and names no live pointer:
the lookup of a new key on `c2` and the destruction of `c2` write through the
dangling address. -/
theorem copied_registry_names_source_pointer :
    Reachable (finalState copyOnce) ∧
    ((finalState copyOnce).pointerPoolMap.getD (0, 2) {}).data = [⟨1, true⟩] ∧
    (finalState copyOnce).ptrs.find (0, 1) = some ⟨some 1, 0, some ⟨1, 0⟩, 0⟩ ∧
    Reachable (finalState copyThenDelete) ∧
    ((finalState copyThenDelete).pointerPoolMap.getD (0, 1) {}).data = [⟨1, false⟩] ∧
    ((finalState copyThenDelete).pointerPoolMap.getD (0, 2) {}).data = [⟨1, true⟩] ∧
    (finalState copyThenDelete).ptrs.find (0, 1) = none ∧
    (finalState copyThenDelete).maps.find 2 ≠ none ∧
    getPointer 2 0 0 2 (finalState copyThenDelete) = none ∧
    destroy 2 (finalState copyThenDelete) = none := by
  refine ⟨⟨copyOnce, by rfl⟩, by decide, by decide, ⟨copyThenDelete, by rfl⟩, by decide,
    by decide, by decide, by decide, by rfl, by rfl⟩

/-! ## C23: self assignment of a container -/

/-- C23 (self copy-assignment) at a failing input.  Before `c1 = c1` the key
`k1` has slot 0, which holds 7, and `p1` is attached to `c1` and reads 7.  The
assignment first runs `moveData(this, nullptr)`: afterwards `_typeHelpers` is
unchanged, but the pool, the pointer pool and the id map of `c1` are empty,
`p1` is detached and still caches the address of the released storage, so a
read through it is undefined, and a new lookup of `k1` returns a pointer to a
new slot that holds the default value. -/
theorem self_copyAssign_erases :
    run selfAssign State.init = some (finalState selfAssign) ∧
    keyIndex (finalState oneValue) 1 0 0 1 = some 0 ∧
    slotValue (finalState oneValue) 1 0 0 = some 7 ∧
    mapOf (finalState oneValue) 0 1 = some (some 1) ∧
    Pointer.read 0 1 (finalState oneValue) = some 7 ∧
    (finalState selfAssign).maps.find 1 = (finalState oneValue).maps.find 1 ∧
    keyIndex (finalState selfAssign) 1 0 0 1 = none ∧
    ((finalState selfAssign).poolMap.getD (0, 1) {}).data = [] ∧
    ((finalState selfAssign).pointerPoolMap.getD (0, 1) {}).data = [] ∧
    (finalState selfAssign).ptrs.find (0, 1) = some ⟨none, 0, some ⟨1, 0⟩, 0⟩ ∧
    Pointer.read 0 1 (finalState selfAssign) = none ∧
    run selfAssignLookup State.init = some (finalState selfAssignLookup) ∧
    Pointer.read 0 2 (finalState selfAssignLookup) = some 0 := by
  refine ⟨by rfl, by decide, by decide, by decide, by decide, by decide, by decide, by decide,
    by decide, by decide, by decide, by rfl, by decide⟩

end SmartMap

namespace SmartMap

/-! ## C16: storage partitioned by container and by value type -/

/-- The state `reuseS0` has well-formed pool buffers, and the pointer pool of
`c2` names the storage in which the next pointer is constructed: of the
conditions of `storage_partitioned` for a lookup on `c3`, only the one on the
storage fails. -/
theorem reuseS0_conditions :
    BufWF reuseS0 ∧ reuseS0.nextPtr = 1 ∧ ¬ Exclusive reuseS0 3 0 reuseS0.nextPtr := by
  refine ⟨?_, by decide, ?_⟩
  · have h : BufWF (finalState reusePrefix) := reachable_bufWF ⟨reusePrefix, by rfl⟩
    exact h.kept ⟨by rfl, by decide⟩
  · intro h
    exact h 2 (by decide) ⟨1, true⟩ (by decide) rfl

/-- C16 (storage partitioned by container and by value type) at a failing
input.  The pointer `p1` of `c1` is destroyed while the copy `c2` of `c1` is
alive, so the copied pointer pool of `c2` keeps an active wrapper with the
address of `p1`.  The container `c3` is new; it is not related to `c2` by a
copy or a move.  The pointer `h1 = c3.getPointer<std::string>(k1)` is
constructed in the storage of the destroyed `p1`; it reads the value of `c3`.
The lookup of a new key on `c2` makes the pool of `c2` grow, and the
resynchronisation writes the address of slot 0 of the pool of `c2` into `h1`.
Then `h1`, which is attached to `c3`, and `h3 = c2.getPointer<std::string>(k1)`
cache the same address: `h1` reads the value 7 of `c2`, and a write through
`h3` is read through `h1`, while slot 0 of the pool of `c3` keeps its value. -/
theorem storage_shared_after_reuse :
    run reusePrefix State.init = some (finalState reusePrefix) ∧
    (finalState reusePrefix).ptrs = [] ∧
    ((finalState reusePrefix).pointerPoolMap.getD (0, 2) {}).data = [⟨1, true⟩] ∧
    (finalState reusePrefix).maps.find 3 = some ⟨[]⟩ ∧
    reuseStorage 1 (finalState reusePrefix) = some reuseS0 ∧
    getPointer 3 0 0 1 reuseS0 = some (1, reuseS1) ∧
    Pointer.read 0 1 reuseS1 = some 0 ∧
    lookupsOn [(2, 0, 0, 2)] reuseS1 = some reuseS2 ∧
    getPointer 2 0 0 1 reuseS2 = some (3, reuseS3) ∧
    mapOf reuseS3 0 1 = some (some 3) ∧ mapOf reuseS3 0 3 = some (some 2) ∧
    keyIndex reuseS3 3 0 0 1 = some 0 ∧ keyIndex reuseS3 2 0 0 1 = some 0 ∧
    objectIdOf reuseS3 0 1 = some 0 ∧ objectIdOf reuseS3 0 3 = some 0 ∧
    (reuseS3.poolMap.getD (0, 3) {}).buf ≠ (reuseS3.poolMap.getD (0, 2) {}).buf ∧
    objectPtrOf reuseS3 0 1 = some (some ⟨(reuseS3.poolMap.getD (0, 2) {}).buf, 0⟩) ∧
    objectPtrOf reuseS3 0 3 = objectPtrOf reuseS3 0 1 ∧
    slotValue reuseS3 3 0 0 = some 0 ∧
    Pointer.read 0 1 reuseS3 = some 7 ∧
    (Pointer.write 0 3 9 reuseS3).bind (Pointer.read 0 1) = some 9 ∧
    (Pointer.write 0 3 9 reuseS3).map (fun s => slotValue s 3 0 0) = some (some 0) := by
  refine ⟨by rfl, by decide, by decide, by decide, by rfl, by rfl, by decide, by rfl, by rfl,
    by decide, by decide, by decide, by decide, by decide, by decide, by decide, by decide,
    by decide, by decide, by decide, by decide, by decide⟩

end SmartMap
